import Mathlib

/-!
# proxy-rfc2217: protocol codec, registry, sessions and dispatcher

A shallow embedding of the protocol codec of the proxy
(`internal/connection/usrvcom.go`, `rfc2217.go`, `protocol.go`), of the device
registry (`internal/device/registry.go`), of the session manager, the bridge
copy loop and the bridge keepalive (`internal/session/manager.go`, `bridge.go`) and of the connection
dispatcher (`internal/connection/handler.go`), together with the properties of
them that the specification states.

Conventions of the embedding:

* a Go `byte` is a `Fin 256`; a `[]byte` and a `string` are a `List Byte`
  (a Go string is a byte sequence, `strings.HasPrefix` and friends are bytewise);
* a `uint32` is a `Nat` (bounded where the bound matters);
* a nil pointer result is `none`; a sentinel index `-1` is `none`;
* a `for` loop over an index is a recursion on a fuel argument that the
  top-level function instantiates with a bound that always suffices;
* a `time.Duration` is an `Int` of nanoseconds; a `float64` is the rational it stands
  for, and its operations round to nearest, ties to even;
* shared state (the `sync.Map` of the registry and of the manager) is passed
  explicitly and the calls are taken one after another; a `net.Conn` is a number,
  and what is done to connections, channels and callbacks is recorded as events.
-/

namespace ProxyRFC2217

/-! ## Bytes -/

/-- A byte, Go `byte` / `uint8`. -/
abbrev Byte := Fin 256

/-- Conversion `uint8(n)`: truncation to the low eight bits. -/
def byteOfNat (n : Nat) : Byte := ⟨n % 256, Nat.mod_lt _ (by decide)⟩

/-! ## RFC 2217 constants (`rfc2217.go`) -/

/-- IAC, Interpret As Command. -/
def IAC : Byte := 0xFF
/-- SB, Subnegotiation Begin. -/
def SB : Byte := 0xFA
/-- SE, Subnegotiation End. -/
def SE : Byte := 0xF0
/-- COM-PORT-OPTION (44). -/
def ComPortOption : Byte := 0x2C
def SetBaudrate : Byte := 0x01
def SetDatasize : Byte := 0x02
def SetParity : Byte := 0x03
def SetStopsize : Byte := 0x04
def SetControl : Byte := 0x05
/-- Server responses use command code + 100. -/
def ServerResponseOffset : Nat := 100

/-- RFC2217Command: a parsed RFC 2217 subnegotiation. -/
structure RFC2217Command where
  Command : Byte
  Data : List Byte
deriving DecidableEq, Repr

/-- RFC2217Buffer: the commands received before the AT command and the raw bytes. -/
structure RFC2217Buffer where
  Commands : List RFC2217Command
  RawData : List Byte
deriving DecidableEq, Repr

/-! ## USR-VCOM (`usrvcom.go`) -/

def USRVCOMHeaderLen : Nat := 3
def USRVCOMPacketLen : Nat := 8

/-- USRVCOMConfig: serial port configuration parsed from a USR-VCOM packet. -/
structure USRVCOMConfig where
  /-- A `uint32`. -/
  BaudRate : Nat
  DataBits : Byte
  /-- Parity: 0=None, 1=Odd, 2=Even, 3=Mark, 4=Space. -/
  Parity : Byte
  StopBits : Byte
  Valid : Bool
  RawData : List Byte
deriving DecidableEq, Repr

/-- The header search of `ParseUSRVCOM`,
`for i := i; i <= len(data)-USRVCOMPacketLen; i++ { if data[i..i+3) == 55 AA 55 { idx = i; break } }`.
The result `none` is the source's `idx = -1`. -/
def findUSRVCOMHeader (data : List Byte) : Nat → Nat → Option Nat
  | 0, _ => none
  | fuel + 1, i =>
    if i + USRVCOMPacketLen ≤ data.length then
      if data.getD i 0 = 0x55 ∧ data.getD (i + 1) 0 = 0xAA ∧ data.getD (i + 2) 0 = 0x55 then
        some i
      else findUSRVCOMHeader data fuel (i + 1)
    else none

/-- The checksum the source computes for a packet,
`(packet[3] + packet[4] + packet[5] + packet[6]) & 0xFF` in byte arithmetic. -/
def USRVCOMCalculatedChecksum (packet : List Byte) : Byte :=
  byteOfNat (((packet.getD 3 0).val + (packet.getD 4 0).val + (packet.getD 5 0).val
    + (packet.getD 6 0).val) % 256 &&& 0xFF)

/-- The condition under which `ParseUSRVCOM` logs a checksum mismatch
(`checksum != calculated`); the log line is its only effect. -/
def USRVCOMChecksumMismatch (packet : List Byte) : Bool :=
  decide (packet.getD 7 0 ≠ USRVCOMCalculatedChecksum packet)

/-- ParseUSRVCOM parses a USR-VCOM Baud Rate Sync packet from data; `none` is the nil result. -/
def ParseUSRVCOM (data : List Byte) : Option USRVCOMConfig :=
  if data.length < USRVCOMPacketLen then none
  else
    match findUSRVCOMHeader data data.length 0 with
    | none => none
    | some idx =>
      let packet := (data.drop idx).take USRVCOMPacketLen
      let baudRate := ((packet.getD 3 0).val <<< 16) ||| ((packet.getD 4 0).val <<< 8)
        ||| (packet.getD 5 0).val
      let param := packet.getD 6 0
      let dataBits : Byte := byteOfNat (5 + (param.val &&& 0x03))
      let stopBits : Byte := if param.val &&& 0x04 ≠ 0 then 2 else 1
      let parity : Byte :=
        if param.val &&& 0x08 ≠ 0 then
          match (param.val >>> 4) &&& 0x03 with
          | 0 => 1
          | 1 => 2
          | 2 => 3
          | 3 => 4
          | _ => 0
        else 0
      some { BaudRate := baudRate, DataBits := dataBits, Parity := parity, StopBits := stopBits,
             Valid := true, RawData := packet }

/-- IsUSRVCOM checks if data starts with the USR-VCOM header. -/
def IsUSRVCOM (data : List Byte) : Bool :=
  if data.length < USRVCOMHeaderLen then false
  else decide (data.getD 0 0 = 0x55 ∧ data.getD 1 0 = 0xAA ∧ data.getD 2 0 = 0x55)

/-- The four bytes written by `binary.BigEndian.PutUint32(b, v)`. -/
def putUint32 (v : Nat) : List Byte :=
  [byteOfNat (v >>> 24), byteOfNat (v >>> 16), byteOfNat (v >>> 8), byteOfNat v]

/-- ToRFC2217Commands converts a USR-VCOM config to RFC 2217 commands. -/
def USRVCOMConfig.ToRFC2217Commands (c : USRVCOMConfig) : List RFC2217Command :=
  if !c.Valid then []
  else
    let commands : List RFC2217Command := []
    let baudData := putUint32 c.BaudRate
    let commands := commands ++ [{ Command := SetBaudrate, Data := baudData }]
    let commands := commands ++ [{ Command := SetDatasize, Data := [c.DataBits] }]
    let commands := commands ++ [{ Command := SetParity, Data := [c.Parity] }]
    let commands := commands ++ [{ Command := SetStopsize, Data := [c.StopBits] }]
    commands

/-- The loop body of `BuildRFC2217Packet`: append `IAC SB COM-PORT-OPTION <cmd> <data...> IAC SE`
for each command in turn. -/
def buildRFC2217PacketLoop : List RFC2217Command → List Byte → List Byte
  | [], packet => packet
  | cmd :: rest, packet =>
    let packet := packet ++ [IAC, SB, ComPortOption, cmd.Command]
    let packet := packet ++ cmd.Data
    let packet := packet ++ [IAC, SE]
    buildRFC2217PacketLoop rest packet

/-- BuildRFC2217Packet builds the RFC 2217 packet for sending to the device. -/
def USRVCOMConfig.BuildRFC2217Packet (c : USRVCOMConfig) : List Byte :=
  let commands := c.ToRFC2217Commands
  if commands.length = 0 then []
  else buildRFC2217PacketLoop commands []

/-! ## RFC 2217 subnegotiations (`rfc2217.go`) -/

/-- The inner search of `ParseRFC2217Commands`,
`for j := j; j < len(data)-1; j++ { if data[j] == IAC && data[j+1] == SE { end = j; break } }`.
The result `none` is the source's `end = -1`. -/
def findIACSE (data : List Byte) : Nat → Nat → Option Nat
  | 0, _ => none
  | fuel + 1, j =>
    if j + 1 < data.length then
      if data.getD j 0 = IAC ∧ data.getD (j + 1) 0 = SE then some j
      else findIACSE data fuel (j + 1)
    else none

/-- The scanning loop `for i < len(data)-2 { ... }` of `ParseRFC2217Commands`, from index `i`
with the commands collected so far. Every iteration advances `i`, so
`len(data)` iterations always suffice. -/
def parseRFC2217Loop (data : List Byte) : Nat → Nat → List RFC2217Command → List RFC2217Command
  | 0, _, commands => commands
  | fuel + 1, i, commands =>
    if i + 2 < data.length then
      if data.getD i 0 = IAC ∧ data.getD (i + 1) 0 = SB ∧ i + 2 < data.length
          ∧ data.getD (i + 2) 0 = ComPortOption then
        let start := i + 3
        match findIACSE data data.length start with
        | some e =>
          if e > start then
            let cmdData := (data.drop start).take (e - start)
            let commands :=
              if cmdData.length ≥ 1 then
                commands ++ [{ Command := cmdData.getD 0 0, Data := cmdData.drop 1 }]
              else commands
            parseRFC2217Loop data fuel (e + 2) commands
          else parseRFC2217Loop data fuel (i + 1) commands
        | none => parseRFC2217Loop data fuel (i + 1) commands
      else parseRFC2217Loop data fuel (i + 1) commands
    else commands

/-- ParseRFC2217Commands parses RFC 2217 subnegotiations from raw bytes. -/
def ParseRFC2217Commands (data : List Byte) : RFC2217Buffer :=
  { Commands := parseRFC2217Loop data data.length 0 [], RawData := data }

/-- The header test of `ParseRFC2217Commands`,
`data[i] == IAC && data[i+1] == SB && i+2 < len(data) && data[i+2] == ComPortOption`, evaluated
from left to right with every index checked: `none` is an index out of range. -/
def isHeaderChecked (data : List Byte) (i : Nat) : Option Bool :=
  match data[i]? with
  | none => none
  | some a =>
    if a = IAC then
      match data[i + 1]? with
      | none => none
      | some b =>
        if b = SB then
          if i + 2 < data.length then
            match data[i + 2]? with
            | none => none
            | some c => some (decide (c = ComPortOption))
          else some false
        else some false
    else some false

/-- The inner search of `ParseRFC2217Commands` with every index checked. The result `none` is
an index out of range, or a search that is not over when the fuel is used up; `some none` is
the source's `end = -1`. -/
def findIACSEChecked (data : List Byte) : Nat → Nat → Option (Option Nat)
  | 0, j => if j + 1 < data.length then none else some none
  | fuel + 1, j =>
    if j + 1 < data.length then
      match data[j]? with
      | none => none
      | some a =>
        if a = IAC then
          match data[j + 1]? with
          | none => none
          | some b => if b = SE then some (some j) else findIACSEChecked data fuel (j + 1)
        else findIACSEChecked data fuel (j + 1)
    else some none

/-- The scanning loop of `ParseRFC2217Commands` with every index and slice bound checked. The
result `none` is an index or a slice bound out of range (`data[start:end]` needs
`start <= end <= len(data)`, `cmdData[0]` and `cmdData[1:]` need `1 <= len(cmdData)`), or a
scan that is not over when the fuel is used up. -/
def parseRFC2217LoopChecked (data : List Byte) :
    Nat → Nat → List RFC2217Command → Option (List RFC2217Command)
  | 0, i, commands => if i + 2 < data.length then none else some commands
  | fuel + 1, i, commands =>
    if i + 2 < data.length then
      match isHeaderChecked data i with
      | none => none
      | some false => parseRFC2217LoopChecked data fuel (i + 1) commands
      | some true =>
        let start := i + 3
        match findIACSEChecked data data.length start with
        | none => none
        | some none => parseRFC2217LoopChecked data fuel (i + 1) commands
        | some (some e) =>
          if e > start then
            if start ≤ e ∧ e ≤ data.length then
              let cmdData := (data.drop start).take (e - start)
              if cmdData.length ≥ 1 then
                match cmdData[0]? with
                | none => none
                | some command =>
                  parseRFC2217LoopChecked data fuel (e + 2)
                    (commands ++ [{ Command := command, Data := cmdData.drop 1 }])
              else parseRFC2217LoopChecked data fuel (e + 2) commands
            else none
          else parseRFC2217LoopChecked data fuel (i + 1) commands
    else some commands

/-- ParseRFC2217Commands with every index and slice bound checked and `len(data)` iterations
of the scan allowed; `none` is a panic or a scan that needs more iterations. -/
def ParseRFC2217CommandsChecked (data : List Byte) : Option RFC2217Buffer :=
  (parseRFC2217LoopChecked data data.length 0 []).map
    (fun commands => { Commands := commands, RawData := data })

/-- BuildResponse builds the RFC 2217 server response for a command; the opcode addition is
byte arithmetic. -/
def RFC2217Command.BuildResponse (c : RFC2217Command) : List Byte :=
  let resp := [IAC, SB, ComPortOption, byteOfNat (c.Command.val + ServerResponseOffset)]
  let resp := resp ++ c.Data
  let resp := resp ++ [IAC, SE]
  resp

/-- The value read by `binary.BigEndian.Uint32(b)` from the first four bytes of `b`. -/
def bigEndianUint32 (b : List Byte) : Nat :=
  (b.getD 3 0).val ||| ((b.getD 2 0).val <<< 8) ||| ((b.getD 1 0).val <<< 16)
    ||| ((b.getD 0 0).val <<< 24)

/-- IsQuery returns true if this is a query command (value 0). -/
def RFC2217Command.IsQuery (c : RFC2217Command) : Bool :=
  if c.Command = SetBaudrate then
    if c.Data.length ≥ 4 then
      let baud := bigEndianUint32 (c.Data.take 4)
      decide (baud = 0)
    else false
  else if c.Command = SetDatasize ∨ c.Command = SetParity ∨ c.Command = SetStopsize
      ∨ c.Command = SetControl then
    if c.Data.length ≥ 1 then decide (c.Data.getD 0 0 = 0) else false
  else false

/-! ## Go library functions used by the codec (`strings`, `unicode`, `unicode/utf8`) -/

/-- The Go function `strings.HasPrefix`. -/
def hasPrefix (s pre : List Byte) : Bool :=
  decide (s.length ≥ pre.length ∧ s.take pre.length = pre)

/-- The Go function `strings.TrimPrefix`. -/
def trimPrefix (s pre : List Byte) : List Byte :=
  if hasPrefix s pre then s.drop pre.length else s

def RuneError : Nat := 0xFFFD
def RuneSelf : Nat := 0x80
def UTFMax : Nat := 4

/-- The table `first` of `unicode/utf8`: information about the first byte of an encoding
(`0xF0` ASCII, `0xF1` invalid, otherwise accept-range index in the high nibble and size in the
low one). -/
def utf8First (b : Nat) : Nat :=
  if b < 0x80 then 0xF0
  else if b < 0xC2 then 0xF1
  else if b < 0xE0 then 0x02
  else if b = 0xE0 then 0x13
  else if b < 0xED then 0x03
  else if b = 0xED then 0x23
  else if b < 0xF0 then 0x03
  else if b = 0xF0 then 0x34
  else if b < 0xF4 then 0x04
  else if b = 0xF4 then 0x44
  else 0xF1

/-- The table `acceptRanges` of `unicode/utf8`: the accepted range of the second byte. -/
def utf8AcceptRange (k : Nat) : Nat × Nat :=
  match k with
  | 0 => (0x80, 0xBF)
  | 1 => (0xA0, 0xBF)
  | 2 => (0x80, 0x9F)
  | 3 => (0x90, 0xBF)
  | 4 => (0x80, 0x8F)
  | _ => (0, 0)

/-- The Go function `utf8.DecodeRuneInString`: the first rune of `s` and its width. -/
def DecodeRuneInString (s : List Byte) : Nat × Nat :=
  let n := s.length
  if n < 1 then (RuneError, 0)
  else
    let s0 := (s.getD 0 0).val
    let x := utf8First s0
    if x ≥ 0xF0 then (if x = 0xF0 then s0 else RuneError, 1)
    else
      let sz := x &&& 7
      let accept := utf8AcceptRange (x >>> 4)
      if n < sz then (RuneError, 1)
      else
        let s1 := (s.getD 1 0).val
        if s1 < accept.1 ∨ accept.2 < s1 then (RuneError, 1)
        else if sz ≤ 2 then (((s0 &&& 0x1F) <<< 6) ||| (s1 &&& 0x3F), 2)
        else
          let s2 := (s.getD 2 0).val
          if s2 < 0x80 ∨ 0xBF < s2 then (RuneError, 1)
          else if sz ≤ 3 then
            (((s0 &&& 0x0F) <<< 12) ||| ((s1 &&& 0x3F) <<< 6) ||| (s2 &&& 0x3F), 3)
          else
            let s3 := (s.getD 3 0).val
            if s3 < 0x80 ∨ 0xBF < s3 then (RuneError, 1)
            else
              (((s0 &&& 0x07) <<< 18) ||| ((s1 &&& 0x3F) <<< 12) ||| ((s2 &&& 0x3F) <<< 6)
                ||| (s3 &&& 0x3F), 4)

/-- The Go function `utf8.RuneStart`. -/
def RuneStart (b : Byte) : Bool := decide (b.val &&& 0xC0 ≠ 0x80)

/-- The backward scan of `utf8.DecodeLastRuneInString`,
`for start--; start >= lim; start-- { if RuneStart(s[start]) { break } }` (entered after the
first decrement). -/
def lastRuneStartScan (s : List Byte) (lim : Int) : Nat → Int → Int
  | 0, start => start
  | fuel + 1, start =>
    if start ≥ lim then
      if RuneStart (s.getD start.toNat 0) then start
      else lastRuneStartScan s lim fuel (start - 1)
    else start

/-- The Go function `utf8.DecodeLastRuneInString`: the last rune of `s` and its width. -/
def DecodeLastRuneInString (s : List Byte) : Nat × Nat :=
  let e := s.length
  if e = 0 then (RuneError, 0)
  else
    let start : Int := (e : Int) - 1
    let r := (s.getD start.toNat 0).val
    if r < RuneSelf then (r, 1)
    else
      let lim : Int := if (e : Int) - UTFMax < 0 then 0 else (e : Int) - UTFMax
      let start := lastRuneStartScan s lim (UTFMax + 1) (start - 1)
      let start := if start < 0 then 0 else start
      let (r, size) := DecodeRuneInString ((s.drop start.toNat).take (e - start.toNat))
      if start.toNat + size ≠ e then (RuneError, 1) else (r, size)

/-- The Go function `unicode.IsSpace` (the Unicode White_Space property). -/
def IsSpace (r : Nat) : Bool :=
  if r ≤ 0xFF then
    decide (r = 0x09 ∨ r = 0x0A ∨ r = 0x0B ∨ r = 0x0C ∨ r = 0x0D ∨ r = 0x20 ∨ r = 0x85 ∨ r = 0xA0)
  else
    decide (r = 0x1680 ∨ (0x2000 ≤ r ∧ r ≤ 0x200A) ∨ r = 0x2028 ∨ r = 0x2029 ∨ r = 0x202F
      ∨ r = 0x205F ∨ r = 0x3000)

/-- The Go function `strings.TrimLeftFunc(s, unicode.IsSpace)`: `s` from its first rune that
is not a space (ranging over a string decodes rune by rune). -/
def trimLeftSpace : Nat → List Byte → List Byte
  | 0, s => s
  | fuel + 1, s =>
    let (r, size) := DecodeRuneInString s
    if size = 0 then []
    else if IsSpace r then trimLeftSpace fuel (s.drop size) else s

/-- The Go function `lastIndexFunc(s, unicode.IsSpace, false)`: the index of the last rune that
is not a space, `-1` if there is none. -/
def lastIndexNotSpace (s : List Byte) : Nat → Nat → Int
  | 0, _ => -1
  | fuel + 1, i =>
    if i > 0 then
      let (r, size) := DecodeLastRuneInString (s.take i)
      let i := i - size
      if IsSpace r = false then (i : Int) else lastIndexNotSpace s fuel i
    else -1

/-- The Go function `strings.TrimRightFunc(s, unicode.IsSpace)`. -/
def trimRightSpace (s : List Byte) : List Byte :=
  let i := lastIndexNotSpace s s.length s.length
  let i : Int :=
    if i ≥ 0 ∧ (s.getD i.toNat 0).val ≥ RuneSelf then
      i + ((DecodeRuneInString (s.drop i.toNat)).2 : Int)
    else i + 1
  s.take i.toNat

/-- The table `asciiSpace` of `strings`. -/
def asciiSpace (c : Byte) : Bool :=
  decide (c = 0x09 ∨ c = 0x0A ∨ c = 0x0B ∨ c = 0x0C ∨ c = 0x0D ∨ c = 0x20)

/-- The first loop of `strings.TrimSpace`: skip leading ASCII spaces from `start`; the result is
`Sum.inl start` at the first ASCII byte that is no space (or at the end of the string) and
`Sum.inr start` at the first byte that is not ASCII. -/
def trimSpaceStart (s : List Byte) : Nat → Nat → Nat ⊕ Nat
  | 0, start => Sum.inl start
  | fuel + 1, start =>
    if start < s.length then
      let c := s.getD start 0
      if c.val ≥ RuneSelf then Sum.inr start
      else if asciiSpace c = false then Sum.inl start
      else trimSpaceStart s fuel (start + 1)
    else Sum.inl start

/-- The second loop of `strings.TrimSpace`: skip trailing ASCII spaces down from `stop`; the
result is `Sum.inl stop` at an ASCII byte that is no space (or at `start`) and `Sum.inr stop`
when the byte before `stop` is not ASCII. -/
def trimSpaceStop (s : List Byte) (start : Nat) : Nat → Nat → Nat ⊕ Nat
  | 0, stop => Sum.inl stop
  | fuel + 1, stop =>
    if stop > start then
      let c := s.getD (stop - 1) 0
      if c.val ≥ RuneSelf then Sum.inr stop
      else if asciiSpace c = false then Sum.inl stop
      else trimSpaceStop s start fuel (stop - 1)
    else Sum.inl stop

/-- The Go function `strings.TrimSpace`: `s` without leading and trailing white space, as
defined by Unicode. -/
def TrimSpace (s : List Byte) : List Byte :=
  match trimSpaceStart s (s.length + 1) 0 with
  | Sum.inr start =>
    let t := s.drop start
    trimRightSpace (trimLeftSpace (t.length + 1) t)
  | Sum.inl start =>
    match trimSpaceStop s start (s.length + 1) s.length with
    | Sum.inr stop => trimRightSpace ((s.drop start).take (stop - start))
    | Sum.inl stop => (s.drop start).take (stop - start)

/-! ## AT commands (`protocol.go`) -/

/-- The command name "AT+REG". -/
def CmdReg : List Byte := [0x41, 0x54, 0x2B, 0x52, 0x45, 0x47]
/-- The command name "AT+CONNECT". -/
def CmdConnect : List Byte := [0x41, 0x54, 0x2B, 0x43, 0x4F, 0x4E, 0x4E, 0x45, 0x43, 0x54]
/-- The command name "ATDT". -/
def CmdDT : List Byte := [0x41, 0x54, 0x44, 0x54]
/-- The command name "ATDP". -/
def CmdDP : List Byte := [0x41, 0x54, 0x44, 0x50]
/-- The one-character string "=". -/
def strEq : List Byte := [0x3D]
/-- The reply "OK\r\n". -/
def RespOK : List Byte := [0x4F, 0x4B, 0x0D, 0x0A]
/-- The reply "ERROR\r\n". -/
def RespError : List Byte := [0x45, 0x52, 0x52, 0x4F, 0x52, 0x0D, 0x0A]

/-- The byte '\r'. -/
def CR : Byte := 0x0D
/-- The byte '\n'. -/
def LF : Byte := 0x0A
/-- The byte 'A'. -/
def chA : Byte := 0x41
/-- The byte 'T'. -/
def chT : Byte := 0x54

/-- ATCommand: a parsed AT command. -/
structure ATCommand where
  Cmd : List Byte
  Param : List Byte
  /-- Bytes received before the AT command. -/
  Skipped : List Byte
  /-- USR-VCOM configuration if received before the AT command. -/
  USRVCOMCfg : Option USRVCOMConfig
deriving DecidableEq, Repr

/-- The errors a read from the buffered reader can return. The reader of this embedding is a
finite input that is wholly available, so its only error is `io.EOF` at the end of the input;
`EOF` is no `net.Error` timeout. -/
inductive ReadError where
  | EOF
deriving DecidableEq, Repr

/-- Whether the error is a `net.Error` with `Timeout()` true. -/
def ReadError.Timeout : ReadError → Bool
  | ReadError.EOF => false

/-- The loop of `readLineWithSkipped` over the unread input (each iteration reads one byte with
`reader.ReadByte`; `reader.Peek(1)` looks at the head of what is left). The result is
`(line, skipped, err, unread input)`. -/
def readLineWithSkippedLoop :
    List Byte → Bool → List Byte → List Byte → List Byte × List Byte × Option ReadError × List Byte
  | [], _, line, skipped => (line, skipped, some ReadError.EOF, [])
  | b :: reader, inATCommand, line, skipped =>
    if b = CR ∨ b = LF then
      if b = CR then
        match reader with
        | next :: reader1 =>
          if next = LF then (line, skipped, none, reader1) else (line, skipped, none, reader)
        | [] => (line, skipped, none, reader)
      else (line, skipped, none, reader)
    else if !inATCommand ∧ b = chA ∧ reader.head? = some chT then
      readLineWithSkippedLoop reader true (line ++ [b]) skipped
    else if inATCommand then
      readLineWithSkippedLoop reader inATCommand (line ++ [b]) skipped
    else
      readLineWithSkippedLoop reader inATCommand line (skipped ++ [b])

/-- The function readLineWithSkipped reads bytes until CR/LF, separating skipped bytes from the
AT command. -/
def readLineWithSkipped (reader : List Byte) :
    List Byte × List Byte × Option ReadError × List Byte :=
  readLineWithSkippedLoop reader false [] []

/-- The function parseATCommand parses an AT command string; `none` is the nil result. -/
def parseATCommand (cmdLine : List Byte) : Option ATCommand :=
  if hasPrefix cmdLine (CmdReg ++ strEq) then
    some { Cmd := CmdReg, Param := trimPrefix cmdLine (CmdReg ++ strEq),
           Skipped := [], USRVCOMCfg := none }
  else if hasPrefix cmdLine (CmdConnect ++ strEq) then
    some { Cmd := CmdConnect, Param := trimPrefix cmdLine (CmdConnect ++ strEq),
           Skipped := [], USRVCOMCfg := none }
  else if hasPrefix cmdLine CmdDT then
    some { Cmd := CmdDT, Param := trimPrefix cmdLine CmdDT, Skipped := [], USRVCOMCfg := none }
  else if hasPrefix cmdLine CmdDP then
    some { Cmd := CmdDP, Param := trimPrefix cmdLine CmdDP, Skipped := [], USRVCOMCfg := none }
  else none

/-- The function isRFC2217Data checks if data looks like RFC 2217 (starts with IAC). -/
def isRFC2217Data (data : List Byte) : Bool :=
  decide (data.length ≥ 3 ∧ data.getD 0 0 = 0xFF ∧
    (data.getD 1 0 = 0xFA ∨ data.getD 1 0 = 0xFB ∨ data.getD 1 0 = 0xFC ∨ data.getD 1 0 = 0xFD))

/-- What the codec does to its connection, in order. -/
inductive ConnOp where
  /-- The call `conn.SetReadDeadline(time.Now().Add(remaining))`. -/
  | SetReadDeadline (remaining : Int)
  /-- The call `conn.Write(b)`. -/
  | Write (b : List Byte)
deriving DecidableEq, Repr

/-- The errors of `ReadATCommandWithPresets`. -/
inductive ATError where
  /-- The error "timeout waiting for AT command". -/
  | Timeout
  /-- An error of the reader, returned as it is. -/
  | Read (err : ReadError)
  /-- The error "unknown command: <cmdLine>". -/
  | UnknownCommand (cmdLine : List Byte)
deriving DecidableEq, Repr

deriving instance DecidableEq for Except

/-- The outcome of `ReadATCommandWithPresets`: the returned command or error, the input the
reader has not consumed, and the operations performed on the connection. -/
structure ReadOutcome where
  result : Except ATError ATCommand
  reader : List Byte
  conn : List ConnOp
deriving DecidableEq

/-- The loop of `ReadATCommandWithPresets`. The clock is an input: `since (2 * k)` is the value
of `time.Since(startTime)` at the timeout check of iteration `k` and `since (2 * k + 1)` its
value when the remaining time is computed. An iteration that goes round again has read a line
terminator from the input (the reader of this embedding never times out), so `len(input) + 1`
iterations always suffice; `none` is fuel exhaustion. -/
def readATCommandLoop (timeout : Int) (since : Nat → Int) :
    Nat → Nat → List Byte → Option USRVCOMConfig → List Byte → List ConnOp → Option ReadOutcome
  | 0, _, _, _, _, _ => none
  | fuel + 1, k, reader, usrvcomCfg, allSkipped, conn =>
    if timeout > 0 ∧ since (2 * k) > timeout then
      some { result := Except.error ATError.Timeout, reader := reader, conn := conn }
    else
      let conn :=
        if timeout > 0 then
          let remaining := timeout - since (2 * k + 1)
          if remaining > 0 then conn ++ [ConnOp.SetReadDeadline remaining] else conn
        else conn
      match readLineWithSkipped reader with
      | (_, _, some err, reader) =>
        if usrvcomCfg.isSome ∧ err.Timeout then
          readATCommandLoop timeout since fuel (k + 1) reader usrvcomCfg allSkipped conn
        else some { result := Except.error (ATError.Read err), reader := reader, conn := conn }
      | (line, skipped, none, reader) =>
        let (usrvcomCfg, allSkipped) :=
          if skipped.length > 0 then
            if IsUSRVCOM skipped then
              match ParseUSRVCOM skipped with
              | some cfg => if cfg.Valid then (some cfg, allSkipped) else (usrvcomCfg, allSkipped)
              | none => (usrvcomCfg, allSkipped)
            else if isRFC2217Data skipped then (usrvcomCfg, allSkipped ++ skipped)
            else (usrvcomCfg, allSkipped ++ skipped)
          else (usrvcomCfg, allSkipped)
        let cmdLine := TrimSpace line
        if cmdLine = [] then
          readATCommandLoop timeout since fuel (k + 1) reader usrvcomCfg allSkipped conn
        else
          match parseATCommand cmdLine with
          | some cmd =>
            some { result := Except.ok { cmd with Skipped := allSkipped, USRVCOMCfg := usrvcomCfg },
                   reader := reader, conn := conn }
          | none =>
            if usrvcomCfg.isSome then
              readATCommandLoop timeout since fuel (k + 1) reader usrvcomCfg allSkipped conn
            else
              some { result := Except.error (ATError.UnknownCommand cmdLine),
                     reader := reader, conn := conn }

/-- ReadATCommandWithPresets reads an AT command, handling USR-VCOM and RFC 2217 data before
it, from the input `reader` with the given timeout and clock. -/
def ReadATCommandWithPresets (reader : List Byte) (timeout : Int) (since : Nat → Int) :
    Option ReadOutcome :=
  readATCommandLoop timeout since (reader.length + 1) 0 reader none [] []

/-- ReadATCommand reads an AT command (legacy): no timeout. -/
def ReadATCommand (reader : List Byte) : Option ReadOutcome :=
  ReadATCommandWithPresets reader 0 (fun _ => 0)

/-! ## The concurrent map of the Go library (`sync.Map`)

The registry and the session manager keep their entries in a `sync.Map` with string keys. The
embedding is sequential: a map is the list of its entries, `Store` replaces the entry with the
key or appends a new one, `Delete` removes the entries with the key, and `Range` visits the
list in order (the library fixes no order). -/

/-- A `sync.Map` with string keys: its entries. -/
abbrev SyncMap (V : Type) := List (List Byte × V)

/-- The method `Load` of `sync.Map`; `none` is `ok = false`. -/
def SyncMap.Load {V : Type} : SyncMap V → List Byte → Option V
  | [], _ => none
  | (k, v) :: m, key => if k = key then some v else SyncMap.Load m key

/-- The method `Store` of `sync.Map`. -/
def SyncMap.Store {V : Type} : SyncMap V → List Byte → V → SyncMap V
  | [], key, value => [(key, value)]
  | (k, v) :: m, key, value =>
    if k = key then (key, value) :: m else (k, v) :: SyncMap.Store m key value

/-- The method `Delete` of `sync.Map`. -/
def SyncMap.Delete {V : Type} (m : SyncMap V) (key : List Byte) : SyncMap V :=
  m.filter (fun e => decide (e.1 ≠ key))

/-- The method `LoadAndDelete` of `sync.Map`: the value loaded, if any, and the map without
the key. -/
def SyncMap.LoadAndDelete {V : Type} (m : SyncMap V) (key : List Byte) : Option V × SyncMap V :=
  (SyncMap.Load m key, SyncMap.Delete m key)

/-! ## Device registry (`device/registry.go`) -/

/-- Device: a connected device. `Conn` names the connection; `StopKeepalive` is the state of the
channel (`none` a nil channel, `some true` a closed one). -/
structure Device where
  ID : List Byte
  Conn : Nat
  RegisteredAt : Int
  InSession : Bool
  SessionID : List Byte
  StopKeepalive : Option Bool
deriving DecidableEq, Repr

/-- SetSession marks the device as in session. -/
def Device.SetSession (d : Device) (sessionID : List Byte) : Device :=
  { d with InSession := true, SessionID := sessionID }

/-- ClearSession marks the device as not in session. -/
def Device.ClearSession (d : Device) : Device :=
  { d with InSession := false, SessionID := [] }

/-- IsInSession returns true if the device is in an active session. -/
def Device.IsInSession (d : Device) : Bool := d.InSession

/-- Registry manages connected devices. -/
structure Registry where
  devices : SyncMap Device
deriving DecidableEq, Repr

/-- NewRegistry creates a new device registry. -/
def NewRegistry : Registry := { devices := [] }

/-- Register adds a device to the registry. -/
def Registry.Register (r : Registry) (device : Device) : Registry :=
  { devices := r.devices.Store device.ID device }

/-- Unregister removes a device from the registry. -/
def Registry.Unregister (r : Registry) (deviceID : List Byte) : Registry :=
  { devices := r.devices.Delete deviceID }

/-- Get returns a device by ID; `none` is `(nil, false)`. -/
def Registry.Get (r : Registry) (deviceID : List Byte) : Option Device :=
  r.devices.Load deviceID

/-- List returns all registered devices (`Range` appending each value). -/
def Registry.List (r : Registry) : List Device :=
  r.devices.foldl (fun devices e => devices ++ [e.2]) []

/-- Count returns the number of registered devices (`Range` counting). -/
def Registry.Count (r : Registry) : Nat :=
  r.devices.foldl (fun count _ => count + 1) 0

/-! ## Session manager (`session/manager.go`) -/

/-- Session: an active client-device session. The connections are named by numbers. -/
structure Session where
  ID : List Byte
  DeviceID : List Byte
  ClientConn : Nat
  DeviceConn : Nat
  StartedAt : Int
  BytesIn : Int
  BytesOut : Int
  Debug : Bool
  IdleTimeout : Int
deriving DecidableEq, Repr

/-- What the session manager does besides updating its map, in order. -/
inductive ManagerEvent where
  /-- The call `m.onStart(sess)`. -/
  | OnStart (sess : Session)
  /-- The statement `close(sess.done)`. -/
  | CloseDone (sess : Session)
  /-- The call `m.onEnd(sess)`. -/
  | OnEnd (sess : Session)
  /-- The call `Close()` on a connection. -/
  | CloseConn (conn : Nat)
deriving DecidableEq, Repr

/-- Manager manages active sessions. `onStart` and `onEnd` tell whether the callback is set
(not nil); `events` records the calls made. -/
structure Manager where
  sessions : SyncMap Session
  /-- A `uint64`. -/
  counter : Nat
  debug : Bool
  idleTimeout : Int
  onStart : Bool
  onEnd : Bool
  events : List ManagerEvent
deriving DecidableEq, Repr

/-- NewManager creates a new session manager. -/
def NewManager (debug : Bool) (idleTimeout : Int) : Manager :=
  { sessions := [], counter := 0, debug := debug, idleTimeout := idleTimeout,
    onStart := false, onEnd := false, events := [] }

/-- SetCallbacks sets the session lifecycle callbacks (given by whether each is not nil). -/
def Manager.SetCallbacks (m : Manager) (onStart onEnd : Bool) : Manager :=
  { m with onStart := onStart, onEnd := onEnd }

/-- The digit loop of the Go library's decimal formatting: the digits of `u`, most significant
first, put in front of `acc`. -/
def formatDecimalLoop : Nat → Nat → List Byte → List Byte
  | 0, _, acc => acc
  | fuel + 1, u, acc =>
    let acc := byteOfNat (0x30 + u % 10) :: acc
    if u / 10 = 0 then acc else formatDecimalLoop fuel (u / 10) acc

/-- The verb `%d` of `fmt.Sprintf` on an unsigned integer. -/
def formatUint (u : Nat) : List Byte := formatDecimalLoop (u + 1) u []

/-- The verb `%d` of `fmt.Sprintf` on a signed integer. -/
def formatInt (i : Int) : List Byte :=
  if i < 0 then 0x2D :: formatUint (-i).toNat else formatUint i.toNat

/-- The session id `fmt.Sprintf("sess_%d_%d", unix, counter)`. -/
def sessionID (unix : Int) (counter : Nat) : List Byte :=
  [0x73, 0x65, 0x73, 0x73, 0x5F] ++ formatInt unix ++ [0x5F] ++ formatUint counter

/-- Create creates a new session. `unix` is the value of `time.Now().Unix()` and `now` the value
of `time.Now()` read by the call; `atomic.AddUint64` wraps at 2^64. -/
def Manager.Create (m : Manager) (deviceID : List Byte) (clientConn deviceConn : Nat)
    (unix now : Int) : Session × Manager :=
  let counter := (m.counter + 1) % 2 ^ 64
  let id := sessionID unix counter
  let sess : Session :=
    { ID := id, DeviceID := deviceID, ClientConn := clientConn, DeviceConn := deviceConn,
      StartedAt := now, BytesIn := 0, BytesOut := 0, Debug := m.debug,
      IdleTimeout := m.idleTimeout }
  let m := { m with counter := counter, sessions := m.sessions.Store id sess }
  let m := if m.onStart then { m with events := m.events ++ [ManagerEvent.OnStart sess] } else m
  (sess, m)

/-- End ends a session. -/
def Manager.End (m : Manager) (sessionID : List Byte) : Manager :=
  match m.sessions.LoadAndDelete sessionID with
  | (none, _) => m
  | (some sess, sessions) =>
    let m := { m with sessions := sessions, events := m.events ++ [ManagerEvent.CloseDone sess] }
    if m.onEnd then { m with events := m.events ++ [ManagerEvent.OnEnd sess] } else m

/-- Terminate forcefully terminates a session by closing its connections. -/
def Manager.Terminate (m : Manager) (sessionID : List Byte) : Bool × Manager :=
  match m.sessions.Load sessionID with
  | none => (false, m)
  | some sess =>
    (true, { m with events := m.events ++ [ManagerEvent.CloseConn sess.ClientConn,
                                            ManagerEvent.CloseConn sess.DeviceConn] })

/-- Get returns a session by ID; `none` is `(nil, false)`. -/
def Manager.Get (m : Manager) (sessionID : List Byte) : Option Session :=
  m.sessions.Load sessionID

/-- GetByDevice returns the session for a device (the first one `Range` meets). -/
def Manager.GetByDevice (m : Manager) (deviceID : List Byte) : Option Session :=
  (m.sessions.find? (fun e => decide (e.2.DeviceID = deviceID))).map Prod.snd

/-- List returns all active sessions. -/
def Manager.List (m : Manager) : List Session :=
  m.sessions.foldl (fun sessions e => sessions ++ [e.2]) []

/-- Count returns the number of active sessions. -/
def Manager.Count (m : Manager) : Nat :=
  m.sessions.foldl (fun count _ => count + 1) 0

/-! ## Go library: `float64` arithmetic and `time.Duration.Seconds`

The keepalive of the bridge converts its timeout with `int64(IdleTimeout.Seconds())`, which
goes through `float64`. A finite `float64` is embedded as the rational it stands for, and each
operation rounds the exact result to the nearest `float64`, ties to even. -/

/-- A finite `float64` value: the number `num / 2 ^ exp`. Every finite `float64` is of this
form; infinities, NaN and the sign of zero are not represented. -/
structure Float64 where
  num : Int
  exp : Nat
deriving DecidableEq, Repr

/-- The integer nearest to `n / d`, the even one of two that are equally near: the rounding
of IEEE 754 arithmetic, which Go uses for `float64`. -/
def roundHalfEven (n d : Nat) : Nat :=
  let q := n / d
  let r := n % d
  if 2 * r < d then q
  else if d < 2 * r then q + 1
  else if q % 2 = 0 then q else q + 1

/-- The number of times, at most `fuel`, that `n / d` can be doubled and stay below 2^53. -/
def float64ScaleUp : Nat → Nat → Nat → Nat
  | 0, _, _ => 0
  | fuel + 1, n, d => if 2 * n < d * 2 ^ 53 then float64ScaleUp fuel (2 * n) d + 1 else 0

/-- The number of times, at most `fuel`, that `n / d` has to be halved to come below 2^53. -/
def float64ScaleDown : Nat → Nat → Nat → Nat
  | 0, _, _ => 0
  | fuel + 1, n, d => if d * 2 ^ 53 ≤ n then float64ScaleDown fuel n (2 * d) + 1 else 0

/-- The `float64` nearest to the rational `a / d` (with `d` positive), as a numerator and an
exponent of the denominator: a significand of 53 bits, and no exponent below -1074 (the
subnormal numbers). Results of 2^1024 and more, which are infinite in `float64`, do not occur
in this program. -/
def roundFloat64Abs (a d : Nat) : Nat × Nat :=
  if a = 0 then (0, 0)
  else if d * 2 ^ 53 ≤ a then
    let s := float64ScaleDown 971 a d
    (roundHalfEven a (d * 2 ^ s) * 2 ^ s, 0)
  else
    let k := float64ScaleUp 1074 a d
    (roundHalfEven (a * 2 ^ k) d, k)

/-- The `float64` nearest to the rational `n / d` (with `d` positive): rounding is symmetric
about zero. -/
def roundFloat64 (n : Int) (d : Nat) : Float64 :=
  let r := roundFloat64Abs n.natAbs d
  { num := if n < 0 then -(r.1 : Int) else (r.1 : Int), exp := r.2 }

/-- The conversion `float64(i)` of an integer. -/
def float64OfInt (i : Int) : Float64 := roundFloat64 i 1

/-- The sum `a + b` of two `float64` values. -/
def Float64.add (a b : Float64) : Float64 :=
  roundFloat64 (a.num * 2 ^ b.exp + b.num * 2 ^ a.exp) (2 ^ (a.exp + b.exp))

/-- The quotient `a / b` of two `float64` values, `b` not zero. -/
def Float64.div (a b : Float64) : Float64 :=
  roundFloat64 (a.num * b.num.sign * 2 ^ b.exp) (b.num.natAbs * 2 ^ a.exp)

/-- The conversion `int64(f)` of a `float64` whose value is in the range of `int64`: the
fraction is discarded (truncation towards zero). -/
def Float64.toInt64 (f : Float64) : Int := f.num.tdiv (2 ^ f.exp)

/-- Seconds returns the duration as a floating point number of seconds (`Duration.Seconds`
of the Go library, package `time`): `sec := d / Second`, `nsec := d % Second`,
`float64(sec) + float64(nsec)/1e9`; a duration `d` is a number of nanoseconds. -/
def Seconds (d : Int) : Float64 :=
  let sec := d.tdiv 1000000000
  let nsec := d.tmod 1000000000
  (float64OfInt sec).add ((float64OfInt nsec).div (float64OfInt 1000000000))

/-! ## Session bridge (`session/bridge.go`) -/

/-- The value of an `int64` after an addition that may wrap. -/
def wrapInt64 (x : Int) : Int := (x + 2 ^ 63) % 2 ^ 64 - 2 ^ 63

/-- One result of `src.Read(buf)`: the count, whether the error is not nil, and the value of
`time.Now().Unix()` at that moment. -/
structure ReadResult where
  n : Int
  err : Bool
  now : Int
deriving DecidableEq, Repr

/-- One result of `dst.Write(buf[:n])`: the count and whether the error is not nil. -/
structure WriteResult where
  written : Int
  err : Bool
deriving DecidableEq, Repr

/-- The state of one copy direction: the value returned (`none` while the loop has not
returned: the trace of results ended first), the direction's counter, the direction's
last-activity timestamp, the local `total`, the number of reads performed and the results of
the writes performed, in order. -/
structure CopyOutcome where
  returned : Option Int
  counter : Int
  lastActive : Int
  total : Int
  reads : Nat
  writes : List WriteResult
deriving DecidableEq, Repr

/-- The loop of `copyWithActivity` over a trace of read results and a trace of write results,
each consumed in order, from the state `st`. -/
def copyWithActivityLoop : List ReadResult → List WriteResult → CopyOutcome → CopyOutcome
  | [], _, st => st
  | r :: rs, ws, st =>
    let st := { st with reads := st.reads + 1 }
    if r.n > 0 then
      let st := { st with lastActive := r.now }
      match ws with
      | [] => st
      | w :: ws =>
        let st := { st with writes := st.writes ++ [w] }
        let st :=
          if w.written > 0 then
            { st with counter := wrapInt64 (st.counter + w.written),
                      total := wrapInt64 (st.total + w.written) }
          else st
        if w.err then { st with returned := some st.total }
        else if r.err then { st with returned := some st.total }
        else copyWithActivityLoop rs ws st
    else if r.err then { st with returned := some st.total }
    else copyWithActivityLoop rs ws st

/-- The function copyWithActivity transfers data from src to dst, counting bytes and updating
the activity timestamp; `counter` and `lastActive` are the values behind the two pointers. -/
def copyWithActivity (reads : List ReadResult) (writes : List WriteResult)
    (counter lastActive : Int) : CopyOutcome :=
  copyWithActivityLoop reads writes
    { returned := none, counter := counter, lastActive := lastActive, total := 0, reads := 0,
      writes := [] }

/-- The Telnet NOP command for keepalive. -/
def telnetNOP : List Byte := [0xFF, 0xF1]

/-- What the keepalive of a bridge does to the connections of its session, in order. -/
inductive KeepaliveEvent where
  /-- A `Write(b)` on a connection (between `SetWriteDeadline` calls). -/
  | Write (conn : Nat) (b : List Byte)
  /-- The call `Close()` on a connection. -/
  | CloseConn (conn : Nat)
deriving DecidableEq, Repr

/-- The value `int64(d.Seconds())` for a duration `d`. It is the whole seconds of `d` for
every duration below 2^24 seconds; from 2^24 seconds on the sum that `Seconds` computes in
`float64` can round up to the next whole second. -/
def durationSeconds (d : Int) : Int := (Seconds d).toInt64

/-- One tick of the loop of `keepalive` (which is entered only when `IdleTimeout > 0`): `now`
is the value of `time.Now().Unix()`, `lastClientActive` and `lastDeviceActive` are the values
loaded from the bridge, and the two flags tell whether a write on the client's and on the
device's connection fails. The result is what is done to the connections and whether the loop
goes on (it returns after a failed write). -/
def keepaliveTick (sess : Session) (now lastClientActive lastDeviceActive : Int)
    (clientWriteFails deviceWriteFails : Bool) : List KeepaliveEvent × Bool :=
  let idleSecs := durationSeconds sess.IdleTimeout
  let clientIdle := now - lastClientActive
  let client : List KeepaliveEvent × Bool :=
    if clientIdle ≥ idleSecs then
      if clientWriteFails then
        ([KeepaliveEvent.Write sess.ClientConn telnetNOP,
          KeepaliveEvent.CloseConn sess.ClientConn], false)
      else ([KeepaliveEvent.Write sess.ClientConn telnetNOP], true)
    else ([], true)
  if client.2 then
    let deviceIdle := now - lastDeviceActive
    if deviceIdle ≥ idleSecs then
      if deviceWriteFails then
        (client.1 ++ [KeepaliveEvent.Write sess.DeviceConn telnetNOP,
                      KeepaliveEvent.CloseConn sess.DeviceConn], false)
      else (client.1 ++ [KeepaliveEvent.Write sess.DeviceConn telnetNOP], true)
    else (client.1, true)
  else client

/-! ## Connection dispatcher (`connection/handler.go`, `config/config.go`)

The dispatcher is embedded as a sequential function of the bytes the peer sends, up to the
point where `Handle` returns, starts the device supervision or starts the bridge. What it does
to connections is recorded as a list of events. A device is shared by pointer between the
registry and the dispatcher; it is identified here by its connection. -/

/-- Config: the options the dispatcher reads. -/
structure Config where
  AuthToken : List Byte
  InitTimeout : Int
  PostConnectTimeout : Int
  IdleTimeout : Int
  Debug : Bool
deriving DecidableEq, Repr

/-- The Go function `strings.Index(s, sep)` for a separator of one byte; `none` is `-1`. -/
def indexByte : List Byte → Byte → Option Nat
  | [], _ => none
  | b :: s, sep => if b = sep then some 0 else (indexByte s sep).map (fun i => i + 1)

/-- The Go function `strings.SplitN(s, sep, 2)` for a separator of one byte: `s` cut at the
first separator, or `s` alone when it has none. -/
def splitN2 (s : List Byte) (sep : Byte) : List (List Byte) :=
  match indexByte s sep with
  | none => [s]
  | some m => [s.take m, s.drop (m + 1)]

/-- The token parsing of `handleDevice` (lines 110-142), which `handleClient` repeats word for
word (lines 272-305): the device id derived from the parameter, or `none` where the source
calls `WriteError(conn)` and returns. -/
def parseToken (authToken token : List Byte) : Option (List Byte) :=
  if token = [] then none
  else
    let deviceID : Option (List Byte) :=
      if authToken ≠ [] then
        let parts := splitN2 token 0x2B
        if parts.length ≠ 2 then none
        else if parts.getD 0 [] ≠ authToken then none
        else some (parts.getD 1 [])
      else some token
    match deviceID with
    | none => none
    | some deviceID => if deviceID = [] then none else some deviceID

/-- The state the connections share: the device registry and the session manager. -/
structure World where
  registry : Registry
  sessions : Manager
deriving DecidableEq, Repr

/-- What the dispatcher does to connections and channels, in order. -/
inductive HandlerEvent where
  /-- A reply of the AT layer, `WriteOK(conn)` or `WriteError(conn)`, with the bytes written. -/
  | Reply (conn : Nat) (b : List Byte)
  /-- Another `Write(b)` on a connection. -/
  | Write (conn : Nat) (b : List Byte)
  /-- The call `Close()` on a connection. -/
  | CloseConn (conn : Nat)
  /-- The statement `close(existing.StopKeepalive)` for the device on the connection. -/
  | CloseStopKeepalive (conn : Nat)
deriving DecidableEq, Repr

/-- The state of one run of `Handle`: the shared state and the events so far. -/
structure HandleState where
  world : World
  events : List HandlerEvent
deriving DecidableEq, Repr

/-- The environment of one run of `Handle`: `since k` is the clock of its `k`-th call of
`ReadATCommandWithPresets`; `writeFails k` tells whether the `k`-th reply written fails;
`buffered` is the number of unread bytes the buffered reader holds when the AT+REG or
AT+CONNECT line is returned; `unix` and `now` are what `time.Now()` gives. -/
structure HandleEnv where
  since : Nat → Nat → Int
  writeFails : Nat → Bool
  buffered : Nat
  unix : Int
  now : Int

/-- Where a run of `Handle` stands when the embedding stops. -/
inductive HandleExit where
  /-- The function has returned (and closed the connection). -/
  | Returned
  /-- The device path waits in its `select` with the device registered. -/
  | DeviceLoop (dev : Device)
  /-- The client path calls `bridge.Run()` for the session. -/
  | Bridge (sess : Session) (dev : Device)
deriving DecidableEq, Repr

/-- The number of replies written so far. -/
def HandleState.replyCount (st : HandleState) : Nat :=
  (st.events.filter (fun e => match e with
    | HandlerEvent.Reply _ _ => true
    | _ => false)).length

/-- WriteOK sends the OK response; the result tells whether the write failed. -/
def WriteOK (env : HandleEnv) (conn : Nat) (st : HandleState) : Bool × HandleState :=
  (env.writeFails st.replyCount, { st with events := st.events ++ [HandlerEvent.Reply conn RespOK] })

/-- WriteError sends the ERROR response; the result tells whether the write failed. -/
def WriteError (env : HandleEnv) (conn : Nat) (st : HandleState) : Bool × HandleState :=
  (env.writeFails st.replyCount,
   { st with events := st.events ++ [HandlerEvent.Reply conn RespError] })

/-- A write through the pointer to a device: every registry entry that is this device (the
device on connection `conn`) is changed by `f`. -/
def Registry.updateDevice (r : Registry) (conn : Nat) (f : Device → Device) : Registry :=
  { devices := r.devices.map (fun e => if e.2.Conn = conn then (e.1, f e.2) else e) }

/-- ForwardRFC2217ToDevice sends buffered RFC 2217 data to the device (`rfc2217.go`); a write
error is only logged. -/
def ForwardRFC2217ToDevice (deviceConn : Nat) (buf : Option RFC2217Buffer)
    (st : HandleState) : HandleState :=
  match buf with
  | none => st
  | some buf =>
    if buf.RawData.length = 0 then st
    else { st with events := st.events ++ [HandlerEvent.Write deviceConn buf.RawData] }

/-- The RFC 2217 buffer `handleClient` builds from the presets of the command: from the
USR-VCOM config first, else from the skipped bytes. -/
def clientPresets (atCmd : ATCommand) : Option RFC2217Buffer :=
  let rfc2217Buf : Option RFC2217Buffer :=
    match atCmd.USRVCOMCfg with
    | some cfg =>
      if cfg.Valid then
        some { Commands := cfg.ToRFC2217Commands, RawData := cfg.BuildRFC2217Packet }
      else none
    | none => none
  if rfc2217Buf.isNone ∧ atCmd.Skipped.length > 0 then
    if IsUSRVCOM atCmd.Skipped then
      match ParseUSRVCOM atCmd.Skipped with
      | some cfg =>
        if cfg.Valid then
          some { Commands := cfg.ToRFC2217Commands, RawData := cfg.BuildRFC2217Packet }
        else rfc2217Buf
      | none => rfc2217Buf
    else some (ParseRFC2217Commands atCmd.Skipped)
  else rfc2217Buf

/-- The part of `handleClient` that deals with the bytes the reader holds past the AT line. -/
def forwardBuffered (deviceConn : Nat) (buffered : List Byte) (st : HandleState) : HandleState :=
  if buffered.length > 0 then
    let bufferedRFC2217 : Option RFC2217Buffer :=
      if IsUSRVCOM buffered then
        match ParseUSRVCOM buffered with
        | some cfg =>
          if cfg.Valid then
            some { Commands := cfg.ToRFC2217Commands, RawData := cfg.BuildRFC2217Packet }
          else none
        | none => none
      else if buffered.length ≥ 3 ∧ buffered.getD 0 0 = 0xFF ∧ buffered.getD 1 0 = 0xFA
          ∧ buffered.getD 2 0 = 0x2C then
        some (ParseRFC2217Commands buffered)
      else none
    match bufferedRFC2217 with
    | some buf =>
      if buf.Commands.length > 0 then ForwardRFC2217ToDevice deviceConn (some buf) st
      else { st with events := st.events ++ [HandlerEvent.Write deviceConn buffered] }
    | none => { st with events := st.events ++ [HandlerEvent.Write deviceConn buffered] }
  else st

/-- The function handleClient handles a client connection request, up to `bridge.Run()`. -/
def handleClient (cfg : Config) (env : HandleEnv) (conn : Nat) (reader : List Byte)
    (atCmd : ATCommand) (st : HandleState) : HandleState × HandleExit :=
  match parseToken cfg.AuthToken atCmd.Param with
  | none => ((WriteError env conn st).2, HandleExit.Returned)
  | some deviceID =>
    let rfc2217Buf := clientPresets atCmd
    match st.world.registry.Get deviceID with
    | none => ((WriteError env conn st).2, HandleExit.Returned)
    | some dev =>
      if dev.IsInSession then ((WriteError env conn st).2, HandleExit.Returned)
      else
        let (sess, sessions) := st.world.sessions.Create deviceID conn dev.Conn env.unix env.now
        let registry := st.world.registry.updateDevice dev.Conn (fun d => d.SetSession sess.ID)
        let st := { st with world := { registry := registry, sessions := sessions } }
        let (err, st) := WriteOK env conn st
        if err then
          let sessions := st.world.sessions.End sess.ID
          let registry := st.world.registry.updateDevice dev.Conn Device.ClearSession
          ({ st with world := { registry := registry, sessions := sessions } },
           HandleExit.Returned)
        else
          let st :=
            match rfc2217Buf with
            | some buf =>
              if buf.RawData.length > 0 then ForwardRFC2217ToDevice dev.Conn (some buf) st else st
            | none => st
          let buffered := reader.take env.buffered
          let st := forwardBuffered dev.Conn buffered st
          (st, HandleExit.Bridge sess (dev.SetSession sess.ID))

/-- The end of `handleClient`, after `bridge.Run()` has returned: the session is ended and the
device is cleared. -/
def handleClientCleanup (sess : Session) (dev : Device) (st : HandleState) : HandleState :=
  let sessions := st.world.sessions.End sess.ID
  let registry := st.world.registry.updateDevice dev.Conn Device.ClearSession
  { st with world := { registry := registry, sessions := sessions } }

/-- The part of `handleDevice` that takes over from a device already registered under the id
(lines 144-153): its keepalive is stopped, its connection closed and its entry removed. -/
def takeOver (deviceID : List Byte) (st : HandleState) : HandleState :=
  match st.world.registry.Get deviceID with
  | some existing =>
    let events :=
      if existing.StopKeepalive.isSome then
        st.events ++ [HandlerEvent.CloseStopKeepalive existing.Conn]
      else st.events
    let events := events ++ [HandlerEvent.CloseConn existing.Conn]
    { world := { st.world with registry := st.world.registry.Unregister deviceID },
      events := events }
  | none => st

/-- The part of `handleDevice` after the OK (lines 180-191): a new reader on the connection
reads one command, and an ATDT or ATDP is answered with OK; anything else is only logged. -/
def dialAfterReg (env : HandleEnv) (conn : Nat) (reader : List Byte) (st : HandleState) :
    HandleState :=
  match ReadATCommand reader with
  | some o =>
    match o.result with
    | Except.ok cmd =>
      if cmd.Cmd = CmdDT ∨ cmd.Cmd = CmdDP then (WriteOK env conn st).2 else st
    | Except.error _ => st
  | none => st

/-- The function handleDevice handles a device registration, up to the `select` in which it
waits for the end of the connection. The deferred `Unregister` runs where the function
returns. -/
def handleDevice (cfg : Config) (env : HandleEnv) (conn : Nat) (reader : List Byte)
    (token : List Byte) (st : HandleState) : HandleState × HandleExit :=
  match parseToken cfg.AuthToken token with
  | none => ((WriteError env conn st).2, HandleExit.Returned)
  | some deviceID =>
    let st := takeOver deviceID st
    let dev : Device :=
      { ID := deviceID, Conn := conn, RegisteredAt := env.now, InSession := false,
        SessionID := [], StopKeepalive := some false }
    let st := { st with world := { st.world with registry := st.world.registry.Register dev } }
    let (err, st) := WriteOK env conn st
    if err then
      ({ st with world := { st.world with registry := st.world.registry.Unregister deviceID } },
       HandleExit.Returned)
    else
      (dialAfterReg env conn (reader.drop env.buffered) st, HandleExit.DeviceLoop dev)

/-- The end of `handleDevice`, when its `select` is left: the deferred `Unregister`. -/
def handleDeviceCleanup (dev : Device) (st : HandleState) : HandleState :=
  { st with world := { st.world with registry := st.world.registry.Unregister dev.ID } }

/-- The command loop of `Handle`: `k` counts the calls of `ReadATCommandWithPresets`. Every
command read takes at least its line terminator from the input, so `len(input) + 1`
iterations always suffice; `none` is fuel exhaustion. -/
def handleLoop (cfg : Config) (env : HandleEnv) (conn : Nat) :
    Nat → Nat → List Byte → Option USRVCOMConfig → Int → HandleState →
      Option (HandleState × HandleExit)
  | 0, _, _, _, _, _ => none
  | fuel + 1, k, reader, usrvcomCfg, timeout, st =>
    match ReadATCommandWithPresets reader timeout (env.since k) with
    | none => none
    | some o =>
      match o.result with
      | Except.error _ => some ((WriteError env conn st).2, HandleExit.Returned)
      | Except.ok cmd =>
        let usrvcomCfg := if cmd.USRVCOMCfg.isSome then cmd.USRVCOMCfg else usrvcomCfg
        if cmd.Cmd = CmdDT ∨ cmd.Cmd = CmdDP then
          let (err, st) := WriteOK env conn st
          if err then some (st, HandleExit.Returned)
          else handleLoop cfg env conn fuel (k + 1) o.reader usrvcomCfg cfg.PostConnectTimeout st
        else if cmd.Cmd = CmdReg then
          some (handleDevice cfg env conn o.reader cmd.Param st)
        else if cmd.Cmd = CmdConnect then
          let cmd :=
            if usrvcomCfg.isSome ∧ cmd.USRVCOMCfg.isNone then
              { cmd with USRVCOMCfg := usrvcomCfg }
            else cmd
          some (handleClient cfg env conn o.reader cmd st)
        else some ((WriteError env conn st).2, HandleExit.Returned)

/-- Handle processes an incoming connection, from the bytes `input` the peer sends; where the
function returns, the deferred `conn.Close()` runs. -/
def Handle (cfg : Config) (env : HandleEnv) (conn : Nat) (input : List Byte) (world : World) :
    Option (HandleState × HandleExit) :=
  match handleLoop cfg env conn (input.length + 1) 0 input none cfg.InitTimeout
      { world := world, events := [] } with
  | none => none
  | some (st, HandleExit.Returned) =>
    some ({ st with events := st.events ++ [HandlerEvent.CloseConn conn] }, HandleExit.Returned)
  | some (st, exit) => some (st, exit)

/-- The replies of the AT layer among the events, in order. -/
def replies (events : List HandlerEvent) : List (List Byte) :=
  events.filterMap (fun e => match e with
    | HandlerEvent.Reply _ b => some b
    | _ => none)

/-! ## Notions used to state the properties -/

/-- A USR-VCOM header at index `i` of `d`: eight bytes are left from `i` on (`i <= len(d)-8`) and
the first three are 55 AA 55. -/
def USRVCOMHeaderAt (d : List Byte) (i : Nat) : Prop :=
  i + 8 ≤ d.length ∧ d.getD i 0 = 0x55 ∧ d.getD (i + 1) 0 = 0xAA ∧ d.getD (i + 2) 0 = 0x55

instance (d : List Byte) (i : Nat) : Decidable (USRVCOMHeaderAt d i) := by
  unfold USRVCOMHeaderAt; infer_instance

/-- The wire form of one item: `FF FA 2C <opcode> <payload> FF F0`. -/
def RFC2217Frame (c : RFC2217Command) : List Byte :=
  [0xFF, 0xFA, 0x2C, c.Command] ++ c.Data ++ [0xFF, 0xF0]

/-- Whether a byte FF is immediately followed by a byte F0 somewhere in the sequence. -/
def containsIACSE : List Byte → Bool
  | a :: b :: rest => (decide (a = 0xFF) && decide (b = 0xF0)) || containsIACSE (b :: rest)
  | _ => false

/-- The frame of an item with its opcode raised by 100, the server-response form. -/
def RFC2217ResponseFrame (c : RFC2217Command) : List Byte :=
  [0xFF, 0xFA, 0x2C, byteOfNat (c.Command.val + 100)] ++ c.Data ++ [0xFF, 0xF0]

/-- Whether a byte 'A' is immediately followed by a byte 'T' somewhere in the sequence. -/
def containsAT : List Byte → Bool
  | a :: b :: rest => (decide (a = 0x41) && decide (b = 0x54)) || containsAT (b :: rest)
  | _ => false

/-- One call on the registry. -/
inductive RegistryOp where
  | Register (device : Device)
  | Unregister (deviceID : List Byte)
deriving DecidableEq, Repr

/-- The registry after a call. -/
def Registry.apply (r : Registry) : RegistryOp → Registry
  | RegistryOp.Register device => r.Register device
  | RegistryOp.Unregister deviceID => r.Unregister deviceID

/-- The registry after a sequence of calls, from the empty registry. -/
def runRegistry (ops : List RegistryOp) : Registry :=
  ops.foldl Registry.apply NewRegistry

/-- The invariant of a registry built by `Register` and `Unregister`: no key occurs twice and
every device is stored under its own ID. -/
def Registry.WellFormed (r : Registry) : Prop :=
  (r.devices.map Prod.fst).Nodup ∧ ∀ e ∈ r.devices, e.2.ID = e.1

/-- One call on the session manager; a `Create` carries what the clock gives during the call. -/
inductive ManagerOp where
  | Create (deviceID : List Byte) (clientConn deviceConn : Nat) (unix now : Int)
  | End (sessionID : List Byte)
  | Terminate (sessionID : List Byte)
  | SetCallbacks (onStart onEnd : Bool)
deriving DecidableEq, Repr

/-- The manager after a call, and the session the call created, if it is a `Create`. -/
def Manager.apply (m : Manager) : ManagerOp → Manager × Option Session
  | ManagerOp.Create deviceID clientConn deviceConn unix now =>
    ((m.Create deviceID clientConn deviceConn unix now).2,
     some (m.Create deviceID clientConn deviceConn unix now).1)
  | ManagerOp.End sessionID => (m.End sessionID, none)
  | ManagerOp.Terminate sessionID => ((m.Terminate sessionID).2, none)
  | ManagerOp.SetCallbacks onStart onEnd => (m.SetCallbacks onStart onEnd, none)

/-- The manager after a sequence of calls from `m`, and the sessions created, in order. -/
def runManager : Manager → List ManagerOp → Manager × List Session
  | m, [] => (m, [])
  | m, op :: ops =>
    match m.apply op with
    | (m1, none) => runManager m1 ops
    | (m1, some sess) => ((runManager m1 ops).1, sess :: (runManager m1 ops).2)

/-- The number of `Create` calls in a sequence of calls. -/
def countCreates : List ManagerOp → Nat
  | [] => 0
  | ManagerOp.Create _ _ _ _ _ :: ops => countCreates ops + 1
  | _ :: ops => countCreates ops

/-- The number a decimal numeral stands for. -/
def decimalValue (digits : List Byte) : Nat :=
  digits.foldl (fun a d => 10 * a + (d.val - 0x30)) 0

/-- The sum of the counts a list of writes returned. -/
def sumWritten (ws : List WriteResult) : Int := (ws.map WriteResult.written).sum

/-- The course of the copy loop over a trace, apart from the counters: the number of reads
performed, the results of the writes performed, and whether the loop has returned. -/
def copyTrace : List ReadResult → List WriteResult → Nat × List WriteResult × Bool
  | [], _ => (0, [], false)
  | r :: rs, ws =>
    if r.n > 0 then
      match ws with
      | [] => (1, [], false)
      | w :: ws =>
        if w.err then (1, [w], true)
        else if r.err then (1, [w], true)
        else ((copyTrace rs ws).1 + 1, w :: (copyTrace rs ws).2.1, (copyTrace rs ws).2.2)
    else if r.err then (1, [], true)
    else ((copyTrace rs ws).1 + 1, (copyTrace rs ws).2.1, (copyTrace rs ws).2.2)

/-- The keys of the sessions a manager holds are ids made from counters it has used. -/
def Manager.KeysUsed (m : Manager) : Prop :=
  ∀ key ∈ m.sessions.map Prod.fst, ∃ u k, key = sessionID u k ∧ k ≤ m.counter

/-- The command `c` is what stands in `data` between the header FF FA 2C at index `i` and the
first FF F0 after it, at index `e`: its opcode and payload are the bytes `data[i+3 .. e)`,
at least one byte, all inside `data`. -/
def RFC2217ItemAt (data : List Byte) (c : RFC2217Command) (i e : Nat) : Prop :=
  i + 3 < e ∧ e + 1 < data.length ∧
  data.getD i 0 = 0xFF ∧ data.getD (i + 1) 0 = 0xFA ∧ data.getD (i + 2) 0 = 0x2C ∧
  data.getD e 0 = 0xFF ∧ data.getD (e + 1) 0 = 0xF0 ∧
  (∀ j, i + 3 ≤ j → j < e → ¬ (data.getD j 0 = 0xFF ∧ data.getD (j + 1) 0 = 0xF0)) ∧
  c.Command :: c.Data = (data.drop (i + 3)).take (e - (i + 3))

/-- The bytes written to the connection `conn` besides the replies of the AT layer, in
order. -/
def writesTo (conn : Nat) (events : List HandlerEvent) : List (List Byte) :=
  events.filterMap (fun e => match e with
    | HandlerEvent.Write c b => if c = conn then some b else none
    | _ => none)

/-- One step of the dispatcher as a whole, the runs of `Handle` for different connections
taken one after another: a connection is accepted and `Handle` runs on what its peer sends,
up to its return, its device loop or its bridge; a bridge returns and `handleClient` ends the
session; a device loop is left and `handleDevice` returns. -/
inductive DispatcherOp where
  | Accept (env : HandleEnv) (conn : Nat) (input : List Byte)
  | BridgeReturns (sess : Session) (dev : Device)
  | DeviceLoopEnds (dev : Device)

/-- The shared state after one step of the dispatcher. -/
def World.step (cfg : Config) (w : World) : DispatcherOp → World
  | DispatcherOp.Accept env conn input =>
    match Handle cfg env conn input w with
    | some (st, _) => st.world
    | none => w
  | DispatcherOp.BridgeReturns sess dev =>
    (handleClientCleanup sess dev { world := w, events := [] }).world
  | DispatcherOp.DeviceLoopEnds dev =>
    (handleDeviceCleanup dev { world := w, events := [] }).world

/-- The shared state after a sequence of steps of the dispatcher from the state `w`. -/
def runDispatcher (cfg : Config) (w : World) (ops : List DispatcherOp) : World :=
  ops.foldl (World.step cfg) w

/-- No two live sessions carry the same DeviceID. -/
def World.OneSessionPerDevice (w : World) : Prop :=
  (w.sessions.List.map Session.DeviceID).Nodup

/-- The busy flag of every registered device is set exactly when a live session carries its
DeviceID. -/
def World.BusyIffSession (w : World) : Prop :=
  ∀ d ∈ w.registry.List, (d.InSession = true ↔ ∃ s ∈ w.sessions.List, s.DeviceID = d.ID)

instance (w : World) : Decidable w.OneSessionPerDevice := by
  unfold World.OneSessionPerDevice; infer_instance

instance (w : World) : Decidable w.BusyIffSession := by
  unfold World.BusyIffSession; infer_instance

/-! ## Properties -/

/-! ### USR-VCOM frames: parsing and translation (C1, C2, C3) and RFC 2217 parsing (C4) -/

theorem getD_take_drop (d : List Byte) (i n k : Nat) (hk : k < n) :
    ((d.drop i).take n).getD k 0 = d.getD (i + k) 0 := by
  simp [List.getD_eq_getElem?_getD, List.getElem?_take_of_lt hk, List.getElem?_drop]

theorem findUSRVCOMHeader_none (d : List Byte) :
    ∀ (fuel i : Nat), d.length ≤ fuel + i → findUSRVCOMHeader d fuel i = none →
      ∀ j, i ≤ j → ¬ USRVCOMHeaderAt d j := by
  intro fuel
  induction fuel with
  | zero =>
    intro i hf _ j hj hh
    have := hh.1
    omega
  | succ fuel ih =>
    intro i hf hres j hj hh
    unfold findUSRVCOMHeader at hres
    by_cases h1 : i + USRVCOMPacketLen ≤ d.length
    · rw [if_pos h1] at hres
      by_cases h2 : d.getD i 0 = 0x55 ∧ d.getD (i + 1) 0 = 0xAA ∧ d.getD (i + 2) 0 = 0x55
      · rw [if_pos h2] at hres
        cases hres
      · rw [if_neg h2] at hres
        rcases Nat.eq_or_lt_of_le hj with hij | hij
        · subst hij
          exact h2 hh.2
        · exact ih (i + 1) (by omega) hres j hij hh
    · have := hh.1
      simp only [USRVCOMPacketLen] at h1
      omega

theorem findUSRVCOMHeader_some (d : List Byte) :
    ∀ (fuel i k : Nat), findUSRVCOMHeader d fuel i = some k →
      i ≤ k ∧ USRVCOMHeaderAt d k ∧ ∀ j, i ≤ j → j < k → ¬ USRVCOMHeaderAt d j := by
  intro fuel
  induction fuel with
  | zero =>
    intro i k hres
    simp [findUSRVCOMHeader] at hres
  | succ fuel ih =>
    intro i k hres
    unfold findUSRVCOMHeader at hres
    by_cases h1 : i + USRVCOMPacketLen ≤ d.length
    · rw [if_pos h1] at hres
      by_cases h2 : d.getD i 0 = 0x55 ∧ d.getD (i + 1) 0 = 0xAA ∧ d.getD (i + 2) 0 = 0x55
      · rw [if_pos h2] at hres
        injection hres with hres
        subst hres
        exact ⟨le_refl _, ⟨h1, h2⟩, fun j h3 h4 => by omega⟩
      · rw [if_neg h2] at hres
        obtain ⟨h3, h4, h5⟩ := ih (i + 1) k hres
        refine ⟨by omega, h4, fun j h6 h7 => ?_⟩
        rcases Nat.eq_or_lt_of_le h6 with hij | hij
        · subst hij
          exact fun hh => h2 hh.2
        · exact h5 j hij h7
    · rw [if_neg h1] at hres
      cases hres

theorem baud_or_eq (a b c : Byte) :
    (a.val <<< 16 ||| b.val <<< 8 ||| c.val) = a.val * 65536 + b.val * 256 + c.val := by
  have ha := a.isLt
  have hb := b.isLt
  have hc := c.isLt
  rw [Nat.shiftLeft_eq, Nat.shiftLeft_eq]
  have h1 : a.val * 2 ^ 16 ||| b.val * 2 ^ 8 = 2 ^ 16 * a.val + b.val * 2 ^ 8 := by
    rw [Nat.mul_add_lt_is_or (by omega) a.val, Nat.mul_comm]
  rw [h1]
  have h2 : 2 ^ 16 * a.val + b.val * 2 ^ 8 = 2 ^ 8 * (2 ^ 8 * a.val + b.val) := by ring
  rw [h2, ← Nat.mul_add_lt_is_or (by omega : c.val < 2 ^ 8)]
  ring

set_option maxRecDepth 100000 in
theorem param_decode : ∀ p : Byte,
    (byteOfNat (5 + (p.val &&& 0x03))).val = 5 + (p.val &&& 3) ∧
    ((if p.val &&& 0x04 ≠ 0 then (2 : Byte) else 1).val = if p.val.testBit 2 then 2 else 1) ∧
    ((if p.val &&& 0x08 ≠ 0 then
        (match (p.val >>> 4) &&& 0x03 with
          | 0 => (1 : Byte)
          | 1 => 2
          | 2 => 3
          | 3 => 4
          | _ => 0)
      else 0).val = if p.val.testBit 3 then 1 + ((p.val >>> 4) &&& 3) else 0) := by
  decide


theorem ParseUSRVCOM_eq_none_iff (d : List Byte) :
    ParseUSRVCOM d = none ↔ ¬ ∃ i, USRVCOMHeaderAt d i := by
  constructor
  · intro h ⟨i, hi⟩
    unfold ParseUSRVCOM at h
    have hlen : ¬ d.length < USRVCOMPacketLen := by
      have := hi.1
      simp only [USRVCOMPacketLen]
      omega
    rw [if_neg hlen] at h
    cases hf : findUSRVCOMHeader d d.length 0 with
    | none => exact findUSRVCOMHeader_none d d.length 0 (by omega) hf i (Nat.zero_le _) hi
    | some k => rw [hf] at h; cases h
  · intro h
    unfold ParseUSRVCOM
    split
    · rfl
    · cases hf : findUSRVCOMHeader d d.length 0 with
      | none => rfl
      | some k => exact absurd ⟨k, (findUSRVCOMHeader_some d _ _ _ hf).2.1⟩ h

theorem ParseUSRVCOM_of_first_header (d : List Byte) (i : Nat) (hi : USRVCOMHeaderAt d i)
    (hmin : ∀ j, j < i → ¬ USRVCOMHeaderAt d j) :
    ∃ c, ParseUSRVCOM d = some c ∧
      c.BaudRate = (d.getD (i + 3) 0).val * 65536 + (d.getD (i + 4) 0).val * 256
        + (d.getD (i + 5) 0).val ∧
      c.DataBits.val = 5 + ((d.getD (i + 6) 0).val &&& 3) ∧
      c.StopBits.val = (if (d.getD (i + 6) 0).val.testBit 2 then 2 else 1) ∧
      c.Parity.val = (if (d.getD (i + 6) 0).val.testBit 3
        then 1 + (((d.getD (i + 6) 0).val >>> 4) &&& 3) else 0) ∧
      c.RawData = (d.drop i).take 8 ∧
      c.Valid = true := by
  have hlen : ¬ d.length < USRVCOMPacketLen := by
    have := hi.1
    simp only [USRVCOMPacketLen]
    omega
  cases hf : findUSRVCOMHeader d d.length 0 with
  | none => exact absurd hi (findUSRVCOMHeader_none d d.length 0 (by omega) hf i (Nat.zero_le _))
  | some k =>
    obtain ⟨-, hk, hkmin⟩ := findUSRVCOMHeader_some d _ _ _ hf
    have hki : k = i := by
      rcases Nat.lt_trichotomy k i with h | h | h
      · exact absurd hk (hmin k h)
      · exact h
      · exact absurd hi (hkmin i (Nat.zero_le _) h)
    subst hki
    obtain ⟨p1, p2, p3⟩ := param_decode (d.getD (k + 6) 0)
    unfold ParseUSRVCOM
    rw [if_neg hlen, hf]
    refine ⟨_, rfl, ?_, ?_, ?_, ?_, ?_, ?_⟩
    · simp only [USRVCOMPacketLen, getD_take_drop d k 8 _ (by decide : 3 < 8),
        getD_take_drop d k 8 _ (by decide : 4 < 8), getD_take_drop d k 8 _ (by decide : 5 < 8)]
      exact baud_or_eq _ _ _
    · simp only [USRVCOMPacketLen, getD_take_drop d k 8 _ (by decide : 6 < 8)]
      exact p1
    · simp only [USRVCOMPacketLen, getD_take_drop d k 8 _ (by decide : 6 < 8)]
      exact p2
    · simp only [USRVCOMPacketLen, getD_take_drop d k 8 _ (by decide : 6 < 8)]
      exact p3
    · rfl
    · rfl

/-- Claim C1: ParseUSRVCOM follows the 8-byte frame layout. The result is nil exactly when no
index `i <= len(d)-8` carries the magic 55 AA 55 (in particular when `len(d) < 8`); otherwise,
at the smallest such `i`, the baud rate is the big-endian 24-bit number of bytes `i+3..i+5`,
the data bits are `5 + (param & 3)`, the stop bits are 2 if bit 2 of the parameter byte is set
and 1 if not, the parity is 0 if bit 3 is clear and `1 + ((param >> 4) & 3)` if it is set, the
raw data are the eight bytes from `i`, and the config is valid whatever the checksum byte. -/
theorem ParseUSRVCOM_frame_layout (d : List Byte) :
    (ParseUSRVCOM d = none ↔ ¬ ∃ i, USRVCOMHeaderAt d i) ∧
    (d.length < 8 → ParseUSRVCOM d = none) ∧
    ∀ i, USRVCOMHeaderAt d i → (∀ j, j < i → ¬ USRVCOMHeaderAt d j) →
      ∃ c, ParseUSRVCOM d = some c ∧
        c.BaudRate = (d.getD (i + 3) 0).val * 65536 + (d.getD (i + 4) 0).val * 256
          + (d.getD (i + 5) 0).val ∧
        c.DataBits.val = 5 + ((d.getD (i + 6) 0).val &&& 3) ∧
        c.StopBits.val = (if (d.getD (i + 6) 0).val.testBit 2 then 2 else 1) ∧
        c.Parity.val = (if (d.getD (i + 6) 0).val.testBit 3
          then 1 + (((d.getD (i + 6) 0).val >>> 4) &&& 3) else 0) ∧
        c.RawData = (d.drop i).take 8 ∧
        c.Valid = true := by
  refine ⟨ParseUSRVCOM_eq_none_iff d, ?_, ParseUSRVCOM_of_first_header d⟩
  intro hlen
  unfold ParseUSRVCOM
  rw [if_pos (by simpa [USRVCOMPacketLen] using hlen)]

/-- A frame after two bytes of garbage, with a wrong checksum byte (00 for C0): the hypotheses
of `ParseUSRVCOM_frame_layout` hold at index 2 and the config is 9600 baud, 8 data bits, even
parity, one stop bit. -/
theorem ParseUSRVCOM_frame_layout_witness :
    USRVCOMHeaderAt [0x00, 0x00, 0x55, 0xAA, 0x55, 0x00, 0x25, 0x80, 0x1B, 0x00] 2 ∧
    (∀ j, j < 2 →
      ¬ USRVCOMHeaderAt [0x00, 0x00, 0x55, 0xAA, 0x55, 0x00, 0x25, 0x80, 0x1B, 0x00] j) ∧
    USRVCOMChecksumMismatch [0x55, 0xAA, 0x55, 0x00, 0x25, 0x80, 0x1B, 0x00] = true ∧
    ∃ c, ParseUSRVCOM [0x00, 0x00, 0x55, 0xAA, 0x55, 0x00, 0x25, 0x80, 0x1B, 0x00] = some c ∧
      c.BaudRate = 9600 ∧ c.DataBits.val = 8 ∧ c.StopBits.val = 1 ∧ c.Parity.val = 2 ∧
      c.RawData = [0x55, 0xAA, 0x55, 0x00, 0x25, 0x80, 0x1B, 0x00] ∧ c.Valid = true :=
  ⟨by decide, by decide, by decide,
   (ParseUSRVCOM_frame_layout [0x00, 0x00, 0x55, 0xAA, 0x55, 0x00, 0x25, 0x80, 0x1B, 0x00]).2.2 2
     (by decide) (by decide)⟩

theorem getD_append_offset (pre suf : List Byte) (k : Nat) :
    (pre ++ suf).getD (pre.length + k) 0 = suf.getD k 0 := by
  rw [List.getD_append_right _ _ _ _ (by omega)]
  congr 1
  omega

theorem putUint32_bigEndian (v : Nat) (hv : v < 2 ^ 32) :
    (byteOfNat (v >>> 24)).val * 2 ^ 24 + (byteOfNat (v >>> 16)).val * 2 ^ 16
      + (byteOfNat (v >>> 8)).val * 2 ^ 8 + (byteOfNat v).val = v := by
  simp only [byteOfNat, Nat.shiftRight_eq_div_pow]
  omega

theorem buildRFC2217PacketLoop_eq (cmds : List RFC2217Command) :
    ∀ packet, buildRFC2217PacketLoop cmds packet = packet ++ cmds.flatMap RFC2217Frame := by
  induction cmds with
  | nil => intro packet; simp [buildRFC2217PacketLoop]
  | cons c rest ih =>
    intro packet
    simp [buildRFC2217PacketLoop, ih, RFC2217Frame, IAC, SB, SE, ComPortOption]

theorem ToRFC2217Commands_of_valid (c : USRVCOMConfig) (hv : c.Valid = true) :
    c.ToRFC2217Commands =
      [{ Command := 1, Data := putUint32 c.BaudRate }, { Command := 2, Data := [c.DataBits] },
       { Command := 3, Data := [c.Parity] }, { Command := 4, Data := [c.StopBits] }] := by
  simp [USRVCOMConfig.ToRFC2217Commands, hv, SetBaudrate, SetDatasize, SetParity, SetStopsize]

theorem BuildRFC2217Packet_of_valid (c : USRVCOMConfig) (hv : c.Valid = true) :
    c.BuildRFC2217Packet = c.ToRFC2217Commands.flatMap RFC2217Frame := by
  unfold USRVCOMConfig.BuildRFC2217Packet
  simp only [ToRFC2217Commands_of_valid c hv, buildRFC2217PacketLoop_eq]
  simp

/-- Claim C2: for a valid config, ToRFC2217Commands is exactly the four items (opcode 1, the
four-byte big-endian encoding of the baud rate), (opcode 2, the data bits), (opcode 3, the
parity), (opcode 4, the stop bits), in this order; the four baud bytes are the big-endian digits
of the `uint32` baud rate; for an invalid config there are no items. -/
theorem ToRFC2217Commands_four_items (c : USRVCOMConfig) :
    (c.Valid = true →
      c.ToRFC2217Commands =
        [{ Command := 1, Data := putUint32 c.BaudRate }, { Command := 2, Data := [c.DataBits] },
         { Command := 3, Data := [c.Parity] }, { Command := 4, Data := [c.StopBits] }]) ∧
    (c.BaudRate < 2 ^ 32 →
      ∃ b0 b1 b2 b3 : Byte, putUint32 c.BaudRate = [b0, b1, b2, b3] ∧
        b0.val * 2 ^ 24 + b1.val * 2 ^ 16 + b2.val * 2 ^ 8 + b3.val = c.BaudRate) ∧
    (c.Valid = false → c.ToRFC2217Commands = []) := by
  refine ⟨ToRFC2217Commands_of_valid c, ?_, ?_⟩
  · intro hb
    exact ⟨_, _, _, _, rfl, putUint32_bigEndian _ hb⟩
  · intro hv
    simp [USRVCOMConfig.ToRFC2217Commands, hv]

/-- The config 9600 8N1 gives the items (1, 00 00 25 80), (2, 08), (3, 00), (4, 01), and its
invalid twin gives none. -/
theorem ToRFC2217Commands_four_items_witness :
    (9600 < 2 ^ 32 ∧
      (USRVCOMConfig.mk 9600 8 0 1 true []).ToRFC2217Commands =
        [{ Command := 1, Data := putUint32 9600 }, { Command := 2, Data := [8] },
         { Command := 3, Data := [0] }, { Command := 4, Data := [1] }] ∧
      putUint32 9600 = [0x00, 0x00, 0x25, 0x80]) ∧
    (USRVCOMConfig.mk 9600 8 0 1 false []).ToRFC2217Commands = [] :=
  ⟨⟨by decide, (ToRFC2217Commands_four_items (USRVCOMConfig.mk 9600 8 0 1 true [])).1 rfl,
    by decide⟩,
   (ToRFC2217Commands_four_items (USRVCOMConfig.mk 9600 8 0 1 false [])).2.2 rfl⟩

/-- Claim C3: for a valid config, BuildRFC2217Packet is the concatenation, in order, of
`FF FA 2C <opcode> <payload> FF F0` over the items of ToRFC2217Commands; it is 31 bytes long
and starts with FF FA 2C 01; for the config parsed from the frame 55 AA 55 00 25 80 03 A8 it is
the 31 bytes of the specification's example; for an invalid config it is empty. -/
theorem BuildRFC2217Packet_concat (c : USRVCOMConfig) :
    (c.Valid = true →
      c.BuildRFC2217Packet = c.ToRFC2217Commands.flatMap RFC2217Frame ∧
      c.BuildRFC2217Packet.length = 31 ∧
      c.BuildRFC2217Packet.take 4 = [0xFF, 0xFA, 0x2C, 0x01]) ∧
    (ParseUSRVCOM [0x55, 0xAA, 0x55, 0x00, 0x25, 0x80, 0x03, 0xA8]).map
        USRVCOMConfig.BuildRFC2217Packet =
      some [0xFF, 0xFA, 0x2C, 0x01, 0x00, 0x00, 0x25, 0x80, 0xFF, 0xF0,
            0xFF, 0xFA, 0x2C, 0x02, 0x08, 0xFF, 0xF0, 0xFF, 0xFA, 0x2C, 0x03, 0x00, 0xFF, 0xF0,
            0xFF, 0xFA, 0x2C, 0x04, 0x01, 0xFF, 0xF0] ∧
    (c.Valid = false → c.BuildRFC2217Packet = []) := by
  refine ⟨?_, by decide, ?_⟩
  · intro hv
    have h4 := ToRFC2217Commands_of_valid c hv
    have hb := BuildRFC2217Packet_of_valid c hv
    refine ⟨hb, ?_, ?_⟩
    · rw [hb, h4]
      simp [RFC2217Frame, putUint32]
    · rw [hb, h4]
      simp [RFC2217Frame, putUint32]
  · intro hv
    simp [USRVCOMConfig.BuildRFC2217Packet, USRVCOMConfig.ToRFC2217Commands, hv]

/-- The valid config 115200 7E2 is built into 31 bytes starting with FF FA 2C 01, and its
invalid twin into none. -/
theorem BuildRFC2217Packet_concat_witness :
    ((USRVCOMConfig.mk 115200 7 2 2 true []).BuildRFC2217Packet =
        (USRVCOMConfig.mk 115200 7 2 2 true []).ToRFC2217Commands.flatMap RFC2217Frame ∧
      (USRVCOMConfig.mk 115200 7 2 2 true []).BuildRFC2217Packet.length = 31 ∧
      (USRVCOMConfig.mk 115200 7 2 2 true []).BuildRFC2217Packet.take 4
        = [0xFF, 0xFA, 0x2C, 0x01]) ∧
    (USRVCOMConfig.mk 115200 7 2 2 false []).BuildRFC2217Packet = [] :=
  ⟨(BuildRFC2217Packet_concat (USRVCOMConfig.mk 115200 7 2 2 true [])).1 rfl,
   (BuildRFC2217Packet_concat (USRVCOMConfig.mk 115200 7 2 2 false [])).2.2 rfl⟩

theorem containsIACSE_append_IAC :
    ∀ body : List Byte, containsIACSE body = false → containsIACSE (body ++ [0xFF]) = false := by
  intro body
  induction body with
  | nil => intro _; decide
  | cons a rest ih =>
    cases rest with
    | nil =>
      intro _
      simp [containsIACSE]
    | cons b rest2 =>
      intro h
      simp only [containsIACSE, Bool.or_eq_false_iff] at h
      simp only [List.cons_append, containsIACSE, Bool.or_eq_false_iff]
      exact ⟨h.1, ih h.2⟩

theorem findIACSE_frame :
    ∀ (body pre rest : List Byte) (fuel : Nat),
      containsIACSE (body ++ [0xFF]) = false → body.length < fuel →
      findIACSE (pre ++ (body ++ 0xFF :: 0xF0 :: rest)) fuel pre.length
        = some (pre.length + body.length) := by
  intro body
  induction body with
  | nil =>
    intro pre rest fuel _ hf
    obtain ⟨f, rfl⟩ : ∃ f, fuel = f + 1 := ⟨fuel - 1, by simp at hf; omega⟩
    have h0 := getD_append_offset pre ([] ++ 0xFF :: 0xF0 :: rest) 0
    have h1 := getD_append_offset pre ([] ++ 0xFF :: 0xF0 :: rest) 1
    simp only [Nat.add_zero] at h0
    unfold findIACSE
    rw [if_pos (by simp), h0, h1]
    simp [IAC, SE]
  | cons b body ih =>
    intro pre rest fuel hc hf
    obtain ⟨f, rfl⟩ : ∃ f, fuel = f + 1 := ⟨fuel - 1, by simp at hf; omega⟩
    have h0 := getD_append_offset pre (b :: body ++ 0xFF :: 0xF0 :: rest) 0
    have h1 := getD_append_offset pre (b :: body ++ 0xFF :: 0xF0 :: rest) 1
    simp only [Nat.add_zero] at h0
    have hc2 : ¬ (b = IAC ∧ (body ++ 0xFF :: 0xF0 :: rest).getD 0 0 = SE)
        ∧ containsIACSE (body ++ [0xFF]) = false := by
      cases body with
      | nil =>
        simp only [List.nil_append, List.cons_append, containsIACSE, Bool.or_eq_false_iff] at hc
        refine ⟨?_, by decide⟩
        simp [IAC, SE]
      | cons b2 body2 =>
        simp only [List.cons_append, containsIACSE, Bool.or_eq_false_iff] at hc
        refine ⟨?_, hc.2⟩
        have h := hc.1
        simp only [Bool.and_eq_false_iff, decide_eq_false_iff_not] at h
        simp only [List.cons_append, List.getD_cons_zero, IAC, SE]
        tauto
    unfold findIACSE
    rw [if_pos (by simp), h0, h1]
    simp only [List.cons_append, List.getD_cons_zero, List.getD_cons_succ]
    rw [if_neg hc2.1]
    have := ih (pre ++ [b]) rest f hc2.2 (by simp at hf; omega)
    simp only [List.append_assoc, List.singleton_append, List.length_append, List.length_singleton]
      at this
    rw [this]
    simp only [List.length_cons]
    congr 1
    omega

theorem parseRFC2217Loop_frames :
    ∀ (items : List RFC2217Command) (pre : List Byte) (acc : List RFC2217Command) (fuel : Nat),
      (∀ c ∈ items, containsIACSE (c.Command :: c.Data) = false) → items.length ≤ fuel →
      parseRFC2217Loop (pre ++ items.flatMap RFC2217Frame) fuel pre.length acc = acc ++ items := by
  intro items
  induction items with
  | nil =>
    intro pre acc fuel _ _
    cases fuel with
    | zero => simp [parseRFC2217Loop]
    | succ f =>
      unfold parseRFC2217Loop
      rw [if_neg (by simp)]
      simp
  | cons c items ih =>
    intro pre acc fuel hno hf
    obtain ⟨f, rfl⟩ : ∃ f, fuel = f + 1 := ⟨fuel - 1, by simp at hf; omega⟩
    have hdata : pre ++ (c :: items).flatMap RFC2217Frame
        = pre ++ (0xFF :: 0xFA :: 0x2C :: ((c.Command :: c.Data)
            ++ 0xFF :: 0xF0 :: items.flatMap RFC2217Frame)) := by
      simp [RFC2217Frame]
    have hdata2 : pre ++ (c :: items).flatMap RFC2217Frame
        = (pre ++ [0xFF, 0xFA, 0x2C]) ++ ((c.Command :: c.Data)
            ++ 0xFF :: 0xF0 :: items.flatMap RFC2217Frame) := by
      simp [RFC2217Frame]
    have h0 := getD_append_offset pre (0xFF :: 0xFA :: 0x2C :: ((c.Command :: c.Data)
            ++ 0xFF :: 0xF0 :: items.flatMap RFC2217Frame)) 0
    have h1 := getD_append_offset pre (0xFF :: 0xFA :: 0x2C :: ((c.Command :: c.Data)
            ++ 0xFF :: 0xF0 :: items.flatMap RFC2217Frame)) 1
    have h2 := getD_append_offset pre (0xFF :: 0xFA :: 0x2C :: ((c.Command :: c.Data)
            ++ 0xFF :: 0xF0 :: items.flatMap RFC2217Frame)) 2
    simp only [Nat.add_zero, List.getD_cons_zero, List.getD_cons_succ] at h0 h1 h2
    have hfind : findIACSE (pre ++ (c :: items).flatMap RFC2217Frame)
        (pre ++ (c :: items).flatMap RFC2217Frame).length (pre.length + 3)
        = some (pre.length + 3 + (c.Data.length + 1)) := by
      have := findIACSE_frame (c.Command :: c.Data) (pre ++ [0xFF, 0xFA, 0x2C])
        (items.flatMap RFC2217Frame) (pre ++ (c :: items).flatMap RFC2217Frame).length
        (containsIACSE_append_IAC _ (hno c (List.mem_cons_self _ _)))
        (by rw [hdata]; simp; omega)
      rw [← hdata2] at this
      simpa using this
    have hdrop : ((pre ++ (c :: items).flatMap RFC2217Frame).drop (pre.length + 3)).take
        (pre.length + 3 + (c.Data.length + 1) - (pre.length + 3)) = c.Command :: c.Data := by
      rw [hdata2]
      have : pre.length + 3 = (pre ++ [0xFF, 0xFA, 0x2C] : List Byte).length := by simp
      rw [this, List.drop_left]
      have h3 : (pre ++ [0xFF, 0xFA, 0x2C] : List Byte).length + (c.Data.length + 1)
          - (pre ++ [0xFF, 0xFA, 0x2C] : List Byte).length = (c.Command :: c.Data).length := by
        simp
      rw [h3, List.take_left]
    unfold parseRFC2217Loop
    rw [if_pos (by rw [hdata]; simp), hdata] 
    rw [if_pos ⟨by rw [h0]; rfl, by rw [h1]; rfl, by simp, by rw [h2]; rfl⟩]
    rw [← hdata]
    dsimp only
    rw [hfind]
    dsimp only
    rw [if_pos (by omega), hdrop]
    simp only [List.length_cons, ge_iff_le, Nat.le_add_left, if_true, List.getD_cons_zero,
      List.drop_succ_cons, List.drop_zero]
    have hih := ih (pre ++ RFC2217Frame c) (acc ++ [c]) f
      (fun c2 hc2 => hno c2 (List.mem_cons_of_mem _ hc2)) (by simp at hf; omega)
    have hlen : (pre ++ RFC2217Frame c).length = pre.length + 3 + (c.Data.length + 1) + 2 := by
      simp [RFC2217Frame]; omega
    rw [hlen] at hih
    have hd3 : pre ++ RFC2217Frame c ++ items.flatMap RFC2217Frame
        = pre ++ (c :: items).flatMap RFC2217Frame := by simp
    rw [hd3] at hih
    rw [hih]
    simp

theorem length_le_length_flatMap_frame (items : List RFC2217Command) :
    items.length ≤ (items.flatMap RFC2217Frame).length := by
  induction items with
  | nil => simp
  | cons c items ih => simp [RFC2217Frame] at ih ⊢; omega

theorem ParseRFC2217Commands_flatMap_frame (items : List RFC2217Command)
    (h : ∀ c ∈ items, containsIACSE (c.Command :: c.Data) = false) :
    (ParseRFC2217Commands (items.flatMap RFC2217Frame)).Commands = items := by
  have := parseRFC2217Loop_frames items [] [] (items.flatMap RFC2217Frame).length h
    (length_le_length_flatMap_frame items)
  simpa [ParseRFC2217Commands] using this

/-- Claim C4: for every list of items in none of which a byte FF is immediately followed by F0
inside the opcode followed by the payload, ParseRFC2217Commands applied to the concatenation of
their frames `FF FA 2C opcode payload FF F0` returns exactly those items in the same order; and
for every input whatsoever RawData is the input unchanged. -/
theorem ParseRFC2217Commands_frames (items : List RFC2217Command) (d : List Byte) :
    ((∀ c ∈ items, containsIACSE (c.Command :: c.Data) = false) →
      (ParseRFC2217Commands (items.flatMap RFC2217Frame)).Commands = items) ∧
    (ParseRFC2217Commands d).RawData = d :=
  ⟨ParseRFC2217Commands_flatMap_frame items, rfl⟩

/-- The five items of the repository's test vector (2400 baud, 8 data bits, parity 1, one stop
bit, control 1) are read back from their 38 bytes. -/
theorem ParseRFC2217Commands_frames_witness :
    (∀ c ∈ ([⟨1, [0x00, 0x00, 0x09, 0x60]⟩, ⟨2, [0x08]⟩, ⟨3, [0x01]⟩, ⟨4, [0x01]⟩,
        ⟨5, [0x01]⟩] : List RFC2217Command), containsIACSE (c.Command :: c.Data) = false) ∧
    (ParseRFC2217Commands
      (([⟨1, [0x00, 0x00, 0x09, 0x60]⟩, ⟨2, [0x08]⟩, ⟨3, [0x01]⟩, ⟨4, [0x01]⟩,
        ⟨5, [0x01]⟩] : List RFC2217Command).flatMap RFC2217Frame)).Commands
      = [⟨1, [0x00, 0x00, 0x09, 0x60]⟩, ⟨2, [0x08]⟩, ⟨3, [0x01]⟩, ⟨4, [0x01]⟩, ⟨5, [0x01]⟩] :=
  ⟨by decide,
   (ParseRFC2217Commands_frames [⟨1, [0x00, 0x00, 0x09, 0x60]⟩, ⟨2, [0x08]⟩, ⟨3, [0x01]⟩,
      ⟨4, [0x01]⟩, ⟨5, [0x01]⟩] []).1 (by decide)⟩

/-! ### Round trips (C5, C6) -/

theorem putUint32_of_three_bytes (a b c : Byte) :
    putUint32 (a.val * 65536 + b.val * 256 + c.val) = [0, a, b, c] := by
  have ha := a.isLt
  have hb := b.isLt
  have hc := c.isLt
  simp only [putUint32, byteOfNat, Nat.shiftRight_eq_div_pow, List.cons.injEq, and_true]
  refine ⟨?_, ?_, ?_, ?_⟩ <;> apply Fin.ext <;> simp only [Fin.val_zero] <;> omega

theorem IsUSRVCOM_headerAt (f : List Byte) (hlen : f.length = 8) (hhdr : IsUSRVCOM f = true) :
    USRVCOMHeaderAt f 0 := by
  unfold IsUSRVCOM at hhdr
  rw [if_neg (by simp only [USRVCOMHeaderLen]; omega)] at hhdr
  have h := of_decide_eq_true hhdr
  exact ⟨by omega, h⟩

/-- Claim C5, counterexample: the frame 55 AA 55 00 FF F0 03 F2 (baud rate 65520, 8N1, checksum
correct) is translated to the items (1, 00 00 FF F0), (2, 08), (3, 00), (4, 01), but parsing
the re-encoded packet gives (1, 00 00), (2, 08), (3, 00), (4, 01): the baud payload is cut at
its own FF F0. -/
theorem usrvcom_rfc2217_roundtrip_counterexample :
    ([0x55, 0xAA, 0x55, 0x00, 0xFF, 0xF0, 0x03, 0xF2] : List Byte).length = 8 ∧
    IsUSRVCOM [0x55, 0xAA, 0x55, 0x00, 0xFF, 0xF0, 0x03, 0xF2] = true ∧
    USRVCOMChecksumMismatch [0x55, 0xAA, 0x55, 0x00, 0xFF, 0xF0, 0x03, 0xF2] = false ∧
    ∃ c, ParseUSRVCOM [0x55, 0xAA, 0x55, 0x00, 0xFF, 0xF0, 0x03, 0xF2] = some c ∧
      c.ToRFC2217Commands =
        [⟨1, [0x00, 0x00, 0xFF, 0xF0]⟩, ⟨2, [0x08]⟩, ⟨3, [0x00]⟩, ⟨4, [0x01]⟩] ∧
      (ParseRFC2217Commands c.BuildRFC2217Packet).Commands =
        [⟨1, [0x00, 0x00]⟩, ⟨2, [0x08]⟩, ⟨3, [0x00]⟩, ⟨4, [0x01]⟩] ∧
      (ParseRFC2217Commands c.BuildRFC2217Packet).Commands ≠ c.ToRFC2217Commands :=
  ⟨by decide, by decide, by decide, _, rfl, by decide, by decide, by decide⟩

/-- Claim C5, amended: for every 8-byte frame that starts with 55 AA 55 and in whose three
baud bytes no FF is immediately followed by F0, parsing the re-encoded translation of the
parsed config gives back the items of ToRFC2217Commands, which carry the opcodes 1, 2, 3, 4 in
this order. -/
theorem usrvcom_rfc2217_roundtrip (f : List Byte) (hlen : f.length = 8)
    (hhdr : IsUSRVCOM f = true)
    (hno : containsIACSE [f.getD 3 0, f.getD 4 0, f.getD 5 0] = false) :
    ∃ c, ParseUSRVCOM f = some c ∧
      (ParseRFC2217Commands c.BuildRFC2217Packet).Commands = c.ToRFC2217Commands ∧
      c.ToRFC2217Commands.map RFC2217Command.Command = [1, 2, 3, 4] := by
  obtain ⟨c, hc, hbaud, -, -, -, -, hvalid⟩ :=
    ParseUSRVCOM_of_first_header f 0 (IsUSRVCOM_headerAt f hlen hhdr) (fun j hj => by omega)
  refine ⟨c, hc, ?_, ?_⟩
  · rw [BuildRFC2217Packet_of_valid c hvalid]
    apply ParseRFC2217Commands_flatMap_frame
    rw [ToRFC2217Commands_of_valid c hvalid, hbaud]
    simp only [Nat.zero_add, putUint32_of_three_bytes]
    intro x hx
    simp only [List.mem_cons, List.mem_singleton, List.not_mem_nil, or_false] at hx
    rcases hx with rfl | rfl | rfl | rfl
    · simpa [containsIACSE] using hno
    · simp [containsIACSE]
    · simp [containsIACSE]
    · simp [containsIACSE]
  · rw [ToRFC2217Commands_of_valid c hvalid]
    rfl

/-- The frame 55 AA 55 00 25 80 03 A8 (9600 8N1) satisfies the hypotheses of
`usrvcom_rfc2217_roundtrip`. -/
theorem usrvcom_rfc2217_roundtrip_witness :
    ([0x55, 0xAA, 0x55, 0x00, 0x25, 0x80, 0x03, 0xA8] : List Byte).length = 8 ∧
    IsUSRVCOM [0x55, 0xAA, 0x55, 0x00, 0x25, 0x80, 0x03, 0xA8] = true ∧
    containsIACSE [0x00, 0x25, 0x80] = false ∧
    ∃ c, ParseUSRVCOM [0x55, 0xAA, 0x55, 0x00, 0x25, 0x80, 0x03, 0xA8] = some c ∧
      (ParseRFC2217Commands c.BuildRFC2217Packet).Commands = c.ToRFC2217Commands ∧
      c.ToRFC2217Commands.map RFC2217Command.Command = [1, 2, 3, 4] :=
  ⟨by decide, by decide, by decide,
   usrvcom_rfc2217_roundtrip [0x55, 0xAA, 0x55, 0x00, 0x25, 0x80, 0x03, 0xA8] (by decide)
     (by decide) (by decide)⟩

/-- Claim C6: BuildResponse of a command (op, data) is `FF FA 2C (op+100 mod 256) data FF F0`;
and for every buffer that is a concatenation of well-formed items (opcode in 1..5, no FF
immediately followed by F0 inside the opcode followed by the payload), concatenating
BuildResponse over the parsed commands in order gives the buffer with every opcode byte
replaced by opcode+100 (which does not wrap) and all other bytes identical. -/
theorem BuildResponse_roundtrip (items : List RFC2217Command) :
    (∀ c : RFC2217Command, c.BuildResponse
      = [0xFF, 0xFA, 0x2C, byteOfNat ((c.Command.val + 100) % 256)] ++ c.Data ++ [0xFF, 0xF0]) ∧
    ((∀ c ∈ items, 1 ≤ c.Command.val ∧ c.Command.val ≤ 5 ∧
        containsIACSE (c.Command :: c.Data) = false) →
      ((ParseRFC2217Commands (items.flatMap RFC2217Frame)).Commands.flatMap
          RFC2217Command.BuildResponse = items.flatMap RFC2217ResponseFrame) ∧
      ∀ c ∈ items, (byteOfNat (c.Command.val + 100)).val = c.Command.val + 100) := by
  refine ⟨?_, ?_⟩
  · intro c
    simp [RFC2217Command.BuildResponse, IAC, SB, SE, ComPortOption, ServerResponseOffset,
      byteOfNat]
  · intro h
    refine ⟨?_, ?_⟩
    · have hfun : RFC2217Command.BuildResponse = RFC2217ResponseFrame := by
        funext c
        simp [RFC2217Command.BuildResponse, RFC2217ResponseFrame, IAC, SB, SE, ComPortOption,
          ServerResponseOffset]
      rw [ParseRFC2217Commands_flatMap_frame items (fun c hc => (h c hc).2.2), hfun]
    · intro c hc
      have := (h c hc).2.1
      simp only [byteOfNat]
      omega

/-- The five items of the repository's test vector are answered with the opcodes 101..105. -/
theorem BuildResponse_roundtrip_witness :
    (∀ c ∈ ([⟨1, [0x00, 0x00, 0x09, 0x60]⟩, ⟨2, [0x08]⟩, ⟨3, [0x01]⟩, ⟨4, [0x01]⟩,
        ⟨5, [0x01]⟩] : List RFC2217Command), 1 ≤ c.Command.val ∧ c.Command.val ≤ 5 ∧
        containsIACSE (c.Command :: c.Data) = false) ∧
    (ParseRFC2217Commands
      [0xFF, 0xFA, 0x2C, 0x01, 0x00, 0x00, 0x09, 0x60, 0xFF, 0xF0, 0xFF, 0xFA, 0x2C, 0x02, 0x08,
       0xFF, 0xF0, 0xFF, 0xFA, 0x2C, 0x03, 0x01, 0xFF, 0xF0, 0xFF, 0xFA, 0x2C, 0x04, 0x01, 0xFF,
       0xF0, 0xFF, 0xFA, 0x2C, 0x05, 0x01, 0xFF, 0xF0]).Commands.flatMap
        RFC2217Command.BuildResponse
      = [0xFF, 0xFA, 0x2C, 0x65, 0x00, 0x00, 0x09, 0x60, 0xFF, 0xF0, 0xFF, 0xFA, 0x2C, 0x66, 0x08,
         0xFF, 0xF0, 0xFF, 0xFA, 0x2C, 0x67, 0x01, 0xFF, 0xF0, 0xFF, 0xFA, 0x2C, 0x68, 0x01, 0xFF,
         0xF0, 0xFF, 0xFA, 0x2C, 0x69, 0x01, 0xFF, 0xF0] :=
  ⟨by decide,
   ((BuildResponse_roundtrip [⟨1, [0x00, 0x00, 0x09, 0x60]⟩, ⟨2, [0x08]⟩, ⟨3, [0x01]⟩,
      ⟨4, [0x01]⟩, ⟨5, [0x01]⟩]).2 (by decide)).1⟩

/-! ### Queries (C7) and prefixes of command lines -/

theorem bigEndianUint32_eq (b0 b1 b2 b3 : Byte) :
    bigEndianUint32 [b0, b1, b2, b3]
      = b0.val * 2 ^ 24 + b1.val * 2 ^ 16 + b2.val * 2 ^ 8 + b3.val := by
  have h0 := b0.isLt
  have h1 := b1.isLt
  have h2 := b2.isLt
  have h3 := b3.isLt
  simp only [bigEndianUint32, List.getD_cons_zero, List.getD_cons_succ, Nat.shiftLeft_eq]
  have e1 : b3.val ||| b2.val * 2 ^ 8 = 2 ^ 8 * b2.val + b3.val := by
    rw [Nat.lor_comm, Nat.mul_comm, Nat.mul_add_lt_is_or h3]
  have e2 : 2 ^ 8 * b2.val + b3.val ||| b1.val * 2 ^ 16
      = 2 ^ 16 * b1.val + (2 ^ 8 * b2.val + b3.val) := by
    rw [Nat.lor_comm, Nat.mul_comm]
    exact (Nat.mul_add_lt_is_or (by omega) _).symm
  have e3 : 2 ^ 16 * b1.val + (2 ^ 8 * b2.val + b3.val) ||| b0.val * 2 ^ 24
      = 2 ^ 24 * b0.val + (2 ^ 16 * b1.val + (2 ^ 8 * b2.val + b3.val)) := by
    rw [Nat.lor_comm, Nat.mul_comm]
    exact (Nat.mul_add_lt_is_or (by omega) _).symm
  rw [e1, e2, e3]
  ring

/-- Claim C7: IsQuery is true exactly when either the opcode is 1 (SET-BAUDRATE), the payload
has at least four bytes and its first four bytes are all zero, or the opcode is one of 2, 3, 4,
5, the payload is not empty and its first byte is zero. -/
theorem IsQuery_iff (c : RFC2217Command) :
    c.IsQuery = true ↔
      (c.Command = 1 ∧ 4 ≤ c.Data.length ∧ c.Data.getD 0 0 = 0 ∧ c.Data.getD 1 0 = 0 ∧
        c.Data.getD 2 0 = 0 ∧ c.Data.getD 3 0 = 0) ∨
      ((c.Command = 2 ∨ c.Command = 3 ∨ c.Command = 4 ∨ c.Command = 5) ∧ c.Data ≠ [] ∧
        c.Data.getD 0 0 = 0) := by
  obtain ⟨op, data⟩ := c
  unfold RFC2217Command.IsQuery
  simp only [SetBaudrate, SetDatasize, SetParity, SetStopsize, SetControl]
  by_cases h1 : op = 1
  · subst h1
    rw [if_pos rfl]
    by_cases h4 : data.length ≥ 4
    · rw [if_pos h4]
      obtain ⟨b0, b1, b2, b3, rest, rfl⟩ : ∃ b0 b1 b2 b3 rest, data = b0 :: b1 :: b2 :: b3 :: rest := by
        match data, h4 with
        | b0 :: b1 :: b2 :: b3 :: rest, _ => exact ⟨b0, b1, b2, b3, rest, rfl⟩
      simp only [List.take_succ_cons, List.take_zero, bigEndianUint32_eq, decide_eq_true_eq,
        List.getD_cons_zero, List.getD_cons_succ]
      constructor
      · intro h
        left
        refine ⟨trivial, by simp, ?_, ?_, ?_, ?_⟩ <;> apply Fin.ext <;> simp only [Fin.val_zero] <;> omega
      · rintro (⟨-, -, rfl, rfl, rfl, rfl⟩ | ⟨h, -⟩)
        · rfl
        · exact absurd h (by decide)
    · rw [if_neg h4]
      constructor
      · intro h; cases h
      · rintro (⟨-, h, -⟩ | ⟨h, -⟩)
        · exact absurd h h4
        · exact absurd h (by decide)
  · rw [if_neg h1]
    by_cases h2 : op = 2 ∨ op = 3 ∨ op = 4 ∨ op = 5
    · rw [if_pos h2]
      cases data with
      | nil => simp
      | cons b rest => simp [h1, h2]
    · rw [if_neg h2]
      simp [h1, h2]

theorem hasPrefix_iff (s pre : List Byte) : hasPrefix s pre = true ↔ pre <+: s := by
  unfold hasPrefix
  rw [decide_eq_true_iff]
  constructor
  · rintro ⟨-, h⟩
    exact List.prefix_iff_eq_take.mpr h.symm
  · intro h
    exact ⟨h.length_le, (List.prefix_iff_eq_take.mp h).symm⟩

theorem hasPrefix_append (pre t : List Byte) : hasPrefix (pre ++ t) pre = true :=
  (hasPrefix_iff _ _).mpr (List.prefix_append _ _)

theorem trimPrefix_append (pre t : List Byte) : trimPrefix (pre ++ t) pre = t := by
  unfold trimPrefix
  rw [if_pos (hasPrefix_append pre t), List.drop_left]

theorem parseATCommand_reg (t : List Byte) :
    parseATCommand ([0x41, 0x54, 0x2B, 0x52, 0x45, 0x47, 0x3D] ++ t)
      = some { Cmd := CmdReg, Param := t, Skipped := [], USRVCOMCfg := none } := by
  have h1 := hasPrefix_append (CmdReg ++ strEq) t
  have h2 := trimPrefix_append (CmdReg ++ strEq) t
  unfold parseATCommand
  rw [show ([0x41, 0x54, 0x2B, 0x52, 0x45, 0x47, 0x3D] : List Byte) = CmdReg ++ strEq from rfl,
    if_pos h1, h2]

theorem parseATCommand_connect (t : List Byte) :
    parseATCommand ([0x41, 0x54, 0x2B, 0x43, 0x4F, 0x4E, 0x4E, 0x45, 0x43, 0x54, 0x3D] ++ t)
      = some { Cmd := CmdConnect, Param := t, Skipped := [], USRVCOMCfg := none } := by
  have h1 := hasPrefix_append (CmdConnect ++ strEq) t
  have h2 := trimPrefix_append (CmdConnect ++ strEq) t
  have h0 : hasPrefix ((CmdConnect ++ strEq) ++ t) (CmdReg ++ strEq) = false := by
    simp [hasPrefix, CmdConnect, CmdReg, strEq]
  unfold parseATCommand
  rw [show ([0x41, 0x54, 0x2B, 0x43, 0x4F, 0x4E, 0x4E, 0x45, 0x43, 0x54, 0x3D] : List Byte)
      = CmdConnect ++ strEq from rfl, h0, if_pos h1, h2]
  simp

theorem parseATCommand_dt (t : List Byte) :
    parseATCommand ([0x41, 0x54, 0x44, 0x54] ++ t)
      = some { Cmd := CmdDT, Param := t, Skipped := [], USRVCOMCfg := none } := by
  have h1 := hasPrefix_append CmdDT t
  have h2 := trimPrefix_append CmdDT t
  have h0 : hasPrefix (CmdDT ++ t) (CmdReg ++ strEq) = false := by
    simp [hasPrefix, CmdDT, CmdReg, strEq]
  have h0b : hasPrefix (CmdDT ++ t) (CmdConnect ++ strEq) = false := by
    simp [hasPrefix, CmdDT, CmdConnect, strEq]
  unfold parseATCommand
  rw [show ([0x41, 0x54, 0x44, 0x54] : List Byte) = CmdDT from rfl, h0, h0b, if_pos h1, h2]
  simp

theorem parseATCommand_dp (t : List Byte) :
    parseATCommand ([0x41, 0x54, 0x44, 0x50] ++ t)
      = some { Cmd := CmdDP, Param := t, Skipped := [], USRVCOMCfg := none } := by
  have h1 := hasPrefix_append CmdDP t
  have h2 := trimPrefix_append CmdDP t
  have h0 : hasPrefix (CmdDP ++ t) (CmdReg ++ strEq) = false := by
    simp [hasPrefix, CmdDP, CmdReg, strEq]
  have h0b : hasPrefix (CmdDP ++ t) (CmdConnect ++ strEq) = false := by
    simp [hasPrefix, CmdDP, CmdConnect, strEq]
  have h0c : hasPrefix (CmdDP ++ t) CmdDT = false := by
    simp [hasPrefix, CmdDP, CmdDT]
  unfold parseATCommand
  rw [show ([0x41, 0x54, 0x44, 0x50] : List Byte) = CmdDP from rfl, h0, h0b, h0c, if_pos h1, h2]
  simp

theorem parseATCommand_some_starts (s : List Byte) (cmd : ATCommand)
    (h : parseATCommand s = some cmd) :
    [0x41, 0x54, 0x2B, 0x52, 0x45, 0x47, 0x3D] <+: s ∨
    [0x41, 0x54, 0x2B, 0x43, 0x4F, 0x4E, 0x4E, 0x45, 0x43, 0x54, 0x3D] <+: s ∨
    [0x41, 0x54, 0x44, 0x54] <+: s ∨ [0x41, 0x54, 0x44, 0x50] <+: s := by
  unfold parseATCommand at h
  by_cases h1 : hasPrefix s (CmdReg ++ strEq) = true
  · exact Or.inl ((hasPrefix_iff _ _).mp h1)
  · by_cases h2 : hasPrefix s (CmdConnect ++ strEq) = true
    · exact Or.inr (Or.inl ((hasPrefix_iff _ _).mp h2))
    · by_cases h3 : hasPrefix s CmdDT = true
      · exact Or.inr (Or.inr (Or.inl ((hasPrefix_iff _ _).mp h3)))
      · by_cases h4 : hasPrefix s CmdDP = true
        · exact Or.inr (Or.inr (Or.inr ((hasPrefix_iff _ _).mp h4)))
        · simp [h1, h2, h3, h4] at h

/-! ### Classification of command lines (C8) -/

/-- Claim C8: parseATCommand classifies a command line by prefix. The result is non-nil exactly
when the line starts with one of "AT+REG=", "AT+CONNECT=", "ATDT", "ATDP"; for a line that is
one of these prefixes followed by a remainder, the result carries the matching command name
and that remainder (possibly empty) as Param, so prefix and Param reconstruct the line; and no
line starts with two of the prefixes, so the order of the tests does not matter. -/
theorem parseATCommand_classification (s : List Byte) :
    (parseATCommand s ≠ none ↔
      ([0x41, 0x54, 0x2B, 0x52, 0x45, 0x47, 0x3D] <+: s ∨
       [0x41, 0x54, 0x2B, 0x43, 0x4F, 0x4E, 0x4E, 0x45, 0x43, 0x54, 0x3D] <+: s ∨
       [0x41, 0x54, 0x44, 0x54] <+: s ∨ [0x41, 0x54, 0x44, 0x50] <+: s)) ∧
    (∀ t, s = [0x41, 0x54, 0x2B, 0x52, 0x45, 0x47, 0x3D] ++ t →
      parseATCommand s = some { Cmd := [0x41, 0x54, 0x2B, 0x52, 0x45, 0x47], Param := t,
                                Skipped := [], USRVCOMCfg := none }) ∧
    (∀ t, s = [0x41, 0x54, 0x2B, 0x43, 0x4F, 0x4E, 0x4E, 0x45, 0x43, 0x54, 0x3D] ++ t →
      parseATCommand s = some { Cmd := [0x41, 0x54, 0x2B, 0x43, 0x4F, 0x4E, 0x4E, 0x45, 0x43, 0x54],
                                Param := t, Skipped := [], USRVCOMCfg := none }) ∧
    (∀ t, s = [0x41, 0x54, 0x44, 0x54] ++ t →
      parseATCommand s = some { Cmd := [0x41, 0x54, 0x44, 0x54], Param := t,
                                Skipped := [], USRVCOMCfg := none }) ∧
    (∀ t, s = [0x41, 0x54, 0x44, 0x50] ++ t →
      parseATCommand s = some { Cmd := [0x41, 0x54, 0x44, 0x50], Param := t,
                                Skipped := [], USRVCOMCfg := none }) ∧
    ¬ ([0x41, 0x54, 0x2B, 0x52, 0x45, 0x47, 0x3D] <+: s ∧
       [0x41, 0x54, 0x2B, 0x43, 0x4F, 0x4E, 0x4E, 0x45, 0x43, 0x54, 0x3D] <+: s) ∧
    ¬ ([0x41, 0x54, 0x2B, 0x52, 0x45, 0x47, 0x3D] <+: s ∧ [0x41, 0x54, 0x44, 0x54] <+: s) ∧
    ¬ ([0x41, 0x54, 0x2B, 0x52, 0x45, 0x47, 0x3D] <+: s ∧ [0x41, 0x54, 0x44, 0x50] <+: s) ∧
    ¬ ([0x41, 0x54, 0x2B, 0x43, 0x4F, 0x4E, 0x4E, 0x45, 0x43, 0x54, 0x3D] <+: s ∧
       [0x41, 0x54, 0x44, 0x54] <+: s) ∧
    ¬ ([0x41, 0x54, 0x2B, 0x43, 0x4F, 0x4E, 0x4E, 0x45, 0x43, 0x54, 0x3D] <+: s ∧
       [0x41, 0x54, 0x44, 0x50] <+: s) ∧
    ¬ ([0x41, 0x54, 0x44, 0x54] <+: s ∧ [0x41, 0x54, 0x44, 0x50] <+: s) := by
  have excl : ∀ (p q : List Byte) (c1 c2 : ATCommand),
      (∀ t, parseATCommand (p ++ t) = some { c1 with Param := t }) →
      (∀ t, parseATCommand (q ++ t) = some { c2 with Param := t }) →
      c1.Cmd ≠ c2.Cmd → ¬ (p <+: s ∧ q <+: s) := by
    rintro p q c1 c2 h1 h2 hne ⟨⟨t1, rfl⟩, ⟨t2, ht2⟩⟩
    have e1 := h1 t1
    have e2 := h2 t2
    rw [ht2, e1] at e2
    injection e2 with e2
    exact hne (by simpa using congrArg ATCommand.Cmd e2)
  refine ⟨⟨?_, ?_⟩, ?_, ?_, ?_, ?_, ?_, ?_, ?_, ?_, ?_, ?_⟩
  · intro h
    cases hp : parseATCommand s with
    | none => exact absurd hp h
    | some cmd => exact parseATCommand_some_starts s cmd hp
  · rintro (⟨t, rfl⟩ | ⟨t, rfl⟩ | ⟨t, rfl⟩ | ⟨t, rfl⟩)
    · rw [parseATCommand_reg]; simp
    · rw [parseATCommand_connect]; simp
    · rw [parseATCommand_dt]; simp
    · rw [parseATCommand_dp]; simp
  · rintro t rfl
    exact parseATCommand_reg t
  · rintro t rfl
    exact parseATCommand_connect t
  · rintro t rfl
    exact parseATCommand_dt t
  · rintro t rfl
    exact parseATCommand_dp t
  · exact excl _ _ ⟨CmdReg, [], [], none⟩ ⟨CmdConnect, [], [], none⟩ parseATCommand_reg
      parseATCommand_connect (by decide)
  · exact excl _ _ ⟨CmdReg, [], [], none⟩ ⟨CmdDT, [], [], none⟩ parseATCommand_reg
      parseATCommand_dt (by decide)
  · exact excl _ _ ⟨CmdReg, [], [], none⟩ ⟨CmdDP, [], [], none⟩ parseATCommand_reg
      parseATCommand_dp (by decide)
  · exact excl _ _ ⟨CmdConnect, [], [], none⟩ ⟨CmdDT, [], [], none⟩ parseATCommand_connect
      parseATCommand_dt (by decide)
  · exact excl _ _ ⟨CmdConnect, [], [], none⟩ ⟨CmdDP, [], [], none⟩ parseATCommand_connect
      parseATCommand_dp (by decide)
  · exact excl _ _ ⟨CmdDT, [], [], none⟩ ⟨CmdDP, [], [], none⟩ parseATCommand_dt
      parseATCommand_dp (by decide)

/-- The lines "AT+REG=dev1", "AT+CONNECT=", "ATDT123" and "ATDP" are classified with the
parameters "dev1", "", "123" and "". -/
theorem parseATCommand_classification_witness :
    parseATCommand [0x41, 0x54, 0x2B, 0x52, 0x45, 0x47, 0x3D, 0x64, 0x65, 0x76, 0x31]
      = some { Cmd := [0x41, 0x54, 0x2B, 0x52, 0x45, 0x47], Param := [0x64, 0x65, 0x76, 0x31],
               Skipped := [], USRVCOMCfg := none } ∧
    parseATCommand [0x41, 0x54, 0x2B, 0x43, 0x4F, 0x4E, 0x4E, 0x45, 0x43, 0x54, 0x3D]
      = some { Cmd := [0x41, 0x54, 0x2B, 0x43, 0x4F, 0x4E, 0x4E, 0x45, 0x43, 0x54], Param := [],
               Skipped := [], USRVCOMCfg := none } ∧
    parseATCommand [0x41, 0x54, 0x44, 0x54, 0x31, 0x32, 0x33]
      = some { Cmd := [0x41, 0x54, 0x44, 0x54], Param := [0x31, 0x32, 0x33],
               Skipped := [], USRVCOMCfg := none } ∧
    parseATCommand [0x41, 0x54, 0x44, 0x50]
      = some { Cmd := [0x41, 0x54, 0x44, 0x50], Param := [],
               Skipped := [], USRVCOMCfg := none } :=
  ⟨(parseATCommand_classification _).2.1 [0x64, 0x65, 0x76, 0x31] rfl,
   (parseATCommand_classification _).2.2.1 [] rfl,
   (parseATCommand_classification _).2.2.2.1 [0x31, 0x32, 0x33] rfl,
   (parseATCommand_classification _).2.2.2.2.1 [] rfl⟩

/-! ### Line terminators (C9) -/

/-- A line that begins and ends with ASCII bytes that are no white space is left unchanged by
`TrimSpace`, whatever bytes lie between. -/
theorem TrimSpace_eq_self (s : List Byte) (hne : s ≠ [])
    (h0 : (s.getD 0 0).val < RuneSelf) (h0s : asciiSpace (s.getD 0 0) = false)
    (h1 : (s.getD (s.length - 1) 0).val < RuneSelf)
    (h1s : asciiSpace (s.getD (s.length - 1) 0) = false) : TrimSpace s = s := by
  have hlen : 0 < s.length := List.length_pos.mpr hne
  have hstart : trimSpaceStart s (s.length + 1) 0 = Sum.inl 0 := by
    unfold trimSpaceStart
    rw [if_pos hlen]
    simp only [ge_iff_le, Nat.not_le.mpr h0, if_false, h0s, if_true]
  have hstop : trimSpaceStop s 0 (s.length + 1) s.length = Sum.inl s.length := by
    unfold trimSpaceStop
    rw [if_pos hlen]
    simp only [ge_iff_le, Nat.not_le.mpr h1, if_false, h1s, if_true]
  unfold TrimSpace
  rw [hstart]
  simp only [hstop, List.drop_zero, Nat.sub_zero, List.take_length]

theorem parseATCommand_fields (s : List Byte) (cmd : ATCommand)
    (h : parseATCommand s = some cmd) : cmd.Skipped = [] ∧ cmd.USRVCOMCfg = none := by
  unfold parseATCommand at h
  split at h
  · injection h with h; subst h; exact ⟨rfl, rfl⟩
  · split at h
    · injection h with h; subst h; exact ⟨rfl, rfl⟩
    · split at h
      · injection h with h; subst h; exact ⟨rfl, rfl⟩
      · split at h
        · injection h with h; subst h; exact ⟨rfl, rfl⟩
        · cases h

theorem parseATCommand_some_AT (s : List Byte) (cmd : ATCommand)
    (h : parseATCommand s = some cmd) : ∃ t, s = chA :: chT :: t := by
  rcases parseATCommand_some_starts s cmd h with ⟨t, rfl⟩ | ⟨t, rfl⟩ | ⟨t, rfl⟩ | ⟨t, rfl⟩
  · exact ⟨_, rfl⟩
  · exact ⟨_, rfl⟩
  · exact ⟨_, rfl⟩
  · exact ⟨_, rfl⟩

theorem readLineWithSkippedLoop_inAT (L : List Byte) (hcr : CR ∉ L) (hlf : LF ∉ L) :
    ∀ (tail line skipped : List Byte),
      readLineWithSkippedLoop (L ++ tail) true line skipped
        = readLineWithSkippedLoop tail true (line ++ L) skipped := by
  induction L with
  | nil => intro tail line skipped; simp
  | cons b L ih =>
    intro tail line skipped
    have hb1 : b ≠ CR := fun h => hcr (h ▸ List.mem_cons_self _ _)
    have hb2 : b ≠ LF := fun h => hlf (h ▸ List.mem_cons_self _ _)
    have hcr2 : CR ∉ L := fun h => hcr (List.mem_cons_of_mem _ h)
    have hlf2 : LF ∉ L := fun h => hlf (List.mem_cons_of_mem _ h)
    rw [List.cons_append]
    simp only [readLineWithSkippedLoop, hb1, hb2, or_self, if_false, Bool.not_true,
      Bool.false_eq_true, false_and, if_true]
    rw [ih hcr2 hlf2]
    simp

theorem readLineWithSkipped_command (L : List Byte) (cmd : ATCommand)
    (hacc : parseATCommand L = some cmd) (hcr : CR ∉ L) (hlf : LF ∉ L) (tail : List Byte) :
    readLineWithSkipped (L ++ tail) = readLineWithSkippedLoop tail true L [] := by
  obtain ⟨t, rfl⟩ := parseATCommand_some_AT L cmd hacc
  have hcr2 : CR ∉ chT :: t := fun h => hcr (List.mem_cons_of_mem _ h)
  have hlf2 : LF ∉ chT :: t := fun h => hlf (List.mem_cons_of_mem _ h)
  unfold readLineWithSkipped
  have hcr3 : CR ∉ t := fun h => hcr2 (List.mem_cons_of_mem _ h)
  have hlf3 : LF ∉ t := fun h => hlf2 (List.mem_cons_of_mem _ h)
  have h1 : ¬ (chA = CR ∨ chA = LF) := by decide
  have h2 : ¬ (chT = CR ∨ chT = LF) := by decide
  rw [List.cons_append, List.cons_append]
  simp only [readLineWithSkippedLoop, h1, h2, if_false, Bool.not_false, Bool.not_true,
    List.head?_cons, true_and, if_true, List.nil_append, ite_self]
  rw [readLineWithSkippedLoop_inAT t hcr3 hlf3]
  simp

theorem readATCommandLoop_command (timeout : Int) (since : Nat → Int) (fuel k : Nat)
    (reader rest line allSkipped : List Byte) (usrvcomCfg : Option USRVCOMConfig)
    (conn : List ConnOp) (cmd : ATCommand)
    (hclock : ¬ (timeout > 0 ∧ since (2 * k) > timeout))
    (hread : readLineWithSkipped reader = (line, [], none, rest))
    (htrim : TrimSpace line = line) (hparse : parseATCommand line = some cmd) :
    ∃ conn1, readATCommandLoop timeout since (fuel + 1) k reader usrvcomCfg allSkipped conn
        = some { result := Except.ok { cmd with Skipped := allSkipped, USRVCOMCfg := usrvcomCfg },
                 reader := rest, conn := conn1 } ∧
      ∀ op ∈ conn1, op ∈ conn ∨ ∃ r, op = ConnOp.SetReadDeadline r := by
  have hne : line ≠ [] := by
    rintro rfl
    have h0 : parseATCommand [] = none := by decide
    rw [h0] at hparse
    cases hparse
  unfold readATCommandLoop
  rw [if_neg hclock, hread]
  simp only [List.length_nil, Nat.lt_irrefl, if_false, htrim, hne, hparse]
  refine ⟨_, rfl, ?_⟩
  intro op hop
  split at hop
  · split at hop
    · rcases List.mem_append.mp hop with h | h
      · exact Or.inl h
      · exact Or.inr ⟨_, List.mem_singleton.mp h⟩
    · exact Or.inl hop
  · exact Or.inl hop

/-- Claim C9: the three line terminators are equivalent for the codec. For every command line
`L` that parseATCommand accepts (as `cmd`), that contains no CR or LF and that TrimSpace leaves
unchanged, and when the deadline has not passed at the first check, ReadATCommandWithPresets
on `L` followed by CR, by LF or by CR LF (and then any further input `rest`) returns `cmd`,
whose Skipped is empty and which carries no USR-VCOM config; after CR LF both terminator
bytes are consumed and the unread input is `rest`, as it is after LF, and after a CR that is
not followed by LF. -/
theorem ReadATCommandWithPresets_terminators (L rest : List Byte) (cmd : ATCommand)
    (timeout : Int) (since : Nat → Int)
    (hacc : parseATCommand L = some cmd) (hcr : CR ∉ L) (hlf : LF ∉ L)
    (htrim : TrimSpace L = L) (hclock : ¬ (timeout > 0 ∧ since 0 > timeout)) :
    cmd.Skipped = [] ∧ cmd.USRVCOMCfg = none ∧
    (∃ o, ReadATCommandWithPresets (L ++ [CR] ++ rest) timeout since = some o ∧
      o.result = Except.ok cmd ∧ (rest.head? ≠ some LF → o.reader = rest)) ∧
    (∃ o, ReadATCommandWithPresets (L ++ [LF] ++ rest) timeout since = some o ∧
      o.result = Except.ok cmd ∧ o.reader = rest) ∧
    (∃ o, ReadATCommandWithPresets (L ++ [CR, LF] ++ rest) timeout since = some o ∧
      o.result = Except.ok cmd ∧ o.reader = rest) := by
  obtain ⟨hsk, hcfg⟩ := parseATCommand_fields L cmd hacc
  have hcmd : ({ cmd with Skipped := [], USRVCOMCfg := none } : ATCommand) = cmd := by
    cases cmd
    simp only [ATCommand.mk.injEq, true_and] at hsk hcfg ⊢
    exact ⟨hsk.symm, hcfg.symm⟩
  refine ⟨hsk, hcfg, ?_, ?_, ?_⟩
  · have hread : readLineWithSkipped (L ++ [CR] ++ rest)
        = (L, [], none, if rest.head? = some LF then rest.tail else rest) := by
      rw [List.append_assoc, readLineWithSkipped_command L cmd hacc hcr hlf]
      cases rest with
      | nil => simp [readLineWithSkippedLoop]
      | cons b rest =>
        by_cases hb : b = LF
        · subst hb; simp [readLineWithSkippedLoop]
        · simp [readLineWithSkippedLoop, hb]
    obtain ⟨conn1, h1, -⟩ := readATCommandLoop_command timeout since
      (L ++ [CR] ++ rest).length 0 _ _ L [] none [] cmd hclock hread htrim hacc
    refine ⟨_, h1, by rw [hcmd], ?_⟩
    intro hh
    simp [hh]
  · have hread : readLineWithSkipped (L ++ [LF] ++ rest) = (L, [], none, rest) := by
      rw [List.append_assoc, readLineWithSkipped_command L cmd hacc hcr hlf]
      simp [readLineWithSkippedLoop, LF, CR]
    obtain ⟨conn1, h1, -⟩ := readATCommandLoop_command timeout since
      (L ++ [LF] ++ rest).length 0 _ _ L [] none [] cmd hclock hread htrim hacc
    exact ⟨_, h1, by rw [hcmd], rfl⟩
  · have hread : readLineWithSkipped (L ++ [CR, LF] ++ rest) = (L, [], none, rest) := by
      rw [List.append_assoc, readLineWithSkipped_command L cmd hacc hcr hlf]
      simp [readLineWithSkippedLoop]
    obtain ⟨conn1, h1, -⟩ := readATCommandLoop_command timeout since
      (L ++ [CR, LF] ++ rest).length 0 _ _ L [] none [] cmd hclock hread htrim hacc
    exact ⟨_, h1, by rw [hcmd], rfl⟩

/-- The line "AT+CONNECT=dev1" before "hello", with a timeout of 5 and a clock that stands at
0, satisfies the hypotheses of `ReadATCommandWithPresets_terminators`. -/
theorem ReadATCommandWithPresets_terminators_witness :
    parseATCommand [0x41, 0x54, 0x2B, 0x43, 0x4F, 0x4E, 0x4E, 0x45, 0x43, 0x54, 0x3D, 0x64, 0x65,
        0x76, 0x31]
      = some { Cmd := CmdConnect, Param := [0x64, 0x65, 0x76, 0x31], Skipped := [],
               USRVCOMCfg := none } ∧
    CR ∉ ([0x41, 0x54, 0x2B, 0x43, 0x4F, 0x4E, 0x4E, 0x45, 0x43, 0x54, 0x3D, 0x64, 0x65, 0x76,
        0x31] : List Byte) ∧
    LF ∉ ([0x41, 0x54, 0x2B, 0x43, 0x4F, 0x4E, 0x4E, 0x45, 0x43, 0x54, 0x3D, 0x64, 0x65, 0x76,
        0x31] : List Byte) ∧
    TrimSpace [0x41, 0x54, 0x2B, 0x43, 0x4F, 0x4E, 0x4E, 0x45, 0x43, 0x54, 0x3D, 0x64, 0x65, 0x76,
        0x31]
      = [0x41, 0x54, 0x2B, 0x43, 0x4F, 0x4E, 0x4E, 0x45, 0x43, 0x54, 0x3D, 0x64, 0x65, 0x76,
        0x31] ∧
    ¬ ((5 : Int) > 0 ∧ (0 : Int) > 5) ∧
    ∃ o, ReadATCommandWithPresets
        ([0x41, 0x54, 0x2B, 0x43, 0x4F, 0x4E, 0x4E, 0x45, 0x43, 0x54, 0x3D, 0x64, 0x65, 0x76,
          0x31] ++ [CR, LF] ++ [0x68, 0x65, 0x6C, 0x6C, 0x6F]) 5 (fun _ => 0) = some o ∧
      o.result = Except.ok { Cmd := CmdConnect, Param := [0x64, 0x65, 0x76, 0x31], Skipped := [],
                             USRVCOMCfg := none } ∧
      o.reader = [0x68, 0x65, 0x6C, 0x6C, 0x6F] :=
  ⟨by decide, by decide, by decide, by decide, by decide,
   (ReadATCommandWithPresets_terminators
      [0x41, 0x54, 0x2B, 0x43, 0x4F, 0x4E, 0x4E, 0x45, 0x43, 0x54, 0x3D, 0x64, 0x65, 0x76, 0x31]
      [0x68, 0x65, 0x6C, 0x6C, 0x6F]
      { Cmd := CmdConnect, Param := [0x64, 0x65, 0x76, 0x31], Skipped := [], USRVCOMCfg := none }
      5 (fun _ => 0) (by decide) (by decide) (by decide) (by decide) (by decide)).2.2.2.2⟩

/-! ### A USR-VCOM frame before the AT line (C10) -/

theorem containsAT_append_A :
    ∀ p : List Byte, containsAT p = false → containsAT (p ++ [chA]) = false := by
  intro p
  induction p with
  | nil => intro _; decide
  | cons a rest ih =>
    cases rest with
    | nil =>
      intro _
      simp [containsAT, chA]
    | cons b rest2 =>
      intro h
      simp only [containsAT, Bool.or_eq_false_iff] at h
      simp only [List.cons_append, containsAT, Bool.or_eq_false_iff]
      exact ⟨h.1, ih h.2⟩

theorem readLineWithSkippedLoop_skip (p : List Byte) (hcr : CR ∉ p) (hlf : LF ∉ p) :
    ∀ (tail line skipped : List Byte), containsAT (p ++ tail.take 1) = false →
      readLineWithSkippedLoop (p ++ tail) false line skipped
        = readLineWithSkippedLoop tail false line (skipped ++ p) := by
  induction p with
  | nil => intro tail line skipped _; simp
  | cons b p ih =>
    intro tail line skipped hat
    have hb1 : b ≠ CR := fun h => hcr (h ▸ List.mem_cons_self _ _)
    have hb2 : b ≠ LF := fun h => hlf (h ▸ List.mem_cons_self _ _)
    have hcr2 : CR ∉ p := fun h => hcr (List.mem_cons_of_mem _ h)
    have hlf2 : LF ∉ p := fun h => hlf (List.mem_cons_of_mem _ h)
    have hnext : ¬ (b = chA ∧ (p ++ tail).head? = some chT)
        ∧ containsAT (p ++ tail.take 1) = false := by
      cases p with
      | nil =>
        cases tail with
        | nil => simp [containsAT]
        | cons c tail =>
          simp only [List.nil_append, List.take_succ_cons, List.take_zero, List.cons_append,
            containsAT, Bool.or_eq_false_iff, Bool.and_eq_false_iff,
            decide_eq_false_iff_not] at hat
          refine ⟨?_, by simp [containsAT]⟩
          simp only [List.nil_append, List.head?_cons, Option.some.injEq, chA, chT]
          tauto
      | cons c p =>
        simp only [List.cons_append, containsAT, Bool.or_eq_false_iff, Bool.and_eq_false_iff,
          decide_eq_false_iff_not] at hat
        refine ⟨?_, by simpa [containsAT] using hat.2⟩
        simp only [List.cons_append, List.head?_cons, Option.some.injEq, chA, chT]
        tauto
    rw [List.cons_append]
    simp only [readLineWithSkippedLoop, hb1, hb2, or_self, if_false, Bool.not_false, true_and,
      hnext.1, Bool.false_eq_true]
    rw [ih hcr2 hlf2 _ _ _ hnext.2]
    simp

theorem SyncMap.Load_eq_none_iff {V : Type} (m : SyncMap V) (key : List Byte) :
    SyncMap.Load m key = none ↔ key ∉ m.map Prod.fst := by
  induction m with
  | nil => simp [SyncMap.Load]
  | cons e m ih =>
    obtain ⟨k, v⟩ := e
    by_cases h : k = key
    · simp [SyncMap.Load, h]
    · simp only [SyncMap.Load, h, if_false, ih, List.map_cons, List.mem_cons, not_or]
      exact ⟨fun h2 => ⟨fun h3 => h h3.symm, h2⟩, fun h2 => h2.2⟩

theorem SyncMap.keys_Store {V : Type} (m : SyncMap V) (key : List Byte) (value : V) :
    (SyncMap.Store m key value).map Prod.fst
      = if key ∈ m.map Prod.fst then m.map Prod.fst else m.map Prod.fst ++ [key] := by
  induction m with
  | nil => simp [SyncMap.Store]
  | cons e m ih =>
    obtain ⟨k, v⟩ := e
    by_cases h : k = key
    · subst h
      simp [SyncMap.Store]
    · have h2 : ¬ key = k := fun h3 => h h3.symm
      simp only [SyncMap.Store, h, if_false, List.map_cons, ih, List.mem_cons, h2, false_or]
      split <;> simp

theorem SyncMap.length_Store {V : Type} (m : SyncMap V) (key : List Byte) (value : V) :
    (SyncMap.Store m key value).length
      = if key ∈ m.map Prod.fst then m.length else m.length + 1 := by
  have h := congrArg List.length (SyncMap.keys_Store m key value)
  rw [List.length_map] at h
  rw [h]
  split <;> simp

theorem SyncMap.Load_Store_self {V : Type} (m : SyncMap V) (key : List Byte) (value : V) :
    SyncMap.Load (SyncMap.Store m key value) key = some value := by
  induction m with
  | nil => simp [SyncMap.Store, SyncMap.Load]
  | cons e m ih =>
    obtain ⟨k, v⟩ := e
    by_cases h : k = key
    · simp [SyncMap.Store, SyncMap.Load, h]
    · simp [SyncMap.Store, SyncMap.Load, h, ih]

theorem SyncMap.Load_Store_other {V : Type} (m : SyncMap V) (key other : List Byte) (value : V)
    (hne : other ≠ key) :
    SyncMap.Load (SyncMap.Store m key value) other = SyncMap.Load m other := by
  induction m with
  | nil =>
    have : ¬ key = other := fun h => hne h.symm
    simp [SyncMap.Store, SyncMap.Load, this]
  | cons e m ih =>
    obtain ⟨k, v⟩ := e
    by_cases h : k = key
    · subst h
      have : ¬ k = other := fun h => hne h.symm
      simp [SyncMap.Store, SyncMap.Load, this]
    · by_cases h2 : k = other
      · subst h2
        simp [SyncMap.Store, SyncMap.Load, h]
      · simp [SyncMap.Store, SyncMap.Load, h, h2, ih]

theorem SyncMap.Delete_cons {V : Type} (k : List Byte) (v : V) (m : SyncMap V)
    (key : List Byte) :
    SyncMap.Delete ((k, v) :: m) key
      = if k = key then SyncMap.Delete m key else (k, v) :: SyncMap.Delete m key := by
  by_cases h : k = key
  · simp [SyncMap.Delete, h]
  · simp [SyncMap.Delete, h]

theorem SyncMap.keys_Delete {V : Type} (m : SyncMap V) (key : List Byte) :
    (SyncMap.Delete m key).map Prod.fst = (m.map Prod.fst).filter (fun k => decide (k ≠ key)) := by
  induction m with
  | nil => simp [SyncMap.Delete]
  | cons e m ih =>
    obtain ⟨k, v⟩ := e
    rw [SyncMap.Delete_cons]
    by_cases h : k = key
    · rw [if_pos h, ih]
      simp [h]
    · rw [if_neg h, List.map_cons, ih]
      simp [h]

theorem SyncMap.Load_Delete_self {V : Type} (m : SyncMap V) (key : List Byte) :
    SyncMap.Load (SyncMap.Delete m key) key = none := by
  rw [SyncMap.Load_eq_none_iff, SyncMap.keys_Delete]
  simp

theorem SyncMap.Load_Delete_other {V : Type} (m : SyncMap V) (key other : List Byte)
    (hne : other ≠ key) :
    SyncMap.Load (SyncMap.Delete m key) other = SyncMap.Load m other := by
  induction m with
  | nil => simp [SyncMap.Delete, SyncMap.Load]
  | cons e m ih =>
    obtain ⟨k, v⟩ := e
    rw [SyncMap.Delete_cons]
    by_cases h : k = key
    · rw [if_pos h, ih]
      have : ¬ k = other := fun h2 => hne (h2 ▸ h)
      simp [SyncMap.Load, this]
    · rw [if_neg h]
      by_cases h2 : k = other
      · simp [SyncMap.Load, h2]
      · simp [SyncMap.Load, h2, ih]

theorem SyncMap.Delete_Delete {V : Type} (m : SyncMap V) (key : List Byte) :
    SyncMap.Delete (SyncMap.Delete m key) key = SyncMap.Delete m key := by
  simp [SyncMap.Delete, List.filter_filter]

theorem SyncMap.Delete_of_Load_none {V : Type} (m : SyncMap V) (key : List Byte)
    (h : SyncMap.Load m key = none) : SyncMap.Delete m key = m := by
  rw [SyncMap.Load_eq_none_iff] at h
  unfold SyncMap.Delete
  rw [List.filter_eq_self]
  intro e he
  have : e.1 ≠ key := fun h2 => h (h2 ▸ List.mem_map_of_mem Prod.fst he)
  simpa using this

theorem foldl_append_singleton {α β : Type} (f : α → β) (l : List α) (acc : List β) :
    l.foldl (fun xs e => xs ++ [f e]) acc = acc ++ l.map f := by
  induction l generalizing acc with
  | nil => simp
  | cons a l ih => simp [ih]

theorem foldl_count {α : Type} (l : List α) (n : Nat) :
    l.foldl (fun count _ => count + 1) n = n + l.length := by
  induction l generalizing n with
  | nil => simp
  | cons a l ih => simp [ih]; omega

/-! ### The registry (C16, C17) -/

theorem Registry_List_eq (r : Registry) : r.List = r.devices.map Prod.snd := by
  simp [Registry.List, foldl_append_singleton]

theorem Registry_Count_eq (r : Registry) : r.Count = r.devices.length := by
  simp [Registry.Count, foldl_count]

theorem Registry_WellFormed_Register (r : Registry) (d : Device) (h : r.WellFormed) :
    (r.Register d).WellFormed := by
  obtain ⟨h1, h2⟩ := h
  refine ⟨?_, ?_⟩
  · simp only [Registry.Register, SyncMap.keys_Store]
    split
    · exact h1
    · rename_i hn
      exact List.Nodup.append h1 (List.nodup_singleton _) (by simpa using hn)
  · simp only [Registry.Register]
    generalize r.devices = m at h2
    induction m with
    | nil => simp [SyncMap.Store]
    | cons e m ih =>
      obtain ⟨k, v⟩ := e
      by_cases h : k = d.ID
      · simp only [SyncMap.Store, h, if_true, List.mem_cons]
        rintro e (rfl | he)
        · rfl
        · exact h2 e (List.mem_cons_of_mem _ he)
      · simp only [SyncMap.Store, h, if_false, List.mem_cons]
        rintro e (rfl | he)
        · exact h2 _ (List.mem_cons_self _ _)
        · exact ih (fun e he => h2 e (List.mem_cons_of_mem _ he)) e he

theorem Registry_WellFormed_Unregister (r : Registry) (id : List Byte) (h : r.WellFormed) :
    (r.Unregister id).WellFormed := by
  obtain ⟨h1, h2⟩ := h
  refine ⟨?_, ?_⟩
  · simp only [Registry.Unregister, SyncMap.keys_Delete]
    exact h1.filter _
  · intro e he
    simp only [Registry.Unregister, SyncMap.Delete] at he
    exact h2 e (List.mem_of_mem_filter he)

theorem runRegistry_WellFormed (ops : List RegistryOp) : (runRegistry ops).WellFormed := by
  have key : ∀ (ops : List RegistryOp) (r : Registry), r.WellFormed →
      (ops.foldl Registry.apply r).WellFormed := by
    intro ops
    induction ops with
    | nil => intro r h; exact h
    | cons op ops ih =>
      intro r h
      apply ih
      cases op with
      | Register d => exact Registry_WellFormed_Register r d h
      | Unregister id => exact Registry_WellFormed_Unregister r id h
  exact key ops NewRegistry ⟨by simp [NewRegistry], by simp [NewRegistry]⟩

theorem Registry_ids_eq_keys (r : Registry) (h : r.WellFormed) :
    r.List.map Device.ID = r.devices.map Prod.fst := by
  rw [Registry_List_eq, List.map_map]
  apply List.map_congr_left
  intro e he
  exact h.2 e he

/-- Claim C16: the registry holds at most one entry per DeviceID. After every sequence of
Register and Unregister calls from the empty registry, List contains no two entries with the
same ID; Register of a device whose ID is already registered replaces the entry, so that Get
of the ID then returns the new device and Count is unchanged; and Count is the number of
distinct registered IDs (the IDs for which Get finds a device). -/
theorem Registry_one_entry_per_id (ops : List RegistryOp) :
    ((runRegistry ops).List.map Device.ID).Nodup ∧
    (∀ d : Device, (runRegistry ops).Get d.ID ≠ none →
      ((runRegistry ops).Register d).Get d.ID = some d ∧
      ((runRegistry ops).Register d).Count = (runRegistry ops).Count) ∧
    ∃ ids : Finset (List Byte),
      (∀ id, id ∈ ids ↔ (runRegistry ops).Get id ≠ none) ∧
      (runRegistry ops).Count = ids.card := by
  have hwf := runRegistry_WellFormed ops
  generalize runRegistry ops = r at hwf
  refine ⟨?_, ?_, ?_⟩
  · rw [Registry_ids_eq_keys r hwf]
    exact hwf.1
  · intro d hd
    refine ⟨SyncMap.Load_Store_self _ _ _, ?_⟩
    rw [Registry_Count_eq, Registry_Count_eq]
    simp only [Registry.Register, SyncMap.length_Store]
    rw [if_pos]
    by_contra hn
    exact hd ((SyncMap.Load_eq_none_iff _ _).mpr hn)
  · refine ⟨(r.devices.map Prod.fst).toFinset, ?_, ?_⟩
    · intro id
      rw [List.mem_toFinset, Registry.Get, Ne, SyncMap.Load_eq_none_iff, not_not]
    · rw [Registry_Count_eq, List.toFinset_card_of_nodup hwf.1, List.length_map]

/-- Claim C17: Unregister is idempotent. For every registry state and every id, a second
Unregister of the id leaves the registry exactly as the first one left it, and Unregister of
an id that is not registered changes nothing. -/
theorem Registry_Unregister_idempotent (r : Registry) (id : List Byte) :
    (r.Unregister id).Unregister id = r.Unregister id ∧
    (r.Unregister id).Get id = none ∧
    (r.Get id = none → r.Unregister id = r) := by
  refine ⟨?_, ?_, ?_⟩
  · simp [Registry.Unregister, SyncMap.Delete_Delete]
  · exact SyncMap.Load_Delete_self _ _
  · intro h
    cases r
    simp only [Registry.Unregister, Registry.mk.injEq]
    exact SyncMap.Delete_of_Load_none _ _ h

/-- The device "a" is registered on connection 1, then again on connection 2, then the device
"b"; a further Register of "a" on connection 9 meets the hypothesis of the replacement part of
`Registry_one_entry_per_id`: Get returns the new device and Count stays 2. -/
theorem Registry_one_entry_per_id_witness :
    (runRegistry
      [RegistryOp.Register { ID := [0x61], Conn := 1, RegisteredAt := 0, InSession := false,
                             SessionID := [], StopKeepalive := some false },
       RegistryOp.Register { ID := [0x61], Conn := 2, RegisteredAt := 5, InSession := false,
                             SessionID := [], StopKeepalive := some false },
       RegistryOp.Register { ID := [0x62], Conn := 3, RegisteredAt := 7, InSession := false,
                             SessionID := [], StopKeepalive := some false }]).Count = 2 ∧
    ((runRegistry
      [RegistryOp.Register { ID := [0x61], Conn := 1, RegisteredAt := 0, InSession := false,
                             SessionID := [], StopKeepalive := some false },
       RegistryOp.Register { ID := [0x61], Conn := 2, RegisteredAt := 5, InSession := false,
                             SessionID := [], StopKeepalive := some false },
       RegistryOp.Register { ID := [0x62], Conn := 3, RegisteredAt := 7, InSession := false,
                             SessionID := [], StopKeepalive := some false }]).Register
        { ID := [0x61], Conn := 9, RegisteredAt := 8, InSession := false,
          SessionID := [], StopKeepalive := some false }).Get [0x61]
      = some { ID := [0x61], Conn := 9, RegisteredAt := 8, InSession := false,
               SessionID := [], StopKeepalive := some false } ∧
    ((runRegistry
      [RegistryOp.Register { ID := [0x61], Conn := 1, RegisteredAt := 0, InSession := false,
                             SessionID := [], StopKeepalive := some false },
       RegistryOp.Register { ID := [0x61], Conn := 2, RegisteredAt := 5, InSession := false,
                             SessionID := [], StopKeepalive := some false },
       RegistryOp.Register { ID := [0x62], Conn := 3, RegisteredAt := 7, InSession := false,
                             SessionID := [], StopKeepalive := some false }]).Register
        { ID := [0x61], Conn := 9, RegisteredAt := 8, InSession := false,
          SessionID := [], StopKeepalive := some false }).Count
      = (runRegistry
      [RegistryOp.Register { ID := [0x61], Conn := 1, RegisteredAt := 0, InSession := false,
                             SessionID := [], StopKeepalive := some false },
       RegistryOp.Register { ID := [0x61], Conn := 2, RegisteredAt := 5, InSession := false,
                             SessionID := [], StopKeepalive := some false },
       RegistryOp.Register { ID := [0x62], Conn := 3, RegisteredAt := 7, InSession := false,
                             SessionID := [], StopKeepalive := some false }]).Count :=
  ⟨by decide,
   (Registry_one_entry_per_id
      [RegistryOp.Register { ID := [0x61], Conn := 1, RegisteredAt := 0, InSession := false,
                             SessionID := [], StopKeepalive := some false },
       RegistryOp.Register { ID := [0x61], Conn := 2, RegisteredAt := 5, InSession := false,
                             SessionID := [], StopKeepalive := some false },
       RegistryOp.Register { ID := [0x62], Conn := 3, RegisteredAt := 7, InSession := false,
                             SessionID := [], StopKeepalive := some false }]).2.1
      { ID := [0x61], Conn := 9, RegisteredAt := 8, InSession := false,
        SessionID := [], StopKeepalive := some false } (by decide)⟩

/-- In the registry that holds the device "a" alone, the id "b" is not registered, which is the
hypothesis of the last part of `Registry_Unregister_idempotent`: Unregister of "b" changes
nothing. -/
theorem Registry_Unregister_idempotent_witness :
    (NewRegistry.Register { ID := [0x61], Conn := 1, RegisteredAt := 0, InSession := false,
                            SessionID := [], StopKeepalive := some false }).Get [0x62] = none ∧
    (NewRegistry.Register { ID := [0x61], Conn := 1, RegisteredAt := 0, InSession := false,
                            SessionID := [], StopKeepalive := some false }).Unregister [0x62]
      = NewRegistry.Register { ID := [0x61], Conn := 1, RegisteredAt := 0, InSession := false,
                               SessionID := [], StopKeepalive := some false } :=
  ⟨by decide,
   (Registry_Unregister_idempotent
      (NewRegistry.Register { ID := [0x61], Conn := 1, RegisteredAt := 0, InSession := false,
                              SessionID := [], StopKeepalive := some false })
      [0x62]).2.2 (by decide)⟩

/-! ### Session ids (C18) -/

theorem formatDecimalLoop_value :
    ∀ (fuel u : Nat) (acc : List Byte), u < fuel →
      (formatDecimalLoop fuel u acc).foldl (fun a d => 10 * a + (d.val - 0x30)) 0
        = acc.foldl (fun a d => 10 * a + (d.val - 0x30)) u := by
  intro fuel
  induction fuel with
  | zero => intro u acc h; omega
  | succ fuel ih =>
    intro u acc h
    have hd : (byteOfNat (0x30 + u % 10)).val - 0x30 = u % 10 := by
      simp only [byteOfNat]
      omega
    unfold formatDecimalLoop
    by_cases h0 : u / 10 = 0
    · simp only [h0, if_true, List.foldl_cons, hd]
      congr 1
      omega
    · simp only [h0, if_false]
      rw [ih (u / 10) _ (by omega), List.foldl_cons, hd]
      congr 1
      omega

theorem decimalValue_formatUint (u : Nat) : decimalValue (formatUint u) = u := by
  unfold decimalValue formatUint
  rw [formatDecimalLoop_value _ _ _ (by omega)]
  rfl

theorem formatUint_injective (u v : Nat) (h : formatUint u = formatUint v) : u = v := by
  have := congrArg decimalValue h
  rwa [decimalValue_formatUint, decimalValue_formatUint] at this

theorem formatDecimalLoop_digits :
    ∀ (fuel u : Nat) (acc : List Byte), (∀ b ∈ acc, 0x30 ≤ b.val ∧ b.val ≤ 0x39) →
      ∀ b ∈ formatDecimalLoop fuel u acc, 0x30 ≤ b.val ∧ b.val ≤ 0x39 := by
  intro fuel
  induction fuel with
  | zero => intro u acc h; simpa [formatDecimalLoop] using h
  | succ fuel ih =>
    intro u acc h
    have hd : ∀ b ∈ byteOfNat (0x30 + u % 10) :: acc, 0x30 ≤ b.val ∧ b.val ≤ 0x39 := by
      intro b hb
      rcases List.mem_cons.mp hb with rfl | hb
      · simp only [byteOfNat]
        omega
      · exact h b hb
    unfold formatDecimalLoop
    by_cases h0 : u / 10 = 0
    · simp only [h0, if_true]
      exact hd
    · simp only [h0, if_false]
      exact ih _ _ hd

theorem formatUint_digits (u : Nat) : ∀ b ∈ formatUint u, 0x30 ≤ b.val ∧ b.val ≤ 0x39 :=
  formatDecimalLoop_digits _ _ _ (by simp)

theorem formatUint_ne_nil (u : Nat) : formatUint u ≠ [] := by
  intro h
  have h1 : formatUint u = formatDecimalLoop (u + 1) u [] := rfl
  rw [h1] at h
  unfold formatDecimalLoop at h
  by_cases h0 : u / 10 = 0
  · simp [h0] at h
  · simp only [h0, if_false] at h
    have : ∀ (fuel v : Nat) (acc : List Byte), acc ≠ [] → formatDecimalLoop fuel v acc ≠ [] := by
      intro fuel
      induction fuel with
      | zero => intro v acc ha; simpa [formatDecimalLoop] using ha
      | succ fuel ih =>
        intro v acc ha
        unfold formatDecimalLoop
        by_cases h1 : v / 10 = 0
        · simp [h1]
        · simp only [h1, if_false]
          exact ih _ _ (by simp)
    exact this _ _ _ (by simp) h

theorem formatInt_injective (i j : Int) (h : formatInt i = formatInt j) : i = j := by
  unfold formatInt at h
  have hhead : ∀ u : Nat, ∀ rest : List Byte, formatUint u ≠ 0x2D :: rest := by
    intro u rest hu
    have := formatUint_digits u 0x2D (by rw [hu]; exact List.mem_cons_self _ _)
    revert this
    decide
  by_cases hi : i < 0 <;> by_cases hj : j < 0
  · simp only [hi, hj, if_true, List.cons.injEq, true_and] at h
    have := formatUint_injective _ _ h
    omega
  · simp only [hi, hj, if_true, if_false] at h
    exact absurd h.symm (hhead _ _)
  · simp only [hi, hj, if_true, if_false] at h
    exact absurd h (hhead _ _)
  · simp only [hi, hj, if_false] at h
    have := formatUint_injective _ _ h
    omega

theorem formatInt_no_underscore (i : Int) : (0x5F : Byte) ∉ formatInt i := by
  intro h
  unfold formatInt at h
  split at h
  · rcases List.mem_cons.mp h with h | h
    · revert h; decide
    · have := formatUint_digits _ _ h
      revert this; decide
  · have := formatUint_digits _ _ h
    revert this; decide

theorem formatUint_no_underscore (u : Nat) : (0x5F : Byte) ∉ formatUint u := by
  intro h
  have := formatUint_digits _ _ h
  revert this; decide

theorem sessionID_injective (u1 u2 : Int) (c1 c2 : Nat)
    (h : sessionID u1 c1 = sessionID u2 c2) : u1 = u2 ∧ c1 = c2 := by
  unfold sessionID at h
  simp only [List.append_assoc, List.cons_append, List.nil_append, List.cons.injEq, true_and,
    List.singleton_append] at h
  have := (List.append_cons_inj_of_not_mem (formatInt_no_underscore u1)
    (formatUint_no_underscore c1)).mp h
  exact ⟨formatInt_injective _ _ this.1, formatUint_injective _ _ this.2.2⟩

theorem Manager_counter_apply (m : Manager) (op : ManagerOp) :
    (m.apply op).1.counter =
      match op with
      | ManagerOp.Create _ _ _ _ _ => (m.counter + 1) % 2 ^ 64
      | _ => m.counter := by
  cases op with
  | Create d c1 c2 u n =>
    simp only [Manager.apply, Manager.Create]
    split <;> rfl
  | End id =>
    simp only [Manager.apply, Manager.End]
    split
    · rfl
    · split <;> rfl
  | Terminate id =>
    simp only [Manager.apply, Manager.Terminate]
    split <;> rfl
  | SetCallbacks a b => rfl

theorem Manager_Create_ID (m : Manager) (d : List Byte) (c1 c2 : Nat) (u n : Int) :
    (m.Create d c1 c2 u n).1.ID = sessionID u ((m.counter + 1) % 2 ^ 64) := rfl

theorem runManager_created :
    ∀ (ops : List ManagerOp) (m : Manager), m.counter + countCreates ops < 2 ^ 64 →
      (runManager m ops).1.counter = m.counter + countCreates ops ∧
      ∀ s ∈ (runManager m ops).2, ∃ u k, s.ID = sessionID u k ∧ m.counter < k ∧
        k ≤ m.counter + countCreates ops := by
  intro ops
  induction ops with
  | nil => intro m _; simp [runManager, countCreates]
  | cons op ops ih =>
    intro m h
    have hc := Manager_counter_apply m op
    cases op with
    | Create d c1 c2 u n =>
      simp only [countCreates] at h
      simp only at hc
      have hmod : (m.counter + 1) % 2 ^ 64 = m.counter + 1 := Nat.mod_eq_of_lt (by omega)
      rw [hmod] at hc
      obtain ⟨ih1, ih2⟩ := ih (m.apply (ManagerOp.Create d c1 c2 u n)).1 (by rw [hc]; omega)
      simp only [runManager, Manager.apply, countCreates] at ih1 ih2 ⊢
      simp only [Manager.apply] at hc
      refine ⟨by rw [ih1, hc]; omega, ?_⟩
      intro s hs
      rcases List.mem_cons.mp hs with rfl | hs
      · exact ⟨u, m.counter + 1, by rw [Manager_Create_ID, hmod], by omega, by omega⟩
      · obtain ⟨u2, k, h1, h2, h3⟩ := ih2 s hs
        rw [hc] at h2 h3
        exact ⟨u2, k, h1, by omega, by omega⟩
    | End id =>
      simp only [countCreates] at h ⊢
      simp only at hc
      obtain ⟨ih1, ih2⟩ := ih (m.apply (ManagerOp.End id)).1 (by rw [hc]; omega)
      rw [hc] at ih1 ih2
      simpa [runManager, Manager.apply] using And.intro ih1 ih2
    | Terminate id =>
      simp only [countCreates] at h ⊢
      simp only at hc
      obtain ⟨ih1, ih2⟩ := ih (m.apply (ManagerOp.Terminate id)).1 (by rw [hc]; omega)
      rw [hc] at ih1 ih2
      simpa [runManager, Manager.apply] using And.intro ih1 ih2
    | SetCallbacks a b =>
      simp only [countCreates] at h ⊢
      simp only at hc
      obtain ⟨ih1, ih2⟩ := ih (m.apply (ManagerOp.SetCallbacks a b)).1 (by rw [hc]; omega)
      rw [hc] at ih1 ih2
      simpa [runManager, Manager.apply] using And.intro ih1 ih2

theorem runManager_ids_nodup :
    ∀ (ops : List ManagerOp) (m : Manager), m.counter + countCreates ops < 2 ^ 64 →
      ((runManager m ops).2.map Session.ID).Nodup := by
  intro ops
  induction ops with
  | nil => intro m _; simp [runManager]
  | cons op ops ih =>
    intro m h
    have hc := Manager_counter_apply m op
    cases op with
    | Create d c1 c2 u n =>
      simp only [countCreates] at h
      simp only at hc
      have hmod : (m.counter + 1) % 2 ^ 64 = m.counter + 1 := Nat.mod_eq_of_lt (by omega)
      rw [hmod] at hc
      have ih1 := ih (m.apply (ManagerOp.Create d c1 c2 u n)).1 (by rw [hc]; omega)
      obtain ⟨-, hcr⟩ := runManager_created ops (m.apply (ManagerOp.Create d c1 c2 u n)).1
        (by rw [hc]; omega)
      simp only [runManager, Manager.apply, List.map_cons, List.nodup_cons] at ih1 hcr ⊢
      simp only [Manager.apply] at hc
      refine ⟨?_, ih1⟩
      intro hmem
      obtain ⟨s, hs, hid⟩ := List.mem_map.mp hmem
      obtain ⟨u2, k, h1, h2, -⟩ := hcr s hs
      rw [hc] at h2
      rw [Manager_Create_ID, hmod, h1] at hid
      have := (sessionID_injective _ _ _ _ hid).2
      omega
    | End id =>
      simp only [countCreates] at h
      simp only at hc
      have := ih (m.apply (ManagerOp.End id)).1 (by rw [hc]; omega)
      simpa [runManager, Manager.apply] using this
    | Terminate id =>
      simp only [countCreates] at h
      simp only at hc
      have := ih (m.apply (ManagerOp.Terminate id)).1 (by rw [hc]; omega)
      simpa [runManager, Manager.apply] using this
    | SetCallbacks a b =>
      simp only [countCreates] at h
      simp only at hc
      have := ih (m.apply (ManagerOp.SetCallbacks a b)).1 (by rw [hc]; omega)
      simpa [runManager, Manager.apply] using this

/-- Claim C18: session ids are unique within a run. For every sequence of calls on a new
Manager with fewer than 2^64 Create calls, whatever the clock gives at each call, the ids of
the sessions created are pairwise different; the counter the ids carry grows by one with each
Create; and the textual form "sess_<unix-seconds>_<counter>" is injective in the pair
(seconds, counter). -/
theorem session_ids_unique (debug : Bool) (idleTimeout : Int) (ops : List ManagerOp) :
    (countCreates ops < 2 ^ 64 →
      ((runManager (NewManager debug idleTimeout) ops).2.map Session.ID).Nodup ∧
      (runManager (NewManager debug idleTimeout) ops).1.counter = countCreates ops) ∧
    (∀ (m : Manager) (deviceID : List Byte) (clientConn deviceConn : Nat) (unix now : Int),
      (m.Create deviceID clientConn deviceConn unix now).1.ID
        = sessionID unix ((m.counter + 1) % 2 ^ 64) ∧
      (m.Create deviceID clientConn deviceConn unix now).2.counter = (m.counter + 1) % 2 ^ 64) ∧
    (∀ (u1 u2 : Int) (c1 c2 : Nat), sessionID u1 c1 = sessionID u2 c2 → u1 = u2 ∧ c1 = c2) := by
  refine ⟨?_, ?_, sessionID_injective⟩
  · intro h
    have h0 : (NewManager debug idleTimeout).counter = 0 := rfl
    refine ⟨runManager_ids_nodup ops _ (by rw [h0]; omega), ?_⟩
    rw [(runManager_created ops _ (by rw [h0]; omega)).1, h0]
    omega
  · intro m d c1 c2 u n
    refine ⟨rfl, ?_⟩
    simp only [Manager.Create]
    split <;> rfl

/-- Two Create calls in the same second 100, with an End between them: fewer than 2^64 Create
calls, the hypothesis of `session_ids_unique`; the two ids differ and the counter stands
at 2. -/
theorem session_ids_unique_witness :
    countCreates
        [ManagerOp.Create [0x61] 1 2 100 100,
          ManagerOp.End [0x73, 0x65, 0x73, 0x73, 0x5F, 0x31, 0x30, 0x30, 0x5F, 0x31],
          ManagerOp.Create [0x61] 3 2 100 100] < 2 ^ 64 ∧
    ((runManager (NewManager false 0)
        [ManagerOp.Create [0x61] 1 2 100 100,
          ManagerOp.End [0x73, 0x65, 0x73, 0x73, 0x5F, 0x31, 0x30, 0x30, 0x5F, 0x31],
          ManagerOp.Create [0x61] 3 2 100 100]).2.map Session.ID).Nodup ∧
    (runManager (NewManager false 0)
        [ManagerOp.Create [0x61] 1 2 100 100,
          ManagerOp.End [0x73, 0x65, 0x73, 0x73, 0x5F, 0x31, 0x30, 0x30, 0x5F, 0x31],
          ManagerOp.Create [0x61] 3 2 100 100]).1.counter
      = countCreates
        [ManagerOp.Create [0x61] 1 2 100 100,
          ManagerOp.End [0x73, 0x65, 0x73, 0x73, 0x5F, 0x31, 0x30, 0x30, 0x5F, 0x31],
          ManagerOp.Create [0x61] 3 2 100 100] :=
  ⟨by decide,
   (session_ids_unique false 0
      [ManagerOp.Create [0x61] 1 2 100 100,
        ManagerOp.End [0x73, 0x65, 0x73, 0x73, 0x5F, 0x31, 0x30, 0x30, 0x5F, 0x31],
        ManagerOp.Create [0x61] 3 2 100 100]).1 (by decide)⟩

/-! ### Sessions between Create and End (C19) -/

theorem Manager_Count_eq (m : Manager) : m.Count = m.sessions.length := by
  simp [Manager.Count, foldl_count]

theorem Manager_sessions_apply (m : Manager) (op : ManagerOp) :
    (m.apply op).1.sessions =
      match op with
      | ManagerOp.Create d c1 c2 u n =>
        m.sessions.Store (sessionID u ((m.counter + 1) % 2 ^ 64)) (m.Create d c1 c2 u n).1
      | ManagerOp.End id => m.sessions.Delete id
      | _ => m.sessions := by
  cases op with
  | Create d c1 c2 u n =>
    simp only [Manager.apply, Manager.Create]
    split <;> rfl
  | End id =>
    simp only [Manager.apply, Manager.End, SyncMap.LoadAndDelete]
    cases h : SyncMap.Load m.sessions id with
    | none => exact (SyncMap.Delete_of_Load_none _ _ h).symm
    | some s =>
      simp only
      split <;> rfl
  | Terminate id =>
    simp only [Manager.apply, Manager.Terminate]
    split <;> rfl
  | SetCallbacks a b => rfl

theorem runManager_KeysUsed :
    ∀ (ops : List ManagerOp) (m : Manager), m.counter + countCreates ops < 2 ^ 64 →
      m.KeysUsed → (runManager m ops).1.KeysUsed := by
  intro ops
  induction ops with
  | nil => intro m _ h; simpa [runManager] using h
  | cons op ops ih =>
    intro m h hk
    have hc := Manager_counter_apply m op
    have hs := Manager_sessions_apply m op
    have step : (m.apply op).1.KeysUsed ∧
        (m.apply op).1.counter + countCreates ops < 2 ^ 64 := by
      cases op with
      | Create d c1 c2 u n =>
        simp only [countCreates] at h
        simp only at hc hs
        have hmod : (m.counter + 1) % 2 ^ 64 = m.counter + 1 := Nat.mod_eq_of_lt (by omega)
        rw [hmod] at hc hs
        refine ⟨?_, by rw [hc]; omega⟩
        intro key hkey
        rw [hs, SyncMap.keys_Store] at hkey
        rw [hc]
        split at hkey
        · obtain ⟨u2, k, h1, h2⟩ := hk key hkey
          exact ⟨u2, k, h1, by omega⟩
        · rcases List.mem_append.mp hkey with hkey | hkey
          · obtain ⟨u2, k, h1, h2⟩ := hk key hkey
            exact ⟨u2, k, h1, by omega⟩
          · exact ⟨u, m.counter + 1, List.mem_singleton.mp hkey, le_refl _⟩
      | End id =>
        simp only [countCreates] at h
        simp only at hc hs
        refine ⟨?_, by rw [hc]; omega⟩
        intro key hkey
        rw [hs, SyncMap.keys_Delete] at hkey
        rw [hc]
        exact hk key (List.mem_of_mem_filter hkey)
      | Terminate id =>
        simp only [countCreates] at h
        simp only at hc hs
        refine ⟨?_, by rw [hc]; omega⟩
        intro key hkey
        rw [hs] at hkey
        rw [hc]
        exact hk key hkey
      | SetCallbacks a b =>
        simp only [countCreates] at h
        simp only at hc hs
        refine ⟨?_, by rw [hc]; omega⟩
        intro key hkey
        rw [hs] at hkey
        rw [hc]
        exact hk key hkey
    have := ih (m.apply op).1 step.2 step.1
    cases hap : m.apply op with
    | mk m1 created =>
      rw [hap] at this
      cases created with
      | none => simpa [runManager, hap] using this
      | some s => simpa [runManager, hap] using this

theorem Manager_Create_fresh (m : Manager) (d : List Byte) (c1 c2 : Nat) (u n : Int)
    (hk : m.KeysUsed) (hc : m.counter + 1 < 2 ^ 64) :
    (m.Create d c1 c2 u n).2.Get (m.Create d c1 c2 u n).1.ID = some (m.Create d c1 c2 u n).1 ∧
    (m.Create d c1 c2 u n).2.Count = m.Count + 1 := by
  have hmod : (m.counter + 1) % 2 ^ 64 = m.counter + 1 := Nat.mod_eq_of_lt hc
  have hs := Manager_sessions_apply m (ManagerOp.Create d c1 c2 u n)
  simp only [Manager.apply] at hs
  have hfresh : sessionID u ((m.counter + 1) % 2 ^ 64) ∉ m.sessions.map Prod.fst := by
    intro hmem
    obtain ⟨u2, k, h1, h2⟩ := hk _ hmem
    have := (sessionID_injective _ _ _ _ h1).2
    omega
  refine ⟨?_, ?_⟩
  · rw [Manager.Get, hs, Manager_Create_ID]
    exact SyncMap.Load_Store_self _ _ _
  · rw [Manager_Count_eq, Manager_Count_eq, hs, SyncMap.length_Store, if_neg hfresh]

theorem Manager_End_of_Get (M : Manager) (id : List Byte) (s : Session)
    (h : M.Get id = some s) :
    (M.End id).Get id = none ∧
    (M.End id).Terminate id = (false, M.End id) ∧
    (∀ other, other ≠ id → (M.End id).Get other = M.Get other) ∧
    (M.End id).events
      = M.events ++ ManagerEvent.CloseDone s :: (if M.onEnd then [ManagerEvent.OnEnd s] else []) ∧
    (M.End id).End id = M.End id := by
  have hs := Manager_sessions_apply M (ManagerOp.End id)
  simp only [Manager.apply] at hs
  have hget : (M.End id).Get id = none := by
    rw [Manager.Get, hs]
    exact SyncMap.Load_Delete_self _ _
  refine ⟨hget, ?_, ?_, ?_, ?_⟩
  · simp only [Manager.Terminate]
    rw [Manager.Get] at hget
    rw [hget]
  · intro other hne
    rw [Manager.Get, hs, Manager.Get]
    exact SyncMap.Load_Delete_other _ _ _ hne
  · rw [Manager.Get] at h
    simp only [Manager.End, SyncMap.LoadAndDelete, h]
    split <;> simp [*]
  · rw [Manager.Get] at hget
    conv_lhs => rw [Manager.End]
    simp only [SyncMap.LoadAndDelete, hget]

/-- Claim C19: a session is registered exactly between Create and End, and End takes effect
once. On a manager reached from a new one by any sequence of calls (fewer than 2^64 Create
calls, the new one included), after Create returns the session `s`, Get of its id finds `s` and
Count has grown by one. On any manager in which Get of `id` finds `s`, after End of `id` both
Get and Terminate of `id` report that the session does not exist, Get of every other id is as
before, the completion signal of `s` has been closed and onEnd (where it is set) invoked once
for `s` and nothing else has happened; a second End of `id` changes nothing at all. -/
theorem Manager_session_lifetime (debug : Bool) (idleTimeout : Int) (ops : List ManagerOp)
    (deviceID : List Byte) (clientConn deviceConn : Nat) (unix now : Int)
    (M : Manager) (id : List Byte) (s : Session) :
    (countCreates ops + 1 < 2 ^ 64 →
      (((runManager (NewManager debug idleTimeout) ops).1.Create deviceID clientConn deviceConn
          unix now).2.Get
        ((runManager (NewManager debug idleTimeout) ops).1.Create deviceID clientConn deviceConn
          unix now).1.ID
        = some ((runManager (NewManager debug idleTimeout) ops).1.Create deviceID clientConn
            deviceConn unix now).1) ∧
      ((runManager (NewManager debug idleTimeout) ops).1.Create deviceID clientConn deviceConn
          unix now).2.Count
        = (runManager (NewManager debug idleTimeout) ops).1.Count + 1) ∧
    (M.Get id = some s →
      (M.End id).Get id = none ∧
      (M.End id).Terminate id = (false, M.End id) ∧
      (∀ other, other ≠ id → (M.End id).Get other = M.Get other) ∧
      (M.End id).events
        = M.events ++
            ManagerEvent.CloseDone s :: (if M.onEnd then [ManagerEvent.OnEnd s] else []) ∧
      (M.End id).End id = M.End id) := by
  refine ⟨?_, Manager_End_of_Get M id s⟩
  intro h
  have h0 : (NewManager debug idleTimeout).counter = 0 := rfl
  have hk0 : (NewManager debug idleTimeout).KeysUsed := by
    intro key hkey
    simp [NewManager] at hkey
  have hk := runManager_KeysUsed ops (NewManager debug idleTimeout) (by rw [h0]; omega) hk0
  have hc := (runManager_created ops (NewManager debug idleTimeout) (by rw [h0]; omega)).1
  rw [h0] at hc
  exact Manager_Create_fresh _ deviceID clientConn deviceConn unix now hk (by rw [hc]; omega)

/-- On a new manager with both callbacks set, a session for the device "a" is created and
ended, and then a session for the device "b" is created at the second 100: Get of its id
"sess_100_2" finds it, and after End of this id Get finds nothing. The hypotheses of
`Manager_session_lifetime` hold there. -/
theorem Manager_session_lifetime_witness :
    ((runManager (NewManager false 0)
        [ManagerOp.SetCallbacks true true, ManagerOp.Create [0x61] 1 2 100 100,
          ManagerOp.End [0x73, 0x65, 0x73, 0x73, 0x5F, 0x31, 0x30, 0x30, 0x5F, 0x31]]).1.Create
        [0x62] 3 4 100 100).2.Get [0x73, 0x65, 0x73, 0x73, 0x5F, 0x31, 0x30, 0x30, 0x5F, 0x32]
      = some { ID := [0x73, 0x65, 0x73, 0x73, 0x5F, 0x31, 0x30, 0x30, 0x5F, 0x32],
               DeviceID := [0x62], ClientConn := 3, DeviceConn := 4, StartedAt := 100,
               BytesIn := 0, BytesOut := 0, Debug := false, IdleTimeout := 0 } ∧
    (((runManager (NewManager false 0)
        [ManagerOp.SetCallbacks true true, ManagerOp.Create [0x61] 1 2 100 100,
          ManagerOp.End [0x73, 0x65, 0x73, 0x73, 0x5F, 0x31, 0x30, 0x30, 0x5F, 0x31]]).1.Create
        [0x62] 3 4 100 100).2.End
          [0x73, 0x65, 0x73, 0x73, 0x5F, 0x31, 0x30, 0x30, 0x5F, 0x32]).Get
        [0x73, 0x65, 0x73, 0x73, 0x5F, 0x31, 0x30, 0x30, 0x5F, 0x32] = none :=
  ⟨((Manager_session_lifetime false 0
      [ManagerOp.SetCallbacks true true, ManagerOp.Create [0x61] 1 2 100 100,
        ManagerOp.End [0x73, 0x65, 0x73, 0x73, 0x5F, 0x31, 0x30, 0x30, 0x5F, 0x31]]
      [0x62] 3 4 100 100
      ((runManager (NewManager false 0)
        [ManagerOp.SetCallbacks true true, ManagerOp.Create [0x61] 1 2 100 100,
          ManagerOp.End [0x73, 0x65, 0x73, 0x73, 0x5F, 0x31, 0x30, 0x30, 0x5F, 0x31]]).1.Create
        [0x62] 3 4 100 100).2
      [0x73, 0x65, 0x73, 0x73, 0x5F, 0x31, 0x30, 0x30, 0x5F, 0x32]
      { ID := [0x73, 0x65, 0x73, 0x73, 0x5F, 0x31, 0x30, 0x30, 0x5F, 0x32],
        DeviceID := [0x62], ClientConn := 3, DeviceConn := 4, StartedAt := 100,
        BytesIn := 0, BytesOut := 0, Debug := false, IdleTimeout := 0 }).1 (by decide)).1,
   ((Manager_session_lifetime false 0
      [ManagerOp.SetCallbacks true true, ManagerOp.Create [0x61] 1 2 100 100,
        ManagerOp.End [0x73, 0x65, 0x73, 0x73, 0x5F, 0x31, 0x30, 0x30, 0x5F, 0x31]]
      [0x62] 3 4 100 100
      ((runManager (NewManager false 0)
        [ManagerOp.SetCallbacks true true, ManagerOp.Create [0x61] 1 2 100 100,
          ManagerOp.End [0x73, 0x65, 0x73, 0x73, 0x5F, 0x31, 0x30, 0x30, 0x5F, 0x31]]).1.Create
        [0x62] 3 4 100 100).2
      [0x73, 0x65, 0x73, 0x73, 0x5F, 0x31, 0x30, 0x30, 0x5F, 0x32]
      { ID := [0x73, 0x65, 0x73, 0x73, 0x5F, 0x31, 0x30, 0x30, 0x5F, 0x32],
        DeviceID := [0x62], ClientConn := 3, DeviceConn := 4, StartedAt := 100,
        BytesIn := 0, BytesOut := 0, Debug := false, IdleTimeout := 0 }).2 (by decide)).1⟩

/-! ### Byte counters of the bridge (C20) -/

theorem wrapInt64_of_range (x : Int) (h1 : -2 ^ 63 ≤ x) (h2 : x < 2 ^ 63) : wrapInt64 x = x := by
  unfold wrapInt64
  omega

theorem sumWritten_nonneg (ws : List WriteResult) (h : ∀ w ∈ ws, 0 ≤ w.written) :
    0 ≤ sumWritten ws := by
  induction ws with
  | nil => simp [sumWritten]
  | cons w ws ih =>
    have h1 := h w (List.mem_cons_self _ _)
    have h2 := ih (fun x hx => h x (List.mem_cons_of_mem _ hx))
    simp only [sumWritten, List.map_cons, List.sum_cons] at h2 ⊢
    omega

theorem sumWritten_cons (w : WriteResult) (ws : List WriteResult) :
    sumWritten (w :: ws) = w.written + sumWritten ws := by
  simp [sumWritten]

/-- The accounting of the copy loop: the writes performed are a prefix of the trace of write
results, and the counter and the total have grown by the sum of what they returned. -/
theorem copyWithActivityLoop_accounting :
    ∀ (rs : List ReadResult) (ws : List WriteResult) (st : CopyOutcome),
      (∀ w ∈ ws, 0 ≤ w.written) →
      -2 ^ 63 ≤ st.counter → st.counter + sumWritten ws < 2 ^ 63 →
      -2 ^ 63 ≤ st.total → st.total + sumWritten ws < 2 ^ 63 →
      ∃ P rest, ws = P ++ rest ∧
        (copyWithActivityLoop rs ws st).writes = st.writes ++ P ∧
        (copyWithActivityLoop rs ws st).counter = st.counter + sumWritten P ∧
        (copyWithActivityLoop rs ws st).total = st.total + sumWritten P ∧
        ((copyWithActivityLoop rs ws st).returned = st.returned ∨
          (copyWithActivityLoop rs ws st).returned
            = some (copyWithActivityLoop rs ws st).total) := by
  intro rs
  induction rs with
  | nil =>
    intro ws st _ _ _ _ _
    exact ⟨[], ws, rfl, by simp [copyWithActivityLoop], by simp [copyWithActivityLoop, sumWritten],
      by simp [copyWithActivityLoop, sumWritten], Or.inl rfl⟩
  | cons r rs ih =>
    intro ws st hw hc1 hc2 ht1 ht2
    unfold copyWithActivityLoop
    by_cases hn : r.n > 0
    · simp only [hn, if_true]
      cases ws with
      | nil =>
        exact ⟨[], [], rfl, by simp, by simp [sumWritten], by simp [sumWritten], Or.inl rfl⟩
      | cons w ws =>
        have hw0 := hw w (List.mem_cons_self _ _)
        have hws : ∀ x ∈ ws, 0 ≤ x.written := fun x hx => hw x (List.mem_cons_of_mem _ hx)
        have hsum := sumWritten_nonneg ws hws
        rw [sumWritten_cons] at hc2 ht2
        have hcw : wrapInt64 (st.counter + w.written) = st.counter + w.written :=
          wrapInt64_of_range _ (by omega) (by omega)
        have htw : wrapInt64 (st.total + w.written) = st.total + w.written :=
          wrapInt64_of_range _ (by omega) (by omega)
        by_cases hpos : w.written > 0
        · simp only [hpos, if_true, hcw, htw]
          by_cases he : w.err = true
          · simp only [he, if_true]
            exact ⟨[w], ws, rfl, rfl, by simp [sumWritten], by simp [sumWritten], Or.inr trivial⟩
          · simp only [he, Bool.false_eq_true, if_false]
            by_cases hr : r.err = true
            · simp only [hr, if_true]
              exact ⟨[w], ws, rfl, rfl, by simp [sumWritten], by simp [sumWritten], Or.inr trivial⟩
            · simp only [hr, Bool.false_eq_true, if_false]
              obtain ⟨P, rest, h1, h2, h3, h4, h5⟩ := ih ws
                { returned := st.returned, counter := st.counter + w.written,
                  lastActive := r.now, total := st.total + w.written, reads := st.reads + 1,
                  writes := st.writes ++ [w] } hws (by simp only; omega) (by simp only; omega)
                (by simp only; omega) (by simp only; omega)
              refine ⟨w :: P, rest, by rw [h1]; rfl, by rw [h2]; simp, ?_, ?_, h5⟩
              · rw [h3, sumWritten_cons]; simp only; omega
              · rw [h4, sumWritten_cons]; simp only; omega
        · have hz : w.written = 0 := by omega
          simp only [hpos, if_false]
          by_cases he : w.err = true
          · simp only [he, if_true]
            exact ⟨[w], ws, rfl, rfl, by simp [sumWritten, hz], by simp [sumWritten, hz],
              Or.inr trivial⟩
          · simp only [he, Bool.false_eq_true, if_false]
            by_cases hr : r.err = true
            · simp only [hr, if_true]
              exact ⟨[w], ws, rfl, rfl, by simp [sumWritten, hz], by simp [sumWritten, hz],
                Or.inr trivial⟩
            · simp only [hr, Bool.false_eq_true, if_false]
              obtain ⟨P, rest, h1, h2, h3, h4, h5⟩ := ih ws
                { returned := st.returned, counter := st.counter,
                  lastActive := r.now, total := st.total, reads := st.reads + 1,
                  writes := st.writes ++ [w] } hws (by simp only; omega) (by simp only; omega)
                (by simp only; omega) (by simp only; omega)
              refine ⟨w :: P, rest, by rw [h1]; rfl, by rw [h2]; simp, ?_, ?_, h5⟩
              · rw [h3, sumWritten_cons]; simp only; omega
              · rw [h4, sumWritten_cons]; simp only; omega
    · simp only [hn, if_false]
      by_cases hr : r.err = true
      · simp only [hr, if_true]
        exact ⟨[], ws, rfl, by simp, by simp [sumWritten], by simp [sumWritten], Or.inr trivial⟩
      · simp only [hr, Bool.false_eq_true, if_false]
        obtain ⟨P, rest, h1, h2, h3, h4, h5⟩ := ih ws
          { st with reads := st.reads + 1 } hw hc1 hc2 ht1 ht2
        exact ⟨P, rest, h1, h2, h3, h4, h5⟩

theorem copyWithActivityLoop_trace :
    ∀ (rs : List ReadResult) (ws : List WriteResult) (st : CopyOutcome),
      (copyWithActivityLoop rs ws st).reads = st.reads + (copyTrace rs ws).1 ∧
      (copyWithActivityLoop rs ws st).writes = st.writes ++ (copyTrace rs ws).2.1 ∧
      (copyWithActivityLoop rs ws st).returned.isSome
        = (st.returned.isSome || (copyTrace rs ws).2.2) := by
  intro rs
  induction rs with
  | nil => intro ws st; simp [copyWithActivityLoop, copyTrace]
  | cons r rs ih =>
    intro ws st
    unfold copyWithActivityLoop copyTrace
    by_cases hn : r.n > 0
    · simp only [hn, if_true]
      cases ws with
      | nil => simp
      | cons w ws =>
        by_cases he : w.err = true
        · by_cases hp : 0 < w.written <;> simp [he, hp]
        · by_cases hr : r.err = true
          · by_cases hp : 0 < w.written <;> simp [he, hr, hp]
          · simp only [he, hr, Bool.false_eq_true, if_false]
            split
            · obtain ⟨h1, h2, h3⟩ := ih ws
                { returned := st.returned, counter := wrapInt64 (st.counter + w.written),
                  lastActive := r.now, total := wrapInt64 (st.total + w.written),
                  reads := st.reads + 1, writes := st.writes ++ [w] }
              refine ⟨by rw [h1]; simp only; omega, by rw [h2]; simp, by rw [h3]⟩
            · obtain ⟨h1, h2, h3⟩ := ih ws
                { returned := st.returned, counter := st.counter,
                  lastActive := r.now, total := st.total,
                  reads := st.reads + 1, writes := st.writes ++ [w] }
              refine ⟨by rw [h1]; simp only; omega, by rw [h2]; simp, by rw [h3]⟩
    · simp only [hn, if_false]
      by_cases hr : r.err = true
      · simp [hr]
      · simp only [hr, Bool.false_eq_true, if_false]
        obtain ⟨h1, h2, h3⟩ := ih ws { st with reads := st.reads + 1 }
        refine ⟨by rw [h1]; simp only; omega, h2, h3⟩

/-- The copy loop stops at the first error: no read and no write before the last one performed
has an error; when the loop has returned, every read that brought bytes was followed by its
write and the last read or the last write has an error; and a write with an error is the last
thing the loop does. -/
theorem copyTrace_stops :
    ∀ (rs : List ReadResult) (ws : List WriteResult),
      (copyTrace rs ws).1 ≤ rs.length ∧
      (∀ i r, rs[i]? = some r → i + 1 < (copyTrace rs ws).1 → r.err = false) ∧
      (∀ i w, (copyTrace rs ws).2.1[i]? = some w → i + 1 < (copyTrace rs ws).2.1.length →
        w.err = false) ∧
      (∀ (i : Nat) (w : WriteResult), (copyTrace rs ws).2.1[i]? = some w → w.err = true →
        (copyTrace rs ws).2.2 = true) ∧
      ((copyTrace rs ws).2.2 = true →
        (copyTrace rs ws).2.1.length
          = ((rs.take (copyTrace rs ws).1).filter (fun r => decide (r.n > 0))).length ∧
        ((∃ r, rs[(copyTrace rs ws).1 - 1]? = some r ∧ r.err = true) ∨
         (∃ w, (copyTrace rs ws).2.1[(copyTrace rs ws).2.1.length - 1]? = some w ∧
            w.err = true))) ∧
      ((∃ r ∈ rs, r.err = true) →
        (rs.filter (fun r => decide (r.n > 0))).length ≤ ws.length →
        (copyTrace rs ws).2.2 = true) := by
  intro rs
  induction rs with
  | nil =>
    intro ws
    simp [copyTrace]
  | cons r rs ih =>
    intro ws
    unfold copyTrace
    by_cases hn : r.n > 0
    · simp only [hn, if_true]
      cases ws with
      | nil =>
        refine ⟨by simp, ?_, ?_, ?_, ?_, ?_⟩
        · intro i r2 _ hi; simp at hi
        · intro i w hw; simp at hw
        · intro i w hw; simp at hw
        · intro h; simp at h
        · intro _ h; simp [hn] at h
      | cons w ws =>
        by_cases he : w.err = true
        · simp only [he, if_true]
          refine ⟨by simp, ?_, ?_, ?_, ?_, ?_⟩
          · intro i r2 _ hi; simp at hi
          · intro i w2 _ hi; simp at hi
          · intro _ _ _ _; trivial
          · intro _
            exact ⟨by simp [hn], Or.inr ⟨w, by simp, he⟩⟩
          · intro _ _; trivial
        · by_cases hr : r.err = true
          · simp only [he, hr, Bool.false_eq_true, if_false, if_true]
            refine ⟨by simp, ?_, ?_, ?_, ?_, ?_⟩
            · intro i r2 _ hi; simp at hi
            · intro i w2 _ hi; simp at hi
            · intro _ _ _ _; trivial
            · intro _
              exact ⟨by simp [hn], Or.inl ⟨r, by simp, hr⟩⟩
            · intro _ _; trivial
          · simp only [he, hr, Bool.false_eq_true, if_false]
            obtain ⟨h1, h2, h3, h4, h5, h6⟩ := ih ws
            refine ⟨by simp; omega, ?_, ?_, ?_, ?_, ?_⟩
            · intro i r2 hi hlt
              cases i with
              | zero =>
                simp only [List.getElem?_cons_zero, Option.some.injEq] at hi
                subst hi
                simpa using hr
              | succ i =>
                simp only [List.getElem?_cons_succ] at hi
                exact h2 i r2 hi (by omega)
            · intro i w2 hi hlt
              cases i with
              | zero =>
                simp only [List.getElem?_cons_zero, Option.some.injEq] at hi
                subst hi
                simpa using he
              | succ i =>
                simp only [List.getElem?_cons_succ] at hi
                simp only [List.length_cons] at hlt
                exact h3 i w2 hi (by omega)
            · intro i w2 hi hw2
              cases i with
              | zero =>
                simp only [List.getElem?_cons_zero, Option.some.injEq] at hi
                subst hi
                exact absurd hw2 he
              | succ i =>
                simp only [List.getElem?_cons_succ] at hi
                exact h4 i w2 hi hw2
            · intro hret
              obtain ⟨h7, h8⟩ := h5 hret
              have hpos : 1 ≤ (copyTrace rs ws).1 := by
                by_contra hz
                have hz0 : (copyTrace rs ws).1 = 0 := by omega
                rcases h8 with ⟨r2, hr2, -⟩ | ⟨w2, hw2, -⟩
                · rw [hz0] at h7
                  simp only [List.take_zero, List.filter_nil, List.length_nil] at h7
                  cases rs with
                  | nil => simp [copyTrace] at hret
                  | cons r3 rs3 =>
                    unfold copyTrace at hz0
                    split at hz0
                    · split at hz0
                      · simp at hz0
                      · split at hz0
                        · simp at hz0
                        · split at hz0 <;> simp at hz0
                    · split at hz0 <;> simp at hz0
                · rw [hz0] at h7
                  simp only [List.take_zero, List.filter_nil, List.length_nil] at h7
                  rw [h7] at hw2
                  have : (copyTrace rs ws).2.1 = [] := List.length_eq_zero.mp h7
                  rw [this] at hw2
                  simp at hw2
              refine ⟨by simp [hn, h7], ?_⟩
              rcases h8 with ⟨r2, hr2, hr2e⟩ | ⟨w2, hw2, hw2e⟩
              · left
                refine ⟨r2, ?_, hr2e⟩
                have : (copyTrace rs ws).1 + 1 - 1 = ((copyTrace rs ws).1 - 1) + 1 := by omega
                simp only [this, List.getElem?_cons_succ]
                exact hr2
              · right
                have hlen : 1 ≤ (copyTrace rs ws).2.1.length := by
                  by_contra hz
                  have : (copyTrace rs ws).2.1 = [] := List.length_eq_zero.mp (by omega)
                  rw [this] at hw2
                  simp at hw2
                refine ⟨w2, ?_, hw2e⟩
                have : (w :: (copyTrace rs ws).2.1).length - 1
                    = ((copyTrace rs ws).2.1.length - 1) + 1 := by simp; omega
                rw [this, List.getElem?_cons_succ]
                exact hw2
            · rintro ⟨r2, hr2, hr2e⟩ hlen
              rcases List.mem_cons.mp hr2 with rfl | hr2
              · exact absurd hr2e hr
              · apply h6 ⟨r2, hr2, hr2e⟩
                simp only [List.filter_cons, hn, decide_True, if_true, List.length_cons] at hlen
                omega
    · simp only [hn, if_false]
      by_cases hr : r.err = true
      · simp only [hr, if_true]
        refine ⟨by simp, ?_, ?_, ?_, ?_, ?_⟩
        · intro i r2 _ hi; simp at hi
        · intro i w2 hw; simp at hw
        · intro _ _ _ _; trivial
        · intro _
          exact ⟨by simp [hn], Or.inl ⟨r, by simp, hr⟩⟩
        · intro _ _; trivial
      · simp only [hr, Bool.false_eq_true, if_false]
        obtain ⟨h1, h2, h3, h4, h5, h6⟩ := ih ws
        refine ⟨by simp; omega, ?_, h3, h4, ?_, ?_⟩
        · intro i r2 hi hlt
          cases i with
          | zero =>
            simp only [List.getElem?_cons_zero, Option.some.injEq] at hi
            subst hi
            simpa using hr
          | succ i =>
            simp only [List.getElem?_cons_succ] at hi
            exact h2 i r2 hi (by omega)
        · intro hret
          obtain ⟨h7, h8⟩ := h5 hret
          refine ⟨by simp [hn, h7], ?_⟩
          rcases h8 with ⟨r2, hr2, hr2e⟩ | h8
          · left
            have hpos : 1 ≤ (copyTrace rs ws).1 := by
              by_contra hz
              have hz0 : (copyTrace rs ws).1 = 0 := by omega
              cases rs with
              | nil => simp [copyTrace] at hret
              | cons r3 rs3 =>
                unfold copyTrace at hz0
                split at hz0
                · split at hz0
                  · simp at hz0
                  · split at hz0
                    · simp at hz0
                    · split at hz0 <;> simp at hz0
                · split at hz0 <;> simp at hz0
            refine ⟨r2, ?_, hr2e⟩
            have : (copyTrace rs ws).1 + 1 - 1 = ((copyTrace rs ws).1 - 1) + 1 := by omega
            simp only [this, List.getElem?_cons_succ]
            exact hr2
          · exact Or.inr h8
        · rintro ⟨r2, hr2, hr2e⟩ hlen
          rcases List.mem_cons.mp hr2 with rfl | hr2
          · exact absurd hr2e hr
          · apply h6 ⟨r2, hr2, hr2e⟩
            simpa [List.filter_cons, hn] using hlen

theorem copyWithActivityLoop_monotone :
    ∀ (r1 r2 : List ReadResult) (ws : List WriteResult) (st : CopyOutcome),
      (∀ w ∈ ws, 0 ≤ w.written) →
      -2 ^ 63 ≤ st.counter → st.counter + sumWritten ws < 2 ^ 63 →
      -2 ^ 63 ≤ st.total → st.total + sumWritten ws < 2 ^ 63 →
      (copyWithActivityLoop r1 ws st).counter ≤ (copyWithActivityLoop (r1 ++ r2) ws st).counter := by
  intro r1
  induction r1 with
  | nil =>
    intro r2 ws st hw hc1 hc2 ht1 ht2
    obtain ⟨P, rest, h1, -, h3, -, -⟩ := copyWithActivityLoop_accounting r2 ws st hw hc1 hc2 ht1 ht2
    have := sumWritten_nonneg P (fun w hw2 => hw w (by rw [h1]; exact List.mem_append_left _ hw2))
    simp only [List.nil_append, copyWithActivityLoop]
    rw [h3]
    omega
  | cons r r1 ih =>
    intro r2 ws st hw hc1 hc2 ht1 ht2
    rw [List.cons_append]
    unfold copyWithActivityLoop
    by_cases hn : r.n > 0
    · simp only [hn, if_true]
      cases ws with
      | nil => exact le_refl _
      | cons w ws =>
        have hw0 := hw w (List.mem_cons_self _ _)
        have hws : ∀ x ∈ ws, 0 ≤ x.written := fun x hx => hw x (List.mem_cons_of_mem _ hx)
        have hsum := sumWritten_nonneg ws hws
        rw [sumWritten_cons] at hc2 ht2
        have hcw : wrapInt64 (st.counter + w.written) = st.counter + w.written :=
          wrapInt64_of_range _ (by omega) (by omega)
        have htw : wrapInt64 (st.total + w.written) = st.total + w.written :=
          wrapInt64_of_range _ (by omega) (by omega)
        by_cases he : w.err = true
        · simp only [he, if_true]
          exact le_refl _
        · by_cases hr : r.err = true
          · simp only [he, hr, Bool.false_eq_true, if_false, if_true]
            exact le_refl _
          · simp only [he, hr, Bool.false_eq_true, if_false]
            by_cases hpos : w.written > 0
            · simp only [hpos, if_true, hcw, htw]
              exact ih r2 ws _ hws (by simp only; omega) (by simp only; omega)
                (by simp only; omega) (by simp only; omega)
            · simp only [hpos, if_false]
              exact ih r2 ws _ hws (by simp only; omega) (by simp only; omega)
                (by simp only; omega) (by simp only; omega)
    · simp only [hn, if_false]
      by_cases hr : r.err = true
      · simp only [hr, if_true]
        exact le_refl _
      · simp only [hr, Bool.false_eq_true, if_false]
        exact ih r2 ws _ hw hc1 hc2 ht1 ht2

/-- Claim C20: bridge byte counters equal what was written. For one copy direction over any
finite trace of read results and write results (every write count non-negative, the sums
within the range of `int64`), the amount added to the direction's counter and the value the
loop returns equal the sum of the return values of all destination writes performed, a write
that also returned an error included; the counter never decreases as the trace goes on; and
the loop stops at the first write error or the first read error, after the write of the bytes
that read returned. -/
theorem copyWithActivity_counters (reads : List ReadResult) (writes : List WriteResult)
    (counter lastActive : Int)
    (hw : ∀ w ∈ writes, 0 ≤ w.written)
    (hc0 : -2 ^ 63 ≤ counter) (hc1 : counter + sumWritten writes < 2 ^ 63)
    (ht : sumWritten writes < 2 ^ 63) :
    (copyWithActivity reads writes counter lastActive).counter - counter
      = sumWritten (copyWithActivity reads writes counter lastActive).writes ∧
    (∀ v, (copyWithActivity reads writes counter lastActive).returned = some v →
      v = sumWritten (copyWithActivity reads writes counter lastActive).writes) ∧
    (copyWithActivity reads writes counter lastActive).writes <+: writes ∧
    (∀ r1 r2 : List ReadResult,
      counter ≤ (copyWithActivity r1 writes counter lastActive).counter ∧
      (copyWithActivity r1 writes counter lastActive).counter
        ≤ (copyWithActivity (r1 ++ r2) writes counter lastActive).counter) ∧
    (copyWithActivity reads writes counter lastActive).reads ≤ reads.length ∧
    (∀ (i : Nat) (r : ReadResult), reads[i]? = some r →
      i + 1 < (copyWithActivity reads writes counter lastActive).reads → r.err = false) ∧
    (∀ (i : Nat) (w : WriteResult),
      (copyWithActivity reads writes counter lastActive).writes[i]? = some w →
      i + 1 < (copyWithActivity reads writes counter lastActive).writes.length →
      w.err = false) ∧
    (∀ (i : Nat) (w : WriteResult),
      (copyWithActivity reads writes counter lastActive).writes[i]? = some w → w.err = true →
      (copyWithActivity reads writes counter lastActive).returned ≠ none) ∧
    ((copyWithActivity reads writes counter lastActive).returned ≠ none →
      (copyWithActivity reads writes counter lastActive).writes.length
        = ((reads.take (copyWithActivity reads writes counter lastActive).reads).filter
            (fun r => decide (r.n > 0))).length ∧
      ((∃ r, reads[(copyWithActivity reads writes counter lastActive).reads - 1]? = some r ∧
          r.err = true) ∨
       (∃ w, (copyWithActivity reads writes counter lastActive).writes[
            (copyWithActivity reads writes counter lastActive).writes.length - 1]? = some w ∧
          w.err = true))) ∧
    ((∃ r ∈ reads, r.err = true) →
      (reads.filter (fun r => decide (r.n > 0))).length ≤ writes.length →
      (copyWithActivity reads writes counter lastActive).returned ≠ none) := by
  have hacc : ∀ rs : List ReadResult, ∃ P rest, writes = P ++ rest ∧
      (copyWithActivity rs writes counter lastActive).writes = P ∧
      (copyWithActivity rs writes counter lastActive).counter = counter + sumWritten P ∧
      (copyWithActivity rs writes counter lastActive).total = sumWritten P ∧
      ((copyWithActivity rs writes counter lastActive).returned = none ∨
        (copyWithActivity rs writes counter lastActive).returned
          = some (copyWithActivity rs writes counter lastActive).total) := by
    intro rs
    obtain ⟨P, rest, h1, h2, h3, h4, h5⟩ := copyWithActivityLoop_accounting rs writes
      { returned := none, counter := counter, lastActive := lastActive, total := 0, reads := 0,
        writes := [] } hw hc0 hc1 (by simp only; omega) (by simp only; omega)
    simp only [List.nil_append, Int.zero_add] at h2 h4
    exact ⟨P, rest, h1, h2, h3, h4, h5⟩
  obtain ⟨t1, t2, t3⟩ := copyWithActivityLoop_trace reads writes
    { returned := none, counter := counter, lastActive := lastActive, total := 0, reads := 0,
      writes := [] }
  simp only [Nat.zero_add, List.nil_append, Option.isSome_none, Bool.false_or] at t1 t2 t3
  have hret : (copyWithActivity reads writes counter lastActive).returned ≠ none ↔
      (copyTrace reads writes).2.2 = true := by
    unfold copyWithActivity
    rw [← t3, Option.isSome_iff_ne_none]
  obtain ⟨s1, s2, s3, s4, s5, s6⟩ := copyTrace_stops reads writes
  have e1 : (copyWithActivity reads writes counter lastActive).reads = (copyTrace reads writes).1 := t1
  have e2 : (copyWithActivity reads writes counter lastActive).writes
      = (copyTrace reads writes).2.1 := t2
  obtain ⟨P, rest, h1, h2, h3, h4, h5⟩ := hacc reads
  refine ⟨by rw [h3, h2]; omega, ?_, ⟨rest, by rw [h2, h1]⟩, ?_, by rw [e1]; exact s1, ?_, ?_, ?_,
    ?_, ?_⟩
  · intro v hv
    rcases h5 with h5 | h5
    · rw [h5] at hv; cases hv
    · rw [h5] at hv
      injection hv with hv
      rw [← hv, h4, h2]
  · intro r1 r2
    obtain ⟨P1, rest1, g1, g2, g3, -, -⟩ := hacc r1
    have hnn := sumWritten_nonneg P1
      (fun w hw2 => hw w (by rw [g1]; exact List.mem_append_left _ hw2))
    refine ⟨by rw [g3]; omega, ?_⟩
    exact copyWithActivityLoop_monotone r1 r2 writes _ hw hc0 hc1 (by simp only; omega)
      (by simp only; omega)
  · intro i r hi hlt
    rw [e1] at hlt
    exact s2 i r hi hlt
  · intro i w hi hlt
    rw [e2] at hi hlt
    exact s3 i w hi hlt
  · intro i w hi he
    rw [e2] at hi
    exact hret.mpr (s4 i w hi he)
  · intro h
    rw [e1, e2]
    exact s5 (hret.mp h)
  · intro h1 h2
    exact hret.mpr (s6 h1 h2)

/-- A read of 5 bytes written in full, an empty read, then a read of 3 bytes of which 2 are
written before the write fails, from a counter of 100: the hypotheses of
`copyWithActivity_counters` hold, and the counter has grown by 7, the value returned. -/
theorem copyWithActivity_counters_witness :
    copyWithActivity
        [{ n := 5, err := false, now := 10 }, { n := 0, err := false, now := 11 },
          { n := 3, err := false, now := 12 }, { n := 4, err := true, now := 13 }]
        [{ written := 5, err := false }, { written := 2, err := true }] 100 0
      = { returned := some 7, counter := 107, lastActive := 12, total := 7, reads := 3,
          writes := [{ written := 5, err := false }, { written := 2, err := true }] } ∧
    (copyWithActivity
        [{ n := 5, err := false, now := 10 }, { n := 0, err := false, now := 11 },
          { n := 3, err := false, now := 12 }, { n := 4, err := true, now := 13 }]
        [{ written := 5, err := false }, { written := 2, err := true }] 100 0).counter - 100
      = sumWritten (copyWithActivity
        [{ n := 5, err := false, now := 10 }, { n := 0, err := false, now := 11 },
          { n := 3, err := false, now := 12 }, { n := 4, err := true, now := 13 }]
        [{ written := 5, err := false }, { written := 2, err := true }] 100 0).writes :=
  ⟨by decide,
   (copyWithActivity_counters
      [{ n := 5, err := false, now := 10 }, { n := 0, err := false, now := 11 },
        { n := 3, err := false, now := 12 }, { n := 4, err := true, now := 13 }]
      [{ written := 5, err := false }, { written := 2, err := true }] 100 0
      (by decide) (by decide) (by decide) (by decide)).1⟩

/-! ### Token parsing (C12, C13) -/

theorem indexByte_eq_none_iff (s : List Byte) (sep : Byte) :
    indexByte s sep = none ↔ sep ∉ s := by
  induction s with
  | nil => simp [indexByte]
  | cons b s ih =>
    by_cases h : b = sep
    · simp [indexByte, h]
    · have h2 : ¬ sep = b := fun h3 => h h3.symm
      simp [indexByte, h, h2, ih]

theorem indexByte_some (s : List Byte) (sep : Byte) :
    ∀ m, indexByte s sep = some m →
      s = s.take m ++ sep :: s.drop (m + 1) ∧ sep ∉ s.take m := by
  induction s with
  | nil => intro m h; simp [indexByte] at h
  | cons b s ih =>
    intro m h
    by_cases hb : b = sep
    · simp only [indexByte, hb, if_true, Option.some.injEq] at h
      subst h
      simp [hb]
    · simp only [indexByte, hb, if_false, Option.map_eq_some'] at h
      obtain ⟨i, hi, rfl⟩ := h
      obtain ⟨h1, h2⟩ := ih i hi
      refine ⟨?_, ?_⟩
      · simp only [List.take_succ_cons, List.drop_succ_cons, List.cons_append, List.cons.injEq,
          true_and]
        exact h1
      · simp only [List.take_succ_cons, List.mem_cons, not_or]
        exact ⟨fun h3 => hb h3.symm, h2⟩

theorem indexByte_append (x y : List Byte) (sep : Byte) (hx : sep ∉ x) :
    indexByte (x ++ sep :: y) sep = some x.length := by
  induction x with
  | nil => simp [indexByte]
  | cons b x ih =>
    have hb : ¬ b = sep := fun h => hx (h ▸ List.mem_cons_self _ _)
    have hx2 : sep ∉ x := fun h => hx (List.mem_cons_of_mem _ h)
    simp [indexByte, hb, ih hx2]

theorem splitN2_append (x y : List Byte) (sep : Byte) (hx : sep ∉ x) :
    splitN2 (x ++ sep :: y) sep = [x, y] := by
  unfold splitN2
  rw [indexByte_append x y sep hx]
  simp

theorem splitN2_of_not_mem (s : List Byte) (sep : Byte) (hs : sep ∉ s) :
    splitN2 s sep = [s] := by
  unfold splitN2
  rw [(indexByte_eq_none_iff s sep).mpr hs]

theorem splitN2_cases (s : List Byte) (sep : Byte) :
    (sep ∉ s ∧ splitN2 s sep = [s]) ∨
    (∃ x y, s = x ++ sep :: y ∧ sep ∉ x ∧ splitN2 s sep = [x, y]) := by
  cases h : indexByte s sep with
  | none =>
    exact Or.inl ⟨(indexByte_eq_none_iff s sep).mp h, by simp [splitN2, h]⟩
  | some m =>
    obtain ⟨h1, h2⟩ := indexByte_some s sep m h
    exact Or.inr ⟨s.take m, s.drop (m + 1), h1, h2, by simp [splitN2, h]⟩

theorem parseToken_some (t p d : List Byte) (h : parseToken t p = some d) :
    d ≠ [] ∧ p ≠ [] ∧ (t ≠ [] → p = t ++ [0x2B] ++ d) ∧ (t = [] → d = p) := by
  unfold parseToken at h
  by_cases hp : p = []
  · simp [hp] at h
  · rw [if_neg hp] at h
    by_cases ht : t = []
    · subst ht
      simp only [ne_eq, not_true_eq_false, if_false] at h
      by_cases hd : p = []
      · exact absurd hd hp
      · simp only [hd, if_false, Option.some.injEq] at h
        subst h
        exact ⟨hp, hp, fun h2 => absurd rfl h2, fun _ => rfl⟩
    · simp only [ne_eq, ht, not_false_eq_true, if_true] at h
      rcases splitN2_cases p 0x2B with ⟨-, hs⟩ | ⟨x, y, hxy, hx, hs⟩
      · simp [hs] at h
      · rw [hs] at h
        simp only [List.length_cons, List.length_nil, ne_eq, not_true_eq_false, if_false,
          List.getD_cons_zero, List.getD_cons_succ, Nat.reduceAdd] at h
        by_cases hxt : x = t
        · subst hxt
          simp only [not_true_eq_false, if_false] at h
          by_cases hy : y = []
          · simp [hy] at h
          · simp only [hy, if_false, Option.some.injEq] at h
            subst h
            exact ⟨hy, hp, fun _ => by rw [hxy]; simp, fun h2 => absurd h2 ht⟩
        · simp [hxt] at h

theorem parseToken_rejects (t p : List Byte) :
    parseToken t [] = none ∧
    (t ≠ [] → (0x2B : Byte) ∉ p → parseToken t p = none) ∧
    (t ≠ [] → ∀ x y, p = x ++ [0x2B] ++ y → (0x2B : Byte) ∉ x → x ≠ t → parseToken t p = none) ∧
    (t ≠ [] → parseToken t (t ++ [0x2B]) = none) := by
  have key : ∀ q d, parseToken t q = some d → d ≠ [] ∧ q ≠ [] ∧ (t ≠ [] → q = t ++ [0x2B] ++ d) :=
    fun q d h => ⟨(parseToken_some t q d h).1, (parseToken_some t q d h).2.1,
      (parseToken_some t q d h).2.2.1⟩
  refine ⟨by simp [parseToken], ?_, ?_, ?_⟩
  · intro ht hp
    cases h : parseToken t p with
    | none => rfl
    | some d =>
      have := (key p d h).2.2 ht
      exact absurd (by rw [this]; simp) hp
  · intro ht x y hxy hx hne
    cases h : parseToken t p with
    | none => rfl
    | some d =>
      exfalso
      unfold parseToken at h
      have hp : p ≠ [] := by rw [hxy]; simp
      have hs : splitN2 p 0x2B = [x, y] := by
        rw [hxy, List.append_assoc]
        exact splitN2_append x y 0x2B hx
      simp [hp, ht, hs, hne] at h
  · intro ht
    cases h : parseToken t (t ++ [0x2B]) with
    | none => rfl
    | some d =>
      obtain ⟨h1, -, h3⟩ := key _ d h
      have := h3 ht
      rw [List.append_assoc] at this
      have := List.append_cancel_left this
      simp only [List.singleton_append, List.cons.injEq, true_and] at this
      exact absurd this.symm h1

theorem parseToken_accepts (t d : List Byte) (ht : t ≠ []) (hplus : (0x2B : Byte) ∉ t)
    (hd : d ≠ []) : parseToken t (t ++ [0x2B] ++ d) = some d := by
  unfold parseToken
  have hp : t ++ [0x2B] ++ d ≠ [] := by simp
  have hs : splitN2 (t ++ 0x2B :: d) 0x2B = [t, d] := splitN2_append t d 0x2B hplus
  simp [ht, hs, hd]

theorem parseToken_no_auth (d : List Byte) (hd : d ≠ []) : parseToken [] d = some d := by
  simp [parseToken, hd]

/-! ### Totality of the command reader -/

theorem readLineWithSkippedLoop_length (reader : List Byte) :
    ∀ (inAT : Bool) (line skipped : List Byte),
      ((readLineWithSkippedLoop reader inAT line skipped).2.2.1 = none →
        (readLineWithSkippedLoop reader inAT line skipped).2.2.2.length < reader.length) ∧
      (∀ e, (readLineWithSkippedLoop reader inAT line skipped).2.2.1 = some e →
        e.Timeout = false) := by
  induction reader with
  | nil => intro inAT line skipped; simp [readLineWithSkippedLoop, ReadError.Timeout]
  | cons b reader ih =>
    intro inAT line skipped
    simp only [readLineWithSkippedLoop]
    by_cases h1 : b = CR ∨ b = LF
    · simp only [h1, if_true]
      by_cases h2 : b = CR
      · simp only [h2, if_true]
        cases reader with
        | nil => simp
        | cons next reader1 =>
          by_cases h3 : next = LF
          · simp only [h3, if_true]
            refine ⟨fun _ => ?_, fun e h => by simp at h⟩
            simp only [List.length_cons]; omega
          · simp [h3]
      · simp [h2]
    · simp only [h1, if_false]
      have hlen : ∀ r : List Byte × List Byte × Option ReadError × List Byte,
          (r.2.2.1 = none → r.2.2.2.length < reader.length) →
          (r.2.2.1 = none → r.2.2.2.length < (b :: reader).length) := by
        intro r h hn
        have := h hn
        simp only [List.length_cons]; omega
      split
      · exact ⟨hlen _ (ih _ _ _).1, (ih _ _ _).2⟩
      · split
        · exact ⟨hlen _ (ih _ _ _).1, (ih _ _ _).2⟩
        · exact ⟨hlen _ (ih _ _ _).1, (ih _ _ _).2⟩

theorem readATCommandLoop_total (timeout : Int) (since : Nat → Int) :
    ∀ (fuel k : Nat) (reader : List Byte) (usrvcomCfg : Option USRVCOMConfig)
      (allSkipped : List Byte) (conn : List ConnOp), reader.length < fuel →
      ∃ o, readATCommandLoop timeout since fuel k reader usrvcomCfg allSkipped conn = some o ∧
        ∀ cmd, o.result = Except.ok cmd → o.reader.length < reader.length := by
  intro fuel
  induction fuel with
  | zero => intro k reader _ _ _ h; omega
  | succ fuel ih =>
    intro k reader usrvcomCfg allSkipped conn hfuel
    simp only [readATCommandLoop]
    split
    · exact ⟨_, rfl, fun cmd h => by simp at h⟩
    · have hl := readLineWithSkippedLoop_length reader false [] []
      rcases hr : readLineWithSkipped reader with ⟨line, skipped, err, rest⟩
      unfold readLineWithSkipped at hr
      rw [hr] at hl
      cases err with
      | some e =>
        have ht : e.Timeout = false := hl.2 e rfl
        simp only [ht, Bool.false_eq_true, and_false, if_false]
        exact ⟨_, rfl, fun cmd h => by simp at h⟩
      | none =>
        have hlt : rest.length < reader.length := hl.1 rfl
        have hrest : rest.length < fuel := by omega
        have hrec : ∀ k u a c, ∃ o, readATCommandLoop timeout since fuel k rest u a c = some o ∧
            ∀ cmd, o.result = Except.ok cmd → o.reader.length < reader.length := by
          intro k u a c
          obtain ⟨o, ho, hlen⟩ := ih k rest u a c hrest
          exact ⟨o, ho, fun cmd h => by have := hlen cmd h; omega⟩
        simp only []
        repeat' split
        all_goals first
          | exact hrec _ _ _ _
          | exact ⟨_, rfl, fun cmd _ => hlt⟩

theorem ReadATCommandWithPresets_total (reader : List Byte) (timeout : Int) (since : Nat → Int) :
    ∃ o, ReadATCommandWithPresets reader timeout since = some o ∧
      ∀ cmd, o.result = Except.ok cmd → o.reader.length < reader.length :=
  readATCommandLoop_total timeout since (reader.length + 1) 0 reader none [] [] (by omega)

/-! ### The replies of the dispatcher (C14) -/

theorem replies_append (a b : List HandlerEvent) : replies (a ++ b) = replies a ++ replies b := by
  simp [replies, List.filterMap_append]

theorem ForwardRFC2217ToDevice_events (deviceConn : Nat) (buf : Option RFC2217Buffer)
    (st : HandleState) :
    (ForwardRFC2217ToDevice deviceConn buf st).world = st.world ∧
    ∃ new, (ForwardRFC2217ToDevice deviceConn buf st).events = st.events ++ new ∧
      replies new = [] ∧ ∀ e ∈ new, ∃ b, e = HandlerEvent.Write deviceConn b := by
  unfold ForwardRFC2217ToDevice
  cases buf with
  | none => exact ⟨rfl, [], by simp, rfl, by simp⟩
  | some buf =>
    dsimp only
    by_cases h : buf.RawData.length = 0
    · rw [if_pos h]
      exact ⟨rfl, [], by simp, rfl, by simp⟩
    · rw [if_neg h]
      exact ⟨rfl, [HandlerEvent.Write deviceConn buf.RawData], rfl, rfl, by simp⟩

theorem forwardBuffered_events (deviceConn : Nat) (buffered : List Byte) (st : HandleState) :
    (forwardBuffered deviceConn buffered st).world = st.world ∧
    ∃ new, (forwardBuffered deviceConn buffered st).events = st.events ++ new ∧
      replies new = [] ∧ ∀ e ∈ new, ∃ b, e = HandlerEvent.Write deviceConn b := by
  have hw : ∀ b : List Byte,
      ({ st with events := st.events ++ [HandlerEvent.Write deviceConn b] } : HandleState).world
        = st.world ∧
      ∃ new, ({ st with events := st.events ++ [HandlerEvent.Write deviceConn b] }
          : HandleState).events = st.events ++ new ∧
        replies new = [] ∧ ∀ e ∈ new, ∃ b, e = HandlerEvent.Write deviceConn b :=
    fun b => ⟨rfl, [HandlerEvent.Write deviceConn b], rfl, rfl, by simp⟩
  unfold forwardBuffered
  by_cases h : buffered.length > 0
  · rw [if_pos h]
    dsimp only
    split
    · split
      · exact ForwardRFC2217ToDevice_events _ _ _
      · exact hw _
    · exact hw _
  · rw [if_neg h]
    exact ⟨rfl, [], by simp, rfl, by simp⟩

theorem handleClient_reject (cfg : Config) (env : HandleEnv) (conn : Nat) (reader : List Byte)
    (atCmd : ATCommand) (st : HandleState)
    (h : parseToken cfg.AuthToken atCmd.Param = none ∨
      ∃ deviceID, parseToken cfg.AuthToken atCmd.Param = some deviceID ∧
        (st.world.registry.Get deviceID = none ∨
          ∃ dev, st.world.registry.Get deviceID = some dev ∧ dev.InSession = true)) :
    handleClient cfg env conn reader atCmd st =
      ({ st with events := st.events ++ [HandlerEvent.Reply conn RespError] },
        HandleExit.Returned) := by
  unfold handleClient
  rcases h with hp | ⟨deviceID, hp, hg | ⟨dev, hg, hb⟩⟩
  · rw [hp]; rfl
  · rw [hp]; dsimp only; rw [hg]; rfl
  · rw [hp]; dsimp only; rw [hg]; dsimp only
    rw [if_pos (by simpa [Device.IsInSession] using hb)]; rfl

/-- The state of `handleClient` once the session is created and the OK is written. -/
theorem handleClient_accept (cfg : Config) (env : HandleEnv) (conn : Nat) (reader : List Byte)
    (atCmd : ATCommand) (st : HandleState) (deviceID : List Byte) (dev : Device)
    (hp : parseToken cfg.AuthToken atCmd.Param = some deviceID)
    (hg : st.world.registry.Get deviceID = some dev) (hb : dev.InSession = false) :
    ∃ st1 : HandleState,
      st1.events = st.events ++ [HandlerEvent.Reply conn RespOK] ∧
      st1.world.sessions = (st.world.sessions.Create deviceID conn dev.Conn env.unix env.now).2 ∧
      st1.world.registry = st.world.registry.updateDevice dev.Conn (fun d => d.SetSession
        (st.world.sessions.Create deviceID conn dev.Conn env.unix env.now).1.ID) ∧
      handleClient cfg env conn reader atCmd st =
        if env.writeFails st.replyCount then
          ({ st1 with world :=
              { registry := st1.world.registry.updateDevice dev.Conn Device.ClearSession,
                sessions := st1.world.sessions.End
                  (st.world.sessions.Create deviceID conn dev.Conn env.unix env.now).1.ID } },
            HandleExit.Returned)
        else
          (forwardBuffered dev.Conn (reader.take env.buffered)
            (match clientPresets atCmd with
              | some buf =>
                if buf.RawData.length > 0 then ForwardRFC2217ToDevice dev.Conn (some buf) st1
                else st1
              | none => st1),
            HandleExit.Bridge (st.world.sessions.Create deviceID conn dev.Conn env.unix env.now).1
              (dev.SetSession
                (st.world.sessions.Create deviceID conn dev.Conn env.unix env.now).1.ID)) := by
  refine ⟨⟨⟨st.world.registry.updateDevice dev.Conn (fun d => d.SetSession
          (st.world.sessions.Create deviceID conn dev.Conn env.unix env.now).1.ID),
        (st.world.sessions.Create deviceID conn dev.Conn env.unix env.now).2⟩,
      st.events ++ [HandlerEvent.Reply conn RespOK]⟩, rfl, rfl, rfl, ?_⟩
  unfold handleClient
  rw [hp]; dsimp only; rw [hg]; dsimp only
  rw [if_neg (by simp [Device.IsInSession, hb])]
  rfl

theorem handleClient_outcome (cfg : Config) (env : HandleEnv) (conn : Nat) (reader : List Byte)
    (atCmd : ATCommand) (st : HandleState) :
    handleClient cfg env conn reader atCmd st =
      ({ st with events := st.events ++ [HandlerEvent.Reply conn RespError] },
        HandleExit.Returned) ∨
    ∃ new, (handleClient cfg env conn reader atCmd st).1.events = st.events ++ new ∧
      replies new = [RespOK] := by
  cases hp : parseToken cfg.AuthToken atCmd.Param with
  | none => exact Or.inl (handleClient_reject cfg env conn reader atCmd st (Or.inl hp))
  | some deviceID =>
    cases hg : st.world.registry.Get deviceID with
    | none =>
      exact Or.inl (handleClient_reject cfg env conn reader atCmd st
        (Or.inr ⟨deviceID, hp, Or.inl hg⟩))
    | some dev =>
      cases hb : dev.InSession with
      | true =>
        exact Or.inl (handleClient_reject cfg env conn reader atCmd st
          (Or.inr ⟨deviceID, hp, Or.inr ⟨dev, hg, hb⟩⟩))
      | false =>
        right
        obtain ⟨st1, h1, -, -, heq⟩ :=
          handleClient_accept cfg env conn reader atCmd st deviceID dev hp hg hb
        rw [heq]
        by_cases hw : env.writeFails st.replyCount = true
        · rw [if_pos hw]
          exact ⟨[HandlerEvent.Reply conn RespOK], h1, rfl⟩
        · rw [if_neg hw]
          have h2 : ∀ st2 : HandleState,
              (∃ n2, st2.events = st1.events ++ n2 ∧ replies n2 = []) →
              ∃ new, (forwardBuffered dev.Conn (List.take env.buffered reader) st2,
                  HandleExit.Bridge
                    (st.world.sessions.Create deviceID conn dev.Conn env.unix env.now).1
                    (dev.SetSession (st.world.sessions.Create deviceID conn dev.Conn env.unix
                      env.now).1.ID)).1.events
                = st.events ++ new ∧ replies new = [RespOK] := by
            intro st2 ⟨n2, hn2, hr2⟩
            obtain ⟨-, n3, hn3, hr3, -⟩ :=
              forwardBuffered_events dev.Conn (List.take env.buffered reader) st2
            refine ⟨[HandlerEvent.Reply conn RespOK] ++ n2 ++ n3, ?_, ?_⟩
            · dsimp only; rw [hn3, hn2, h1]; simp
            · rw [replies_append, replies_append, hr2, hr3]; rfl
          apply h2
          split
          · split
            · obtain ⟨-, n, hn, hr, -⟩ := ForwardRFC2217ToDevice_events dev.Conn (some ‹_›) st1
              exact ⟨n, hn, hr⟩
            · exact ⟨[], by simp, rfl⟩
          · exact ⟨[], by simp, rfl⟩

theorem replyCount_eq (st : HandleState) : st.replyCount = (replies st.events).length := by
  unfold HandleState.replyCount replies
  induction st.events with
  | nil => rfl
  | cons e es ih => cases e <;> simp [List.filter_cons, List.filterMap_cons, ih]

theorem takeOver_events (deviceID : List Byte) (st : HandleState) :
    (takeOver deviceID st).world.sessions = st.world.sessions ∧
    (takeOver deviceID st).world.registry = st.world.registry.Unregister deviceID ∧
    ∃ new, (takeOver deviceID st).events = st.events ++ new ∧ replies new = [] := by
  unfold takeOver
  cases hg : st.world.registry.Get deviceID with
  | none =>
    refine ⟨rfl, ?_, [], by simp, rfl⟩
    dsimp only
    unfold Registry.Unregister
    unfold Registry.Get at hg
    rw [SyncMap.Delete_of_Load_none _ _ hg]
  | some existing =>
    dsimp only
    refine ⟨rfl, rfl, ?_⟩
    by_cases hk : existing.StopKeepalive.isSome = true
    · rw [if_pos hk]
      exact ⟨[HandlerEvent.CloseStopKeepalive existing.Conn,
        HandlerEvent.CloseConn existing.Conn], by simp, rfl⟩
    · rw [if_neg hk]
      exact ⟨[HandlerEvent.CloseConn existing.Conn], rfl, rfl⟩

theorem takeOver_replyCount (deviceID : List Byte) (st : HandleState) :
    (takeOver deviceID st).replyCount = st.replyCount := by
  obtain ⟨-, -, new, h1, h2⟩ := takeOver_events deviceID st
  rw [replyCount_eq, replyCount_eq, h1, replies_append, h2, List.append_nil]

theorem dialAfterReg_events (env : HandleEnv) (conn : Nat) (reader : List Byte)
    (st : HandleState) :
    (dialAfterReg env conn reader st).world = st.world ∧
    ((dialAfterReg env conn reader st).events = st.events ∨
      (dialAfterReg env conn reader st).events = st.events ++ [HandlerEvent.Reply conn RespOK]) := by
  unfold dialAfterReg
  repeat' split
  all_goals first
    | exact ⟨rfl, Or.inl rfl⟩
    | exact ⟨rfl, Or.inr rfl⟩

theorem handleDevice_reject (cfg : Config) (env : HandleEnv) (conn : Nat) (reader : List Byte)
    (token : List Byte) (st : HandleState) (h : parseToken cfg.AuthToken token = none) :
    handleDevice cfg env conn reader token st =
      ({ st with events := st.events ++ [HandlerEvent.Reply conn RespError] },
        HandleExit.Returned) := by
  unfold handleDevice
  rw [h]; rfl

/-- The state of `handleDevice` once the device is registered and the OK is written. -/
theorem handleDevice_accept (cfg : Config) (env : HandleEnv) (conn : Nat) (reader : List Byte)
    (token : List Byte) (st : HandleState) (deviceID : List Byte)
    (hp : parseToken cfg.AuthToken token = some deviceID) :
    ∃ (st1 : HandleState) (dev : Device),
      dev = { ID := deviceID, Conn := conn, RegisteredAt := env.now, InSession := false,
              SessionID := [], StopKeepalive := some false } ∧
      st1.events = (takeOver deviceID st).events ++ [HandlerEvent.Reply conn RespOK] ∧
      st1.world.sessions = st.world.sessions ∧
      st1.world.registry = (st.world.registry.Unregister deviceID).Register dev ∧
      handleDevice cfg env conn reader token st =
        if env.writeFails st.replyCount then
          ({ st1 with world :=
              { st1.world with registry := st1.world.registry.Unregister deviceID } },
            HandleExit.Returned)
        else
          (dialAfterReg env conn (reader.drop env.buffered) st1, HandleExit.DeviceLoop dev) := by
  refine ⟨⟨⟨(takeOver deviceID st).world.registry.Register
        { ID := deviceID, Conn := conn, RegisteredAt := env.now, InSession := false,
          SessionID := [], StopKeepalive := some false }, (takeOver deviceID st).world.sessions⟩,
      (takeOver deviceID st).events ++ [HandlerEvent.Reply conn RespOK]⟩, _, rfl, rfl,
      (takeOver_events deviceID st).1, ?_, ?_⟩
  · dsimp only
    rw [(takeOver_events deviceID st).2.1]
  · unfold handleDevice
    rw [hp, ← takeOver_replyCount deviceID st]
    rfl

theorem handleDevice_outcome (cfg : Config) (env : HandleEnv) (conn : Nat) (reader : List Byte)
    (token : List Byte) (st : HandleState) :
    handleDevice cfg env conn reader token st =
      ({ st with events := st.events ++ [HandlerEvent.Reply conn RespError] },
        HandleExit.Returned) ∨
    ∃ new, (handleDevice cfg env conn reader token st).1.events = st.events ++ new ∧
      (replies new = [RespOK] ∨ replies new = [RespOK, RespOK]) := by
  cases hp : parseToken cfg.AuthToken token with
  | none => exact Or.inl (handleDevice_reject cfg env conn reader token st hp)
  | some deviceID =>
    right
    obtain ⟨st1, dev, -, h1, -, -, heq⟩ :=
      handleDevice_accept cfg env conn reader token st deviceID hp
    obtain ⟨-, -, n0, hn0, hr0⟩ := takeOver_events deviceID st
    rw [heq]
    have hone : st1.events = st.events ++ (n0 ++ [HandlerEvent.Reply conn RespOK]) := by
      rw [h1, hn0]; simp
    have hrone : replies (n0 ++ [HandlerEvent.Reply conn RespOK]) = [RespOK] := by
      rw [replies_append, hr0]; rfl
    by_cases hw : env.writeFails st.replyCount = true
    · rw [if_pos hw]
      exact ⟨_, hone, Or.inl hrone⟩
    · rw [if_neg hw]
      rcases (dialAfterReg_events env conn (reader.drop env.buffered) st1).2 with h | h
      · exact ⟨_, h.trans hone, Or.inl hrone⟩
      · refine ⟨n0 ++ [HandlerEvent.Reply conn RespOK] ++ [HandlerEvent.Reply conn RespOK], ?_,
          Or.inr ?_⟩
        · dsimp only; rw [h, hone]; simp
        · rw [replies_append, hrone]; rfl

theorem handleLoop_replies (cfg : Config) (env : HandleEnv) (conn : Nat) :
    ∀ (fuel k : Nat) (reader : List Byte) (usrvcomCfg : Option USRVCOMConfig) (timeout : Int)
      (st : HandleState), reader.length < fuel →
      ∃ st1 exit, handleLoop cfg env conn fuel k reader usrvcomCfg timeout st = some (st1, exit) ∧
        ∃ n, (replies st1.events = replies st.events ++ List.replicate n RespOK ++ [RespError] ∧
              exit = HandleExit.Returned ∧ st1.world = st.world) ∨
             replies st1.events = replies st.events ++ List.replicate n RespOK := by
  intro fuel
  induction fuel with
  | zero => intro k reader _ _ _ h; omega
  | succ fuel ih =>
    intro k reader usrvcomCfg timeout st hfuel
    have herr : ∃ st1 exit, some ((WriteError env conn st).2, HandleExit.Returned)
          = some (st1, exit) ∧
        ∃ n, (replies st1.events = replies st.events ++ List.replicate n RespOK ++ [RespError] ∧
              exit = HandleExit.Returned ∧ st1.world = st.world) ∨
             replies st1.events = replies st.events ++ List.replicate n RespOK :=
      ⟨_, _, rfl, 0, Or.inl ⟨by simp [WriteError, replies_append, replies], rfl, rfl⟩⟩
    obtain ⟨o, ho, hlen⟩ := ReadATCommandWithPresets_total reader timeout (env.since k)
    simp only [handleLoop]
    rw [ho]
    dsimp only
    cases hres : o.result with
    | error e => exact herr
    | ok cmd =>
      dsimp only
      generalize (if cmd.USRVCOMCfg.isSome = true then cmd.USRVCOMCfg else usrvcomCfg) = u
      by_cases hdial : cmd.Cmd = CmdDT ∨ cmd.Cmd = CmdDP
      · rw [if_pos hdial]
        simp only [WriteOK]
        by_cases hw : env.writeFails st.replyCount = true
        · rw [if_pos hw]
          exact ⟨_, _, rfl, 1, Or.inr (by simp [replies_append, replies])⟩
        · rw [if_neg hw]
          have hlt : o.reader.length < fuel := by have := hlen cmd hres; omega
          obtain ⟨st1, exit, h1, n, h2⟩ := ih (k + 1) o.reader u cfg.PostConnectTimeout
            { st with events := st.events ++ [HandlerEvent.Reply conn RespOK] } hlt
          refine ⟨st1, exit, h1, n + 1, ?_⟩
          have hr : replies (st.events ++ [HandlerEvent.Reply conn RespOK])
              = replies st.events ++ [RespOK] := by rw [replies_append]; rfl
          rcases h2 with ⟨h2, h3, h4⟩ | h2
          · left
            refine ⟨?_, h3, h4⟩
            rw [h2]; dsimp only; rw [hr, List.replicate_succ]; simp
          · right
            rw [h2]; dsimp only; rw [hr, List.replicate_succ]; simp
      · rw [if_neg hdial]
        by_cases hreg : cmd.Cmd = CmdReg
        · rw [if_pos hreg]
          rcases handleDevice_outcome cfg env conn o.reader cmd.Param st with h | ⟨new, h1, h2⟩
          · rw [h]; exact herr
          · refine ⟨(handleDevice cfg env conn o.reader cmd.Param st).1,
              (handleDevice cfg env conn o.reader cmd.Param st).2, rfl, ?_⟩
            rcases h2 with h2 | h2
            · exact ⟨1, Or.inr (by rw [h1, replies_append, h2]; rfl)⟩
            · exact ⟨2, Or.inr (by rw [h1, replies_append, h2]; rfl)⟩
        · rw [if_neg hreg]
          by_cases hcon : cmd.Cmd = CmdConnect
          · rw [if_pos hcon]
            generalize (if u.isSome = true ∧ cmd.USRVCOMCfg.isNone = true then
                ({ cmd with USRVCOMCfg := u } : ATCommand) else cmd) = atCmd
            rcases handleClient_outcome cfg env conn o.reader atCmd st with h | ⟨new, h1, h2⟩
            · rw [h]; exact herr
            · exact ⟨(handleClient cfg env conn o.reader atCmd st).1,
                (handleClient cfg env conn o.reader atCmd st).2, rfl, 1,
                Or.inr (by rw [h1, replies_append, h2]; rfl)⟩
          · rw [if_neg hcon]
            exact herr

/-- Claim C12: token parsing never accepts a malformed parameter, on both paths. Whenever a
device id `d` is derived from a parameter `p`, `d` is non-empty, `p` is the AuthToken, "+" and
`d` when an AuthToken is configured, and `d = p` when none is. An empty parameter, a parameter
with no '+' under a configured AuthToken, a wrong token before the first '+', and an empty
device id after the split derive no id; and where no id is derived, `handleDevice` and
`handleClient` write ERROR and return, with the registry and the sessions unchanged. A device
that reaches its loop, and a session that reaches the bridge, carry the derived id. -/
theorem parseToken_rejects_malformed (cfg : Config) (env : HandleEnv) (conn : Nat)
    (reader p : List Byte) (atCmd : ATCommand) (st : HandleState) :
    (∀ d, parseToken cfg.AuthToken p = some d →
      d ≠ [] ∧ (cfg.AuthToken ≠ [] → p = cfg.AuthToken ++ [0x2B] ++ d) ∧
      (cfg.AuthToken = [] → d = p)) ∧
    parseToken cfg.AuthToken [] = none ∧
    (cfg.AuthToken ≠ [] → (0x2B : Byte) ∉ p → parseToken cfg.AuthToken p = none) ∧
    (cfg.AuthToken ≠ [] → ∀ x y, p = x ++ [0x2B] ++ y → (0x2B : Byte) ∉ x →
      x ≠ cfg.AuthToken → parseToken cfg.AuthToken p = none) ∧
    (cfg.AuthToken ≠ [] → parseToken cfg.AuthToken (cfg.AuthToken ++ [0x2B]) = none) ∧
    (parseToken cfg.AuthToken p = none →
      handleDevice cfg env conn reader p st =
        ({ st with events := st.events ++ [HandlerEvent.Reply conn RespError] },
          HandleExit.Returned)) ∧
    (parseToken cfg.AuthToken atCmd.Param = none →
      handleClient cfg env conn reader atCmd st =
        ({ st with events := st.events ++ [HandlerEvent.Reply conn RespError] },
          HandleExit.Returned)) ∧
    (∀ dev, (handleDevice cfg env conn reader p st).2 = HandleExit.DeviceLoop dev →
      parseToken cfg.AuthToken p = some dev.ID) ∧
    (∀ sess dev, (handleClient cfg env conn reader atCmd st).2 = HandleExit.Bridge sess dev →
      parseToken cfg.AuthToken atCmd.Param = some sess.DeviceID) := by
  obtain ⟨r1, r2, r3, r4⟩ := parseToken_rejects cfg.AuthToken p
  refine ⟨fun d h => ⟨(parseToken_some _ _ _ h).1, (parseToken_some _ _ _ h).2.2⟩, r1, r2, r3, r4,
    handleDevice_reject cfg env conn reader p st,
    fun h => handleClient_reject cfg env conn reader atCmd st (Or.inl h), ?_, ?_⟩
  · intro dev hexit
    cases hp : parseToken cfg.AuthToken p with
    | none =>
      rw [handleDevice_reject cfg env conn reader p st hp] at hexit
      cases hexit
    | some deviceID =>
      obtain ⟨st1, dev1, hdev, -, -, -, heq⟩ :=
        handleDevice_accept cfg env conn reader p st deviceID hp
      rw [heq] at hexit
      by_cases hw : env.writeFails st.replyCount = true
      · rw [if_pos hw] at hexit
        cases hexit
      · rw [if_neg hw] at hexit
        injection hexit with hexit
        rw [← hexit, hdev]
  · intro sess dev hexit
    cases hp : parseToken cfg.AuthToken atCmd.Param with
    | none =>
      rw [handleClient_reject cfg env conn reader atCmd st (Or.inl hp)] at hexit
      cases hexit
    | some deviceID =>
      cases hg : st.world.registry.Get deviceID with
      | none =>
        rw [handleClient_reject cfg env conn reader atCmd st
          (Or.inr ⟨deviceID, hp, Or.inl hg⟩)] at hexit
        cases hexit
      | some dev0 =>
        cases hb : dev0.InSession with
        | true =>
          rw [handleClient_reject cfg env conn reader atCmd st
            (Or.inr ⟨deviceID, hp, Or.inr ⟨dev0, hg, hb⟩⟩)] at hexit
          cases hexit
        | false =>
          obtain ⟨st1, -, -, -, heq⟩ :=
            handleClient_accept cfg env conn reader atCmd st deviceID dev0 hp hg hb
          rw [heq] at hexit
          by_cases hw : env.writeFails st.replyCount = true
          · rw [if_pos hw] at hexit
            cases hexit
          · rw [if_neg hw] at hexit
            injection hexit with hexit
            rw [← hexit]
            rfl

/-- With the AuthToken "tok", the parameter "tok+dev1" derives the device id "dev1", and
`parseToken_rejects_malformed` gives that this id is not empty and that the parameter is the
token, "+" and the id. -/
theorem parseToken_rejects_malformed_witness :
    parseToken [0x74, 0x6F, 0x6B] [0x74, 0x6F, 0x6B, 0x2B, 0x64, 0x65, 0x76, 0x31]
      = some [0x64, 0x65, 0x76, 0x31] ∧
    ([0x64, 0x65, 0x76, 0x31] ≠ ([] : List Byte) ∧
      (([0x74, 0x6F, 0x6B] : List Byte) ≠ [] →
        ([0x74, 0x6F, 0x6B, 0x2B, 0x64, 0x65, 0x76, 0x31] : List Byte)
          = [0x74, 0x6F, 0x6B] ++ [0x2B] ++ [0x64, 0x65, 0x76, 0x31]) ∧
      (([0x74, 0x6F, 0x6B] : List Byte) = [] →
        ([0x64, 0x65, 0x76, 0x31] : List Byte)
          = [0x74, 0x6F, 0x6B, 0x2B, 0x64, 0x65, 0x76, 0x31])) :=
  ⟨by decide,
   (parseToken_rejects_malformed
      { AuthToken := [0x74, 0x6F, 0x6B], InitTimeout := 0, PostConnectTimeout := 0,
        IdleTimeout := 0, Debug := false }
      { since := fun _ _ => 0, writeFails := fun _ => false, buffered := 0, unix := 0, now := 0 }
      7 [] [0x74, 0x6F, 0x6B, 0x2B, 0x64, 0x65, 0x76, 0x31]
      { Cmd := CmdConnect, Param := [], Skipped := [], USRVCOMCfg := none }
      { world := { registry := NewRegistry, sessions := NewManager false 0 }, events := [] }).1
      [0x64, 0x65, 0x76, 0x31] (by decide)⟩

/-- Claim C13, amended: every well-formed parameter is accepted when the AuthToken contains no
'+'. For every configured non-empty AuthToken `t` without '+' and every non-empty device id
`d`, the parameter `t`, "+", `d` passes token parsing with exactly the id `d`; on the AT+REG
path, when the OK is written, the device is registered under `d` on this connection and the
device loop is reached; on the AT+CONNECT path, when the device `d` is registered and idle and
the OK is written, the bridge is reached with a session for the device `d`. -/
theorem parseToken_accepts_well_formed (cfg : Config) (env : HandleEnv) (conn : Nat)
    (reader d : List Byte) (atCmd : ATCommand) (st : HandleState)
    (ht : cfg.AuthToken ≠ []) (hplus : (0x2B : Byte) ∉ cfg.AuthToken) (hd : d ≠ []) :
    parseToken cfg.AuthToken (cfg.AuthToken ++ [0x2B] ++ d) = some d ∧
    (env.writeFails st.replyCount = false →
      ∃ st1 dev, handleDevice cfg env conn reader (cfg.AuthToken ++ [0x2B] ++ d) st
          = (st1, HandleExit.DeviceLoop dev) ∧
        dev.ID = d ∧ dev.Conn = conn ∧ st1.world.registry.Get d = some dev) ∧
    (atCmd.Param = cfg.AuthToken ++ [0x2B] ++ d → env.writeFails st.replyCount = false →
      ∀ dev, st.world.registry.Get d = some dev → dev.InSession = false →
        ∃ st1 sess, handleClient cfg env conn reader atCmd st
            = (st1, HandleExit.Bridge sess (dev.SetSession sess.ID)) ∧
          sess.DeviceID = d ∧ sess.ClientConn = conn ∧ sess.DeviceConn = dev.Conn) := by
  have hp := parseToken_accepts cfg.AuthToken d ht hplus hd
  refine ⟨hp, ?_, ?_⟩
  · intro hw
    obtain ⟨st1, dev, hdev, -, -, hreg, heq⟩ :=
      handleDevice_accept cfg env conn reader _ st d hp
    rw [hw] at heq
    refine ⟨_, dev, heq, by rw [hdev], by rw [hdev], ?_⟩
    rw [(dialAfterReg_events env conn (reader.drop env.buffered) st1).1, hreg]
    have hid : dev.ID = d := by rw [hdev]
    unfold Registry.Get Registry.Register
    rw [hid]
    exact SyncMap.Load_Store_self _ _ _
  · intro hparam hw dev hg hb
    rw [← hparam] at hp
    obtain ⟨st1, -, -, -, heq⟩ := handleClient_accept cfg env conn reader atCmd st d dev hp hg hb
    rw [hw] at heq
    exact ⟨_, _, heq, rfl, rfl, rfl⟩

/-- With the AuthToken "tok" and the device id "dev1", on a connection 7 whose writes succeed
and with nothing registered, the hypotheses of `parseToken_accepts_well_formed` hold. -/
theorem parseToken_accepts_well_formed_witness :
    parseToken [0x74, 0x6F, 0x6B] ([0x74, 0x6F, 0x6B] ++ [0x2B] ++ [0x64, 0x65, 0x76, 0x31])
      = some [0x64, 0x65, 0x76, 0x31] :=
  (parseToken_accepts_well_formed
      { AuthToken := [0x74, 0x6F, 0x6B], InitTimeout := 0, PostConnectTimeout := 0,
        IdleTimeout := 0, Debug := false }
      { since := fun _ _ => 0, writeFails := fun _ => false, buffered := 0, unix := 0, now := 0 }
      7 [] [0x64, 0x65, 0x76, 0x31]
      { Cmd := CmdConnect, Param := [], Skipped := [], USRVCOMCfg := none }
      { world := { registry := NewRegistry, sessions := NewManager false 0 }, events := [] }
      (by decide) (by decide) (by decide)).1

/-- Claim C13, counterexample: with the non-empty AuthToken "a+b" and the non-empty device id
"dev", the parameter "a+b+dev" is cut at its first '+', the part "a" is not the token, and no id
is derived: `handleDevice` and `handleClient` answer ERROR and return. -/
theorem parseToken_accepts_counterexample :
    parseToken [0x61, 0x2B, 0x62] ([0x61, 0x2B, 0x62] ++ [0x2B] ++ [0x64, 0x65, 0x76]) = none ∧
    handleDevice
        { AuthToken := [0x61, 0x2B, 0x62], InitTimeout := 0, PostConnectTimeout := 0,
          IdleTimeout := 0, Debug := false }
        { since := fun _ _ => 0, writeFails := fun _ => false, buffered := 0, unix := 0,
          now := 0 }
        7 [] ([0x61, 0x2B, 0x62] ++ [0x2B] ++ [0x64, 0x65, 0x76])
        { world := { registry := NewRegistry, sessions := NewManager false 0 }, events := [] }
      = ({ world := { registry := NewRegistry, sessions := NewManager false 0 },
           events := [HandlerEvent.Reply 7 RespError] }, HandleExit.Returned) ∧
    handleClient
        { AuthToken := [0x61, 0x2B, 0x62], InitTimeout := 0, PostConnectTimeout := 0,
          IdleTimeout := 0, Debug := false }
        { since := fun _ _ => 0, writeFails := fun _ => false, buffered := 0, unix := 0,
          now := 0 }
        7 []
        { Cmd := CmdConnect, Param := [0x61, 0x2B, 0x62] ++ [0x2B] ++ [0x64, 0x65, 0x76],
          Skipped := [], USRVCOMCfg := none }
        { world :=
            { registry := NewRegistry.Register
                { ID := [0x64, 0x65, 0x76], Conn := 3, RegisteredAt := 0, InSession := false,
                  SessionID := [], StopKeepalive := some false },
              sessions := NewManager false 0 },
          events := [] }
      = ({ world :=
            { registry := NewRegistry.Register
                { ID := [0x64, 0x65, 0x76], Conn := 3, RegisteredAt := 0, InSession := false,
                  SessionID := [], StopKeepalive := some false },
              sessions := NewManager false 0 },
           events := [HandlerEvent.Reply 7 RespError] }, HandleExit.Returned) := by
  decide

/-- Claim C14, amended: an ERROR is only ever the last reply, and no ERROR follows the OK that
accepts an AT+REG or an AT+CONNECT. For every sequence of bytes a peer sends on one connection
and every state of the registry and the sessions, `Handle` comes to an end (it returns, or
reaches the device loop or the bridge), and the AT-layer replies it has written are either OK
lines only, or OK lines followed by exactly one final ERROR line; in the second case `Handle`
has returned and has changed neither the registry nor the sessions, so that every OK before
the ERROR answers an ATDT or ATDP. The device path writes ERROR alone, or one OK, or two; the
client path writes ERROR alone or one OK. -/
theorem Handle_replies_shape (cfg : Config) (env : HandleEnv) (conn : Nat) (input : List Byte)
    (world : World) :
    (∃ st exit, Handle cfg env conn input world = some (st, exit) ∧
      ((∃ n, replies st.events = List.replicate n RespOK ++ [RespError] ∧
          exit = HandleExit.Returned ∧ st.world = world) ∨
        ∃ n, replies st.events = List.replicate n RespOK)) ∧
    (∀ reader token st,
      handleDevice cfg env conn reader token st =
        ({ st with events := st.events ++ [HandlerEvent.Reply conn RespError] },
          HandleExit.Returned) ∨
      ∃ new, (handleDevice cfg env conn reader token st).1.events = st.events ++ new ∧
        (replies new = [RespOK] ∨ replies new = [RespOK, RespOK])) ∧
    (∀ reader atCmd st,
      handleClient cfg env conn reader atCmd st =
        ({ st with events := st.events ++ [HandlerEvent.Reply conn RespError] },
          HandleExit.Returned) ∨
      ∃ new, (handleClient cfg env conn reader atCmd st).1.events = st.events ++ new ∧
        replies new = [RespOK]) := by
  refine ⟨?_, handleDevice_outcome cfg env conn, handleClient_outcome cfg env conn⟩
  obtain ⟨st1, exit, h1, n, h2⟩ := handleLoop_replies cfg env conn (input.length + 1) 0 input
    none cfg.InitTimeout { world := world, events := [] } (by omega)
  have hnil : replies ([] : List HandlerEvent) = [] := rfl
  simp only [hnil, List.nil_append] at h2
  unfold Handle
  rw [h1]
  cases exit with
  | Returned =>
    refine ⟨_, _, rfl, ?_⟩
    have hr : replies (st1.events ++ [HandlerEvent.CloseConn conn]) = replies st1.events := by
      rw [replies_append]; simp [replies]
    rcases h2 with ⟨h2, -, h4⟩ | h2
    · exact Or.inl ⟨n, by rw [← h2]; exact hr, rfl, h4⟩
    · exact Or.inr ⟨n, by rw [← h2]; exact hr⟩
  | DeviceLoop dev =>
    refine ⟨st1, _, rfl, ?_⟩
    rcases h2 with ⟨-, h3, -⟩ | h2
    · cases h3
    · exact Or.inr ⟨n, h2⟩
  | Bridge sess dev =>
    refine ⟨st1, _, rfl, ?_⟩
    rcases h2 with ⟨-, h3, -⟩ | h2
    · cases h3
    · exact Or.inr ⟨n, h2⟩

/-- A peer sends "ATDT", CR LF, "AT+REG=dev1", CR LF on connection 7, with no AuthToken
configured and nothing registered; `Handle_replies_shape` gives the shape of the replies. -/
theorem Handle_replies_shape_witness :
    ∃ st exit, Handle
        { AuthToken := [], InitTimeout := 0, PostConnectTimeout := 0, IdleTimeout := 0,
          Debug := false }
        { since := fun _ _ => 0, writeFails := fun _ => false, buffered := 0, unix := 0,
          now := 0 }
        7 ([0x41, 0x54, 0x44, 0x54] ++ [CR, LF] ++
            [0x41, 0x54, 0x2B, 0x52, 0x45, 0x47, 0x3D, 0x64, 0x65, 0x76, 0x31] ++ [CR, LF])
        { registry := NewRegistry, sessions := NewManager false 0 } = some (st, exit) ∧
      ((∃ n, replies st.events = List.replicate n RespOK ++ [RespError] ∧
          exit = HandleExit.Returned ∧
          st.world = { registry := NewRegistry, sessions := NewManager false 0 }) ∨
        ∃ n, replies st.events = List.replicate n RespOK) :=
  (Handle_replies_shape
    { AuthToken := [], InitTimeout := 0, PostConnectTimeout := 0, IdleTimeout := 0,
      Debug := false }
    { since := fun _ _ => 0, writeFails := fun _ => false, buffered := 0, unix := 0, now := 0 }
    7 ([0x41, 0x54, 0x44, 0x54] ++ [CR, LF] ++
        [0x41, 0x54, 0x2B, 0x52, 0x45, 0x47, 0x3D, 0x64, 0x65, 0x76, 0x31] ++ [CR, LF])
    { registry := NewRegistry, sessions := NewManager false 0 }).1

/-- Claim C14, counterexample: a peer sends "ATDT", CR LF, "ATZ", CR LF on one connection, with
nothing registered. `Handle` answers the dial command with OK, then the unknown command with
ERROR, and returns: the replies are OK, ERROR. -/
theorem Handle_replies_counterexample :
    (Handle
        { AuthToken := [], InitTimeout := 0, PostConnectTimeout := 0, IdleTimeout := 0,
          Debug := false }
        { since := fun _ _ => 0, writeFails := fun _ => false, buffered := 0, unix := 0,
          now := 0 }
        7 ([0x41, 0x54, 0x44, 0x54] ++ [CR, LF] ++ [0x41, 0x54, 0x5A] ++ [CR, LF])
        { registry := NewRegistry, sessions := NewManager false 0 }).map
      (fun r => (replies r.1.events, r.2))
      = some ([RespOK, RespError], HandleExit.Returned) := by
  decide

/-- Claim C15: a busy device rejects a second client without side effects. When the parameter
of AT+CONNECT derives the id of a registered device whose busy flag is set, `handleClient`
returns having written exactly one ERROR reply to the client and nothing else (nothing to the
device), with the sessions and the registry unchanged; the entry of the device is the same
device, with its busy flag and its SessionID. -/
theorem handleClient_busy_device (cfg : Config) (env : HandleEnv) (conn : Nat)
    (reader : List Byte) (atCmd : ATCommand) (st : HandleState) (deviceID : List Byte)
    (dev : Device)
    (hp : parseToken cfg.AuthToken atCmd.Param = some deviceID)
    (hg : st.world.registry.Get deviceID = some dev) (hb : dev.IsInSession = true) :
    ∃ st1, handleClient cfg env conn reader atCmd st = (st1, HandleExit.Returned) ∧
      st1.events = st.events ++ [HandlerEvent.Reply conn RespError] ∧
      st1.world.sessions = st.world.sessions ∧
      st1.world.registry = st.world.registry ∧
      st1.world.registry.Get deviceID = some dev := by
  have hb2 : dev.InSession = true := by simpa [Device.IsInSession] using hb
  exact ⟨_, handleClient_reject cfg env conn reader atCmd st
    (Or.inr ⟨deviceID, hp, Or.inr ⟨dev, hg, hb2⟩⟩), rfl, rfl, rfl, hg⟩

/-- The device "dev1" on connection 3 is registered and in the session "s"; a client on
connection 7 sends AT+CONNECT=dev1 (no AuthToken is configured). The hypotheses of
`handleClient_busy_device` hold. -/
theorem handleClient_busy_device_witness :
    ∃ st1, handleClient
        { AuthToken := [], InitTimeout := 0, PostConnectTimeout := 0, IdleTimeout := 0,
          Debug := false }
        { since := fun _ _ => 0, writeFails := fun _ => false, buffered := 0, unix := 0,
          now := 0 }
        7 []
        { Cmd := CmdConnect, Param := [0x64, 0x65, 0x76, 0x31], Skipped := [],
          USRVCOMCfg := none }
        { world :=
            { registry := NewRegistry.Register
                { ID := [0x64, 0x65, 0x76, 0x31], Conn := 3, RegisteredAt := 0,
                  InSession := true, SessionID := [0x73], StopKeepalive := some false },
              sessions := NewManager false 0 },
          events := [] } = (st1, HandleExit.Returned) ∧
      st1.events = [] ++ [HandlerEvent.Reply 7 RespError] ∧
      st1.world.sessions = NewManager false 0 ∧
      st1.world.registry = NewRegistry.Register
        { ID := [0x64, 0x65, 0x76, 0x31], Conn := 3, RegisteredAt := 0,
          InSession := true, SessionID := [0x73], StopKeepalive := some false } ∧
      st1.world.registry.Get [0x64, 0x65, 0x76, 0x31] = some
        { ID := [0x64, 0x65, 0x76, 0x31], Conn := 3, RegisteredAt := 0,
          InSession := true, SessionID := [0x73], StopKeepalive := some false } :=
  handleClient_busy_device
    { AuthToken := [], InitTimeout := 0, PostConnectTimeout := 0, IdleTimeout := 0,
      Debug := false }
    { since := fun _ _ => 0, writeFails := fun _ => false, buffered := 0, unix := 0, now := 0 }
    7 []
    { Cmd := CmdConnect, Param := [0x64, 0x65, 0x76, 0x31], Skipped := [], USRVCOMCfg := none }
    { world :=
        { registry := NewRegistry.Register
            { ID := [0x64, 0x65, 0x76, 0x31], Conn := 3, RegisteredAt := 0,
              InSession := true, SessionID := [0x73], StopKeepalive := some false },
          sessions := NewManager false 0 },
      events := [] }
    [0x64, 0x65, 0x76, 0x31]
    { ID := [0x64, 0x65, 0x76, 0x31], Conn := 3, RegisteredAt := 0,
      InSession := true, SessionID := [0x73], StopKeepalive := some false }
    (by decide) (by decide) (by decide)

/-! ### The USR-VCOM header test (C21) -/

/-- Claim C21: IsUSRVCOM is true exactly of the sequences of at least 3 bytes whose first three
bytes are 55 AA 55. It is false for the empty sequence, for every sequence of fewer than 3
bytes, and for every sequence that does not start with 55 AA 55, also when 55 AA 55 stands at
a later offset `i`. -/
theorem IsUSRVCOM_iff (d : List Byte) :
    (IsUSRVCOM d = true ↔ 3 ≤ d.length ∧ d.take 3 = [0x55, 0xAA, 0x55]) ∧
    IsUSRVCOM [] = false ∧
    (d.length < 3 → IsUSRVCOM d = false) ∧
    (∀ i, 0 < i → (d.drop i).take 3 = [0x55, 0xAA, 0x55] → d.take 3 ≠ [0x55, 0xAA, 0x55] →
      IsUSRVCOM d = false) := by
  have key : IsUSRVCOM d = true ↔ 3 ≤ d.length ∧ d.take 3 = [0x55, 0xAA, 0x55] := by
    unfold IsUSRVCOM USRVCOMHeaderLen
    match d with
    | [] => simp
    | [a] => simp
    | [a, b] => simp
    | a :: b :: c :: rest => simp
  refine ⟨key, by decide, ?_, ?_⟩
  · intro h
    cases hv : IsUSRVCOM d with
    | false => rfl
    | true => have := (key.mp hv).1; omega
  · intro i _ _ h0
    cases hv : IsUSRVCOM d with
    | false => rfl
    | true => exact absurd (key.mp hv).2 h0

/-- The sequence 00 55 AA 55 00 25 80 03 A8 carries 55 AA 55 at offset 1 only, which are the
hypotheses of the last part of `IsUSRVCOM_iff`: IsUSRVCOM is false of it. -/
theorem IsUSRVCOM_iff_witness :
    IsUSRVCOM [0x00, 0x55, 0xAA, 0x55, 0x00, 0x25, 0x80, 0x03, 0xA8] = false :=
  (IsUSRVCOM_iff [0x00, 0x55, 0xAA, 0x55, 0x00, 0x25, 0x80, 0x03, 0xA8]).2.2.2 1
    (by decide) (by decide) (by decide)

/-! ### Translated items and queries (C26) -/

theorem ParseUSRVCOM_some_first_header (d : List Byte) (c : USRVCOMConfig)
    (h : ParseUSRVCOM d = some c) :
    ∃ i, USRVCOMHeaderAt d i ∧ ∀ j, j < i → ¬ USRVCOMHeaderAt d j := by
  unfold ParseUSRVCOM at h
  by_cases hlen : d.length < USRVCOMPacketLen
  · rw [if_pos hlen] at h; cases h
  · rw [if_neg hlen] at h
    cases hf : findUSRVCOMHeader d d.length 0 with
    | none => rw [hf] at h; cases h
    | some k =>
      obtain ⟨-, h1, h2⟩ := findUSRVCOMHeader_some d d.length 0 k hf
      exact ⟨k, h1, fun j hj => h2 j (Nat.zero_le _) hj⟩

/-- Claim C26, amended: the items translated from a USR-VCOM frame are settings, not queries,
except the parity item of a frame whose parity is None. For every config `c` returned by
ParseUSRVCOM whose baud rate is non-zero, ToRFC2217Commands gives four items; IsQuery is false
for the baud-rate, data-size and stop-size items, for every value the frame can encode; for the
parity item (opcode 3, payload the Parity of `c`) IsQuery is false for Odd, Even, Mark and
Space and true for None: it is true exactly when the Parity is 0, which is when bit 3 of the
parameter byte of the frame is clear. -/
theorem ToRFC2217Commands_IsQuery (d : List Byte) (c : USRVCOMConfig)
    (h : ParseUSRVCOM d = some c) (hb : c.BaudRate ≠ 0) :
    ∃ b s p t, c.ToRFC2217Commands = [b, s, p, t] ∧
      b.IsQuery = false ∧ s.IsQuery = false ∧ t.IsQuery = false ∧
      p = { Command := SetParity, Data := [c.Parity] } ∧
      (p.IsQuery = true ↔ c.Parity = 0) ∧
      ∃ i, USRVCOMHeaderAt d i ∧ (∀ j, j < i → ¬ USRVCOMHeaderAt d j) ∧
        (c.Parity = 0 ↔ (d.getD (i + 6) 0).val.testBit 3 = false) := by
  obtain ⟨i, hi, hmin⟩ := ParseUSRVCOM_some_first_header d c h
  obtain ⟨c2, hc2, hbaud, hdb, hsb, hpar, -, hvalid⟩ := ParseUSRVCOM_of_first_header d i hi hmin
  rw [h] at hc2
  injection hc2 with hc2
  subst hc2
  refine ⟨_, _, _, _, ToRFC2217Commands_of_valid c hvalid, ?_, ?_, ?_, rfl, ?_, i, hi, hmin, ?_⟩
  · rw [hbaud, putUint32_of_three_bytes]
    simp only [RFC2217Command.IsQuery, SetBaudrate, if_true, List.length_cons, List.length_nil,
      ge_iff_le, Nat.reduceLeDiff, List.take_succ_cons, List.take_zero, bigEndianUint32_eq,
      decide_eq_false_iff_not]
    rw [hbaud] at hb
    simp only [Fin.val_zero] 
    omega
  · have hne : c.DataBits ≠ 0 := by
      intro h0
      rw [h0] at hdb
      simp only [Fin.val_zero] at hdb
      omega
    simp [RFC2217Command.IsQuery, SetBaudrate, SetDatasize, hne]
  · have hne : c.StopBits ≠ 0 := by
      intro h0
      rw [h0] at hsb
      split at hsb <;> simp at hsb
    simp [RFC2217Command.IsQuery, SetBaudrate, SetDatasize, SetParity, SetStopsize, hne]
  · simp [RFC2217Command.IsQuery, SetBaudrate, SetDatasize, SetParity]
  · constructor
    · intro h0
      rw [h0] at hpar
      by_cases hbit : (d.getD (i + 6) 0).val.testBit 3 = true
      · rw [if_pos hbit] at hpar
        simp at hpar
        omega
      · simpa using hbit
    · intro hbit
      rw [hbit] at hpar
      simp only [Bool.false_eq_true, if_false] at hpar
      exact Fin.ext hpar

/-- The frame 55 AA 55 00 25 80 03 A8 (9600 baud, 8 data bits, parity disabled, one stop bit)
satisfies the hypotheses of `ToRFC2217Commands_IsQuery`; its Parity is 0. -/
theorem ToRFC2217Commands_IsQuery_witness :
    ∃ b s p t,
      ({ BaudRate := 9600, DataBits := 8, Parity := 0, StopBits := 1, Valid := true,
         RawData := [0x55, 0xAA, 0x55, 0x00, 0x25, 0x80, 0x03, 0xA8] }
        : USRVCOMConfig).ToRFC2217Commands = [b, s, p, t] ∧
      b.IsQuery = false ∧ s.IsQuery = false ∧ t.IsQuery = false ∧
      p = { Command := SetParity, Data := [0] } ∧
      (p.IsQuery = true ↔ (0 : Byte) = 0) ∧
      ∃ i, USRVCOMHeaderAt [0x55, 0xAA, 0x55, 0x00, 0x25, 0x80, 0x03, 0xA8] i ∧
        (∀ j, j < i → ¬ USRVCOMHeaderAt [0x55, 0xAA, 0x55, 0x00, 0x25, 0x80, 0x03, 0xA8] j) ∧
        ((0 : Byte) = 0 ↔
          (([0x55, 0xAA, 0x55, 0x00, 0x25, 0x80, 0x03, 0xA8] : List Byte).getD (i + 6)
            0).val.testBit 3 = false) :=
  ToRFC2217Commands_IsQuery [0x55, 0xAA, 0x55, 0x00, 0x25, 0x80, 0x03, 0xA8]
    { BaudRate := 9600, DataBits := 8, Parity := 0, StopBits := 1, Valid := true,
      RawData := [0x55, 0xAA, 0x55, 0x00, 0x25, 0x80, 0x03, 0xA8] }
    (by decide) (by decide)

/-- Claim C26, counterexample: the frame 55 AA 55 00 25 80 03 A8 (9600 baud, 8N1, checksum
correct) is parsed with a non-zero baud rate and translated to the items (1, 00 00 25 80),
(2, 08), (3, 00), (4, 01); IsQuery is true for the parity item (3, 00). -/
theorem ToRFC2217Commands_IsQuery_counterexample :
    ∃ c, ParseUSRVCOM [0x55, 0xAA, 0x55, 0x00, 0x25, 0x80, 0x03, 0xA8] = some c ∧
      c.BaudRate = 9600 ∧
      c.ToRFC2217Commands =
        [{ Command := 1, Data := [0x00, 0x00, 0x25, 0x80] }, { Command := 2, Data := [0x08] },
         { Command := 3, Data := [0x00] }, { Command := 4, Data := [0x01] }] ∧
      c.ToRFC2217Commands.map RFC2217Command.IsQuery = [false, false, true, false] :=
  ⟨_, rfl, by decide, by decide, by decide⟩

/-! ### Totality of the RFC 2217 parser (C30) -/

theorem getElem?_eq_some_getD (data : List Byte) (i : Nat) (h : i < data.length) :
    data[i]? = some (data.getD i 0) := by
  rw [List.getD_eq_getElem?_getD, List.getElem?_eq_getElem h]
  rfl

theorem isHeaderChecked_eq (data : List Byte) (i : Nat) (h : i + 2 < data.length) :
    isHeaderChecked data i = some (decide (data.getD i 0 = IAC ∧ data.getD (i + 1) 0 = SB ∧
      i + 2 < data.length ∧ data.getD (i + 2) 0 = ComPortOption)) := by
  unfold isHeaderChecked
  rw [getElem?_eq_some_getD data i (by omega), getElem?_eq_some_getD data (i + 1) (by omega),
    getElem?_eq_some_getD data (i + 2) h]
  simp only []
  by_cases h1 : data.getD i 0 = IAC
  · rw [if_pos h1]
    by_cases h2 : data.getD (i + 1) 0 = SB
    · rw [if_pos h2, if_pos h]
      by_cases h3 : data.getD (i + 2) 0 = ComPortOption
      · rw [decide_eq_true h3, decide_eq_true (⟨h1, h2, h, h3⟩ : _ ∧ _ ∧ _ ∧ _)]
      · rw [decide_eq_false h3, decide_eq_false (fun hh : _ ∧ _ ∧ _ ∧ _ => h3 hh.2.2.2)]
    · rw [if_neg h2, decide_eq_false (fun hh : _ ∧ _ ∧ _ ∧ _ => h2 hh.2.1)]
  · rw [if_neg h1, decide_eq_false (fun hh : _ ∧ _ ∧ _ ∧ _ => h1 hh.1)]

theorem findIACSEChecked_eq (data : List Byte) :
    ∀ (fuel j : Nat), data.length ≤ fuel + j + 1 →
      findIACSEChecked data fuel j = some (findIACSE data fuel j) := by
  intro fuel
  induction fuel with
  | zero =>
    intro j h
    simp only [findIACSEChecked, findIACSE]
    rw [if_neg (by omega)]
  | succ fuel ih =>
    intro j h
    simp only [findIACSEChecked, findIACSE]
    by_cases hj : j + 1 < data.length
    · rw [if_pos hj, if_pos hj, getElem?_eq_some_getD data j (by omega),
        getElem?_eq_some_getD data (j + 1) hj]
      simp only []
      by_cases h1 : data.getD j 0 = IAC
      · rw [if_pos h1]
        by_cases h2 : data.getD (j + 1) 0 = SE
        · rw [if_pos h2, if_pos ⟨h1, h2⟩]
        · rw [if_neg h2, if_neg (fun hh : _ ∧ _ => h2 hh.2)]
          exact ih (j + 1) (by omega)
      · rw [if_neg h1, if_neg (fun hh : _ ∧ _ => h1 hh.1)]
        exact ih (j + 1) (by omega)
    · rw [if_neg hj, if_neg hj]

theorem findIACSE_some (data : List Byte) :
    ∀ (fuel j e : Nat), findIACSE data fuel j = some e →
      j ≤ e ∧ e + 1 < data.length ∧ data.getD e 0 = IAC ∧ data.getD (e + 1) 0 = SE ∧
      ∀ k, j ≤ k → k < e → ¬ (data.getD k 0 = IAC ∧ data.getD (k + 1) 0 = SE) := by
  intro fuel
  induction fuel with
  | zero => intro j e h; simp [findIACSE] at h
  | succ fuel ih =>
    intro j e h
    simp only [findIACSE] at h
    by_cases hj : j + 1 < data.length
    · rw [if_pos hj] at h
      by_cases h1 : data.getD j 0 = IAC ∧ data.getD (j + 1) 0 = SE
      · rw [if_pos h1] at h
        injection h with h
        subst h
        exact ⟨le_refl _, hj, h1.1, h1.2, fun k hk1 hk2 => by omega⟩
      · rw [if_neg h1] at h
        obtain ⟨g1, g2, g3, g4, g5⟩ := ih (j + 1) e h
        refine ⟨by omega, g2, g3, g4, ?_⟩
        intro k hk1 hk2
        by_cases hk : k = j
        · subst hk; exact h1
        · exact g5 k (by omega) hk2
    · rw [if_neg hj] at h
      cases h

theorem parseRFC2217LoopChecked_eq (data : List Byte) :
    ∀ (fuel i : Nat) (commands : List RFC2217Command), data.length ≤ fuel + i + 2 →
      parseRFC2217LoopChecked data fuel i commands
        = some (parseRFC2217Loop data fuel i commands) := by
  intro fuel
  induction fuel with
  | zero =>
    intro i commands h
    simp only [parseRFC2217LoopChecked, parseRFC2217Loop]
    rw [if_neg (by omega)]
  | succ fuel ih =>
    intro i commands h
    simp only [parseRFC2217LoopChecked, parseRFC2217Loop]
    by_cases hi : i + 2 < data.length
    · rw [if_pos hi, if_pos hi, isHeaderChecked_eq data i hi]
      by_cases hh : data.getD i 0 = IAC ∧ data.getD (i + 1) 0 = SB ∧ i + 2 < data.length ∧
          data.getD (i + 2) 0 = ComPortOption
      · rw [if_pos hh, decide_eq_true hh]
        simp only []
        rw [findIACSEChecked_eq data data.length (i + 3) (by omega)]
        cases hf : findIACSE data data.length (i + 3) with
        | none =>
          simp only []
          exact ih (i + 1) commands (by omega)
        | some e =>
          obtain ⟨g1, g2, -, -, -⟩ := findIACSE_some data data.length (i + 3) e hf
          simp only []
          by_cases he : e > i + 3
          · rw [if_pos he, if_pos he, if_pos ⟨by omega, by omega⟩]
            have hlen : ((data.drop (i + 3)).take (e - (i + 3))).length = e - (i + 3) := by
              rw [List.length_take, List.length_drop]
              omega
            have hge : ((data.drop (i + 3)).take (e - (i + 3))).length ≥ 1 := by
              rw [hlen]; omega
            rw [if_pos hge, if_pos hge,
              getElem?_eq_some_getD _ 0 (by omega)]
            simp only []
            exact ih (e + 2) _ (by omega)
          · rw [if_neg he, if_neg he]
            exact ih (i + 1) commands (by omega)
      · rw [if_neg hh, decide_eq_false hh]
        simp only []
        exact ih (i + 1) commands (by omega)
    · rw [if_neg hi, if_neg hi]

theorem parseRFC2217Loop_items (data : List Byte) :
    ∀ (fuel i : Nat) (commands : List RFC2217Command),
      (∀ c ∈ commands, ∃ i e, RFC2217ItemAt data c i e) →
      ∀ c ∈ parseRFC2217Loop data fuel i commands, ∃ i e, RFC2217ItemAt data c i e := by
  intro fuel
  induction fuel with
  | zero => intro i commands h; simpa [parseRFC2217Loop] using h
  | succ fuel ih =>
    intro i commands h
    simp only [parseRFC2217Loop]
    by_cases hi : i + 2 < data.length
    · rw [if_pos hi]
      by_cases hh : data.getD i 0 = IAC ∧ data.getD (i + 1) 0 = SB ∧ i + 2 < data.length ∧
          data.getD (i + 2) 0 = ComPortOption
      · rw [if_pos hh]
        cases hf : findIACSE data data.length (i + 3) with
        | none => exact ih (i + 1) commands h
        | some e =>
          obtain ⟨g1, g2, g3, g4, g5⟩ := findIACSE_some data data.length (i + 3) e hf
          dsimp only
          by_cases he : e > i + 3
          · rw [if_pos he]
            have hlen : ((data.drop (i + 3)).take (e - (i + 3))).length = e - (i + 3) := by
              rw [List.length_take, List.length_drop]
              omega
            have hge : ((data.drop (i + 3)).take (e - (i + 3))).length ≥ 1 := by
              rw [hlen]; omega
            rw [if_pos hge]
            apply ih (e + 2)
            intro c hc
            rcases List.mem_append.mp hc with hc | hc
            · exact h c hc
            · rw [List.mem_singleton] at hc
              subst hc
              refine ⟨i, e, he, g2, hh.1, hh.2.1, hh.2.2.2, g3, g4, g5, ?_⟩
              simp only []
              generalize hx : (data.drop (i + 3)).take (e - (i + 3)) = x at hge
              cases x with
              | nil => simp at hge
              | cons a x => simp
          · rw [if_neg he]
            exact ih (i + 1) commands h
      · rw [if_neg hh]
        exact ih (i + 1) commands h
    · rw [if_neg hi]
      exact h

/-- Claim C30: ParseRFC2217Commands is total on arbitrary input. For every byte sequence, the
scan with every index and slice bound checked ends within `len(data)` iterations without any
index or bound out of range, with the result of ParseRFC2217Commands; every returned command's
opcode and payload are a contiguous, non-empty part of the input lying between a header
FF FA 2C and the first FF F0 that follows it; so an input of fewer than 6 bytes (the empty one,
those of length 1 or 2, a bare header), an unterminated header and an item with an empty body
give no command. -/
theorem ParseRFC2217Commands_total (data : List Byte) :
    ParseRFC2217CommandsChecked data = some (ParseRFC2217Commands data) ∧
    (∀ c ∈ (ParseRFC2217Commands data).Commands, ∃ i e, RFC2217ItemAt data c i e) ∧
    (data.length < 6 → (ParseRFC2217Commands data).Commands = []) ∧
    (ParseRFC2217Commands []).Commands = [] ∧
    (ParseRFC2217Commands [0xFF, 0xFA, 0x2C, 0x01, 0x00, 0x00, 0x25, 0x80]).Commands = [] ∧
    (ParseRFC2217Commands [0xFF, 0xFA, 0x2C, 0xFF, 0xF0]).Commands = [] := by
  have hitems : ∀ c ∈ (ParseRFC2217Commands data).Commands, ∃ i e, RFC2217ItemAt data c i e :=
    parseRFC2217Loop_items data data.length 0 [] (fun c hc => by simp at hc)
  refine ⟨?_, hitems, ?_, by decide, by decide, by decide⟩
  · unfold ParseRFC2217CommandsChecked ParseRFC2217Commands
    rw [parseRFC2217LoopChecked_eq data data.length 0 [] (by omega)]
    rfl
  · intro hlen
    cases hc : (ParseRFC2217Commands data).Commands with
    | nil => rfl
    | cons c cs =>
      obtain ⟨i, e, h1, h2, -⟩ := hitems c (by rw [hc]; exact List.mem_cons_self _ _)
      omega

/-- The input FF FA 2C 01 00 00 25 80 FF F0 FF FA 2C holds one item and an unterminated header:
the checked scan gives the command (1, 00 00 25 80), which `ParseRFC2217Commands_total` places
between the header at index 0 and the FF F0 at index 8. -/
theorem ParseRFC2217Commands_total_witness :
    ParseRFC2217CommandsChecked
        [0xFF, 0xFA, 0x2C, 0x01, 0x00, 0x00, 0x25, 0x80, 0xFF, 0xF0, 0xFF, 0xFA, 0x2C]
      = some { Commands := [{ Command := 1, Data := [0x00, 0x00, 0x25, 0x80] }],
               RawData :=
                 [0xFF, 0xFA, 0x2C, 0x01, 0x00, 0x00, 0x25, 0x80, 0xFF, 0xF0, 0xFF, 0xFA,
                   0x2C] } ∧
    ∃ i e, RFC2217ItemAt
      [0xFF, 0xFA, 0x2C, 0x01, 0x00, 0x00, 0x25, 0x80, 0xFF, 0xF0, 0xFF, 0xFA, 0x2C]
      { Command := 1, Data := [0x00, 0x00, 0x25, 0x80] } i e :=
  ⟨by decide,
   (ParseRFC2217Commands_total
      [0xFF, 0xFA, 0x2C, 0x01, 0x00, 0x00, 0x25, 0x80, 0xFF, 0xF0, 0xFF, 0xFA, 0x2C]).2.1
      { Command := 1, Data := [0x00, 0x00, 0x25, 0x80] } (by decide)⟩

/-! ### One line of input with bytes before it -/

theorem containsAT_of_not_mem (p : List Byte) (h : chA ∉ p) : containsAT p = false := by
  induction p with
  | nil => rfl
  | cons a rest ih =>
    have ha : a ≠ chA := fun e => h (e ▸ List.mem_cons_self _ _)
    have hr : chA ∉ rest := fun e => h (List.mem_cons_of_mem _ e)
    cases rest with
    | nil => rfl
    | cons b rest2 =>
      have ha2 : ¬ a = 0x41 := ha
      simp only [containsAT, ha2, decide_False, Bool.false_and, Bool.false_or]
      exact ih hr

theorem readLineWithSkipped_line (p L rest t : List Byte) (hpcr : CR ∉ p) (hplf : LF ∉ p)
    (hpat : containsAT p = false) (hL : L = chA :: chT :: t) (hcr : CR ∉ L) (hlf : LF ∉ L) :
    readLineWithSkipped (p ++ L ++ [CR, LF] ++ rest) = (L, p, none, rest) := by
  subst hL
  have hcr2 : CR ∉ chT :: t := fun h => hcr (List.mem_cons_of_mem _ h)
  have hlf2 : LF ∉ chT :: t := fun h => hlf (List.mem_cons_of_mem _ h)
  have hcr3 : CR ∉ t := fun h => hcr2 (List.mem_cons_of_mem _ h)
  have hlf3 : LF ∉ t := fun h => hlf2 (List.mem_cons_of_mem _ h)
  have h1 : ¬ (chA = CR ∨ chA = LF) := by decide
  have h2 : ¬ (chT = CR ∨ chT = LF) := by decide
  unfold readLineWithSkipped
  rw [List.append_assoc, List.append_assoc, readLineWithSkippedLoop_skip p hpcr hplf _ _ _
    (by simpa using containsAT_append_A p hpat)]
  rw [List.nil_append, List.cons_append, List.cons_append]
  simp only [readLineWithSkippedLoop, h1, h2, if_false, Bool.not_false, Bool.not_true,
    List.head?_cons, true_and, if_true, List.nil_append, ite_self]
  rw [readLineWithSkippedLoop_inAT t hcr3 hlf3]
  simp [readLineWithSkippedLoop]

/-- One iteration of the loop of `ReadATCommandWithPresets` that reads the bytes `p` and then
a line `L` that starts with "AT": the state with which the line is looked at. -/
theorem readATCommandLoop_line (timeout : Int) (since : Nat → Int) (fuel k : Nat)
    (p L rest t : List Byte) (usrvcomCfg : Option USRVCOMConfig) (allSkipped : List Byte)
    (conn : List ConnOp)
    (hpcr : CR ∉ p) (hplf : LF ∉ p) (hpat : containsAT p = false)
    (hL : L = chA :: chT :: t) (hcr : CR ∉ L) (hlf : LF ∉ L) (htrim : TrimSpace L = L)
    (hclock : ¬ (timeout > 0 ∧ since (2 * k) > timeout)) :
    ∃ conn1 u a,
      (p = [] → u = usrvcomCfg ∧ a = allSkipped) ∧
      (p ≠ [] → IsUSRVCOM p = false → u = usrvcomCfg ∧ a = allSkipped ++ p) ∧
      (IsUSRVCOM p = true → a = allSkipped ∧
        (ParseUSRVCOM p = none → u = usrvcomCfg) ∧
        (∀ c, ParseUSRVCOM p = some c → c.Valid = true → u = some c)) ∧
      readATCommandLoop timeout since (fuel + 1) k (p ++ L ++ [CR, LF] ++ rest) usrvcomCfg
          allSkipped conn =
        match parseATCommand L with
        | some cmd =>
          some { result := Except.ok { cmd with Skipped := a, USRVCOMCfg := u },
                 reader := rest, conn := conn1 }
        | none =>
          if u.isSome then readATCommandLoop timeout since fuel (k + 1) rest u a conn1
          else some { result := Except.error (ATError.UnknownCommand L),
                      reader := rest, conn := conn1 } := by
  have hread := readLineWithSkipped_line p L rest t hpcr hplf hpat hL hcr hlf
  have hne : L ≠ [] := by rw [hL]; simp
  simp only [readATCommandLoop]
  rw [if_neg hclock, hread]
  simp only [htrim, hne, if_false]
  refine ⟨(if timeout > 0 then
      if timeout - since (2 * k + 1) > 0 then
        conn ++ [ConnOp.SetReadDeadline (timeout - since (2 * k + 1))]
      else conn
    else conn),
    (if p.length > 0 then
      if IsUSRVCOM p = true then
        match ParseUSRVCOM p with
        | some cfg => if cfg.Valid = true then (some cfg, allSkipped) else (usrvcomCfg, allSkipped)
        | none => (usrvcomCfg, allSkipped)
      else
        if isRFC2217Data p = true then (usrvcomCfg, allSkipped ++ p)
        else (usrvcomCfg, allSkipped ++ p)
    else (usrvcomCfg, allSkipped)).1,
    (if p.length > 0 then
      if IsUSRVCOM p = true then
        match ParseUSRVCOM p with
        | some cfg => if cfg.Valid = true then (some cfg, allSkipped) else (usrvcomCfg, allSkipped)
        | none => (usrvcomCfg, allSkipped)
      else
        if isRFC2217Data p = true then (usrvcomCfg, allSkipped ++ p)
        else (usrvcomCfg, allSkipped ++ p)
    else (usrvcomCfg, allSkipped)).2, ?_, ?_, ?_, ?_⟩
  · intro hp
    subst hp
    exact ⟨rfl, rfl⟩
  · intro hp hu
    have hlen : p.length > 0 := List.length_pos.mpr hp
    rw [if_pos hlen, hu]
    simp
  · intro hu
    have hlen : p.length > 0 := by
      cases p with
      | nil => exact absurd hu (by decide)
      | cons b p2 => simp
    rw [if_pos hlen, if_pos hu]
    cases hc : ParseUSRVCOM p with
    | none => exact ⟨rfl, fun _ => rfl, fun c h => by cases h⟩
    | some c =>
      cases hv : c.Valid with
      | true =>
        simp only [hv, if_true]
        refine ⟨trivial, ?_, ?_⟩
        · intro h; cases h
        · intro c2 h _
          injection h with h
          rw [← h]
      | false =>
        simp only [hv, Bool.false_eq_true, if_false]
        refine ⟨trivial, ?_, ?_⟩
        · intro h; cases h
        · intro c2 h hv2
          injection h with h
          rw [← h, hv] at hv2
          cases hv2
  · cases parseATCommand L <;> rfl

theorem ReadATCommandWithPresets_line (p L rest : List Byte) (cmd : ATCommand)
    (timeout : Int) (since : Nat → Int)
    (hpcr : CR ∉ p) (hplf : LF ∉ p) (hpat : containsAT p = false)
    (hacc : parseATCommand L = some cmd) (hcr : CR ∉ L) (hlf : LF ∉ L)
    (htrim : TrimSpace L = L) (hclock : ¬ (timeout > 0 ∧ since 0 > timeout)) :
    ∃ o u a, ReadATCommandWithPresets (p ++ L ++ [CR, LF] ++ rest) timeout since = some o ∧
      o.result = Except.ok { cmd with Skipped := a, USRVCOMCfg := u } ∧ o.reader = rest ∧
      (p = [] → u = none ∧ a = []) ∧
      (p ≠ [] → IsUSRVCOM p = false → u = none ∧ a = p) ∧
      (IsUSRVCOM p = true → a = [] ∧
        (ParseUSRVCOM p = none → u = none) ∧
        (∀ c, ParseUSRVCOM p = some c → c.Valid = true → u = some c)) := by
  obtain ⟨t, hL⟩ := parseATCommand_some_AT L cmd hacc
  obtain ⟨conn1, u, a, h1, h2, h3, heq⟩ := readATCommandLoop_line timeout since
    (p ++ L ++ [CR, LF] ++ rest).length 0 p L rest t none [] [] hpcr hplf hpat hL hcr hlf htrim
    hclock
  rw [hacc] at heq
  refine ⟨_, u, a, heq, rfl, rfl, h1, ?_, h3⟩
  intro hp hu
  simpa using h2 hp hu

/-! ### A frame after other bytes (C23) and an incomplete frame (C24) -/

/-- How far the loss of a frame after other bytes reaches. For every non-empty sequence `g`
containing no CR, no LF and no 'A', every 8-byte frame `f` that starts with 55 AA 55 and
contains no CR, LF or 'A', where `g` followed by `f` does not begin with 55 AA 55, and every
valid command line `L`: ParseUSRVCOM finds a frame in `g` followed by `f`, but
ReadATCommandWithPresets on `g`, `f`, `L`, CR LF does not call it and returns the command of
`L` with no USR-VCOM config and with Skipped equal to `g` followed by `f`. -/
theorem ReadATCommandWithPresets_frame_after_garbage (g f L rest : List Byte)
    (cmd : ATCommand) (timeout : Int) (since : Nat → Int)
    (hg : g ≠ []) (hgcr : CR ∉ g) (hglf : LF ∉ g) (hga : chA ∉ g)
    (hlen : f.length = 8) (hhdr : IsUSRVCOM f = true)
    (hfcr : CR ∉ f) (hflf : LF ∉ f) (hfa : chA ∉ f)
    (hstart : IsUSRVCOM (g ++ f) = false)
    (hacc : parseATCommand L = some cmd) (hcr : CR ∉ L) (hlf : LF ∉ L)
    (htrim : TrimSpace L = L) (hclock : ¬ (timeout > 0 ∧ since 0 > timeout)) :
    (∃ o, ReadATCommandWithPresets (g ++ f ++ L ++ [CR, LF] ++ rest) timeout since = some o ∧
      o.result = Except.ok { cmd with Skipped := g ++ f, USRVCOMCfg := none } ∧
      o.reader = rest) ∧
    ParseUSRVCOM (g ++ f) ≠ none := by
  have hcr2 : CR ∉ g ++ f := by simp [hgcr, hfcr]
  have hlf2 : LF ∉ g ++ f := by simp [hglf, hflf]
  have ha2 : chA ∉ g ++ f := by simp [hga, hfa]
  have hne : g ++ f ≠ [] := by simp [hg]
  obtain ⟨o, u, a, h1, h2, h3, -, h5, -⟩ := ReadATCommandWithPresets_line (g ++ f) L rest cmd
    timeout since hcr2 hlf2 (containsAT_of_not_mem _ ha2) hacc hcr hlf htrim hclock
  obtain ⟨hu, ha⟩ := h5 hne hstart
  subst hu ha
  refine ⟨⟨o, h1, h2, h3⟩, ?_⟩
  intro hnone
  have h0 := IsUSRVCOM_headerAt f hlen hhdr
  refine (ParseUSRVCOM_eq_none_iff (g ++ f)).mp hnone ⟨g.length, ?_, ?_, ?_, ?_⟩
  · simp only [List.length_append]; omega
  · rw [List.getD_append_right _ _ _ _ (le_refl _)]; simpa using h0.2.1
  · rw [List.getD_append_right _ _ _ _ (by omega)]; simpa using h0.2.2.1
  · rw [List.getD_append_right _ _ _ _ (by omega)]; simpa using h0.2.2.2

/-- The garbage byte 00 before the frame 55 AA 55 00 25 80 03 A8 (9600 8N1) and the line
"AT+CONNECT=dev1", with a timeout of 5 and a clock that stands at 0, satisfies the hypotheses
of `ReadATCommandWithPresets_frame_after_garbage`. -/
theorem ReadATCommandWithPresets_frame_after_garbage_witness :
    ∃ o, ReadATCommandWithPresets
        ([0x00] ++ [0x55, 0xAA, 0x55, 0x00, 0x25, 0x80, 0x03, 0xA8] ++
          [0x41, 0x54, 0x2B, 0x43, 0x4F, 0x4E, 0x4E, 0x45, 0x43, 0x54, 0x3D, 0x64, 0x65, 0x76,
            0x31] ++ [CR, LF] ++ []) 5 (fun _ => 0) = some o ∧
      o.result = Except.ok
        { Cmd := CmdConnect, Param := [0x64, 0x65, 0x76, 0x31],
          Skipped := [0x00] ++ [0x55, 0xAA, 0x55, 0x00, 0x25, 0x80, 0x03, 0xA8],
          USRVCOMCfg := none } ∧
      o.reader = [] :=
  (ReadATCommandWithPresets_frame_after_garbage [0x00]
      [0x55, 0xAA, 0x55, 0x00, 0x25, 0x80, 0x03, 0xA8]
      [0x41, 0x54, 0x2B, 0x43, 0x4F, 0x4E, 0x4E, 0x45, 0x43, 0x54, 0x3D, 0x64, 0x65, 0x76, 0x31]
      []
      { Cmd := CmdConnect, Param := [0x64, 0x65, 0x76, 0x31], Skipped := [], USRVCOMCfg := none }
      5 (fun _ => 0) (by decide) (by decide) (by decide) (by decide) (by decide) (by decide)
      (by decide) (by decide) (by decide) (by decide) (by decide) (by decide) (by decide)
      (by decide) (by decide)).1

/-- Claim C23, the failing input: the garbage byte 00, the frame 55 AA 55 00 25 80 03 A8 (9600
8N1, checksum correct), the valid line "AT+CONNECT=dev1" and CR LF, read with no timeout.
ParseUSRVCOM finds the frame in the nine bytes 00 55 AA 55 00 25 80 03 A8 as it does in the
frame alone, with the same fields; but IsUSRVCOM is false of the nine bytes, and
ReadATCommandWithPresets returns the command with no USR-VCOM config: the nine bytes are its
Skipped. -/
theorem ReadATCommandWithPresets_frame_after_garbage_lost :
    ParseUSRVCOM [0x55, 0xAA, 0x55, 0x00, 0x25, 0x80, 0x03, 0xA8]
      = some { BaudRate := 9600, DataBits := 8, Parity := 0, StopBits := 1, Valid := true,
               RawData := [0x55, 0xAA, 0x55, 0x00, 0x25, 0x80, 0x03, 0xA8] } ∧
    ParseUSRVCOM [0x00, 0x55, 0xAA, 0x55, 0x00, 0x25, 0x80, 0x03, 0xA8]
      = some { BaudRate := 9600, DataBits := 8, Parity := 0, StopBits := 1, Valid := true,
               RawData := [0x55, 0xAA, 0x55, 0x00, 0x25, 0x80, 0x03, 0xA8] } ∧
    IsUSRVCOM [0x00, 0x55, 0xAA, 0x55, 0x00, 0x25, 0x80, 0x03, 0xA8] = false ∧
    ReadATCommandWithPresets
        ([0x00] ++ [0x55, 0xAA, 0x55, 0x00, 0x25, 0x80, 0x03, 0xA8] ++
          [0x41, 0x54, 0x2B, 0x43, 0x4F, 0x4E, 0x4E, 0x45, 0x43, 0x54, 0x3D, 0x64, 0x65, 0x76,
            0x31] ++ [CR, LF]) 0 (fun _ => 0)
      = some { result := Except.ok
                 { Cmd := CmdConnect, Param := [0x64, 0x65, 0x76, 0x31],
                   Skipped := [0x00, 0x55, 0xAA, 0x55, 0x00, 0x25, 0x80, 0x03, 0xA8],
                   USRVCOMCfg := none },
               reader := [], conn := [] } := by
  decide

/-- Claim C24, amended: an incomplete USR-VCOM preamble is dropped. For every byte sequence `p`
that starts with 55 AA 55, has fewer than 8 bytes and contains no CR, LF or 'A', and every
valid command line `L`, ReadATCommandWithPresets on `p`, `L`, CR LF returns the command of `L`
with no USR-VCOM config attached and with an empty Skipped: the bytes of `p` are not kept. -/
theorem ReadATCommandWithPresets_incomplete_frame (p L rest : List Byte) (cmd : ATCommand)
    (timeout : Int) (since : Nat → Int)
    (hhdr : IsUSRVCOM p = true) (hlen : p.length < 8)
    (hpcr : CR ∉ p) (hplf : LF ∉ p) (hpa : chA ∉ p)
    (hacc : parseATCommand L = some cmd) (hcr : CR ∉ L) (hlf : LF ∉ L)
    (htrim : TrimSpace L = L) (hclock : ¬ (timeout > 0 ∧ since 0 > timeout)) :
    ∃ o, ReadATCommandWithPresets (p ++ L ++ [CR, LF] ++ rest) timeout since = some o ∧
      o.result = Except.ok { cmd with Skipped := [], USRVCOMCfg := none } ∧
      o.reader = rest := by
  obtain ⟨o, u, a, h1, h2, h3, -, -, h6⟩ := ReadATCommandWithPresets_line p L rest cmd
    timeout since hpcr hplf (containsAT_of_not_mem _ hpa) hacc hcr hlf htrim hclock
  have hnone : ParseUSRVCOM p = none := by
    unfold ParseUSRVCOM
    rw [if_pos (by simpa [USRVCOMPacketLen] using hlen)]
  obtain ⟨ha, hu, -⟩ := h6 hhdr
  have hu2 := hu hnone
  subst ha hu2
  exact ⟨o, h1, h2, h3⟩

/-- The five bytes 55 AA 55 00 25 before the line "ATDT", with no timeout, satisfy the
hypotheses of `ReadATCommandWithPresets_incomplete_frame`. -/
theorem ReadATCommandWithPresets_incomplete_frame_witness :
    ∃ o, ReadATCommandWithPresets
        ([0x55, 0xAA, 0x55, 0x00, 0x25] ++ [0x41, 0x54, 0x44, 0x54] ++ [CR, LF] ++ [])
        0 (fun _ => 0) = some o ∧
      o.result = Except.ok { Cmd := CmdDT, Param := [], Skipped := [], USRVCOMCfg := none } ∧
      o.reader = [] :=
  ReadATCommandWithPresets_incomplete_frame [0x55, 0xAA, 0x55, 0x00, 0x25]
    [0x41, 0x54, 0x44, 0x54] []
    { Cmd := CmdDT, Param := [], Skipped := [], USRVCOMCfg := none }
    0 (fun _ => 0) (by decide) (by decide) (by decide) (by decide) (by decide) (by decide)
    (by decide) (by decide) (by decide) (by decide)

/-- Claim C24, counterexample: the incomplete preamble 55 AA 55 00 25 before the valid line
"ATDT" and CR LF. The command comes back with an empty Skipped, not with the five bytes. -/
theorem ReadATCommandWithPresets_incomplete_counterexample :
    IsUSRVCOM [0x55, 0xAA, 0x55, 0x00, 0x25] = true ∧
    ParseUSRVCOM [0x55, 0xAA, 0x55, 0x00, 0x25] = none ∧
    ReadATCommand ([0x55, 0xAA, 0x55, 0x00, 0x25] ++ [0x41, 0x54, 0x44, 0x54] ++ [CR, LF])
      = some { result := Except.ok
                 { Cmd := CmdDT, Param := [], Skipped := [], USRVCOMCfg := none },
               reader := [], conn := [] } := by
  decide

/-! ### An unknown line that starts with "AT" (C25) -/

theorem parseATCommand_eq_none (J : List Byte)
    (h1 : ¬ (CmdReg ++ strEq) <+: J) (h2 : ¬ (CmdConnect ++ strEq) <+: J)
    (h3 : ¬ CmdDT <+: J) (h4 : ¬ CmdDP <+: J) : parseATCommand J = none := by
  have e1 : hasPrefix J (CmdReg ++ strEq) = false := by
    cases h : hasPrefix J (CmdReg ++ strEq) with
    | false => rfl
    | true => exact absurd ((hasPrefix_iff _ _).mp h) h1
  have e2 : hasPrefix J (CmdConnect ++ strEq) = false := by
    cases h : hasPrefix J (CmdConnect ++ strEq) with
    | false => rfl
    | true => exact absurd ((hasPrefix_iff _ _).mp h) h2
  have e3 : hasPrefix J CmdDT = false := by
    cases h : hasPrefix J CmdDT with
    | false => rfl
    | true => exact absurd ((hasPrefix_iff _ _).mp h) h3
  have e4 : hasPrefix J CmdDP = false := by
    cases h : hasPrefix J CmdDP with
    | false => rfl
    | true => exact absurd ((hasPrefix_iff _ _).mp h) h4
  simp [parseATCommand, e1, e2, e3, e4]

/-- Claim C25: an unrecognised line that starts with "AT" fails the read iff no USR-VCOM frame
was accepted before it. For every line `J` that starts with "AT", has none of the prefixes
"AT+REG=", "AT+CONNECT=", "ATDT", "ATDP" (and, as a line, holds no CR or LF and is unchanged by
TrimSpace), and every valid command line `L`: on `J`, CR LF, `L`, CR LF the read fails with the
unknown-command error for `J` and leaves `L`, CR LF unread; on `f`, `J`, CR LF, `L`, CR LF,
where `f` is an 8-byte USR-VCOM frame free of CR, LF and 'A', the read discards `J` and returns
the command of `L` with the config of `f` attached (the deadline not being passed at the
checks). -/
theorem ReadATCommandWithPresets_unknown_line (J tJ f L rest : List Byte) (cmd : ATCommand)
    (timeout : Int) (since : Nat → Int)
    (hJ : J = chA :: chT :: tJ)
    (hJ1 : ¬ (CmdReg ++ strEq) <+: J) (hJ2 : ¬ (CmdConnect ++ strEq) <+: J)
    (hJ3 : ¬ CmdDT <+: J) (hJ4 : ¬ CmdDP <+: J)
    (hJcr : CR ∉ J) (hJlf : LF ∉ J) (hJtrim : TrimSpace J = J)
    (hlen : f.length = 8) (hhdr : IsUSRVCOM f = true)
    (hfcr : CR ∉ f) (hflf : LF ∉ f) (hfa : chA ∉ f)
    (hacc : parseATCommand L = some cmd) (hcr : CR ∉ L) (hlf : LF ∉ L)
    (htrim : TrimSpace L = L)
    (hclock0 : ¬ (timeout > 0 ∧ since 0 > timeout))
    (hclock1 : ¬ (timeout > 0 ∧ since 2 > timeout)) :
    (∃ o, ReadATCommandWithPresets (J ++ [CR, LF] ++ L ++ [CR, LF] ++ rest) timeout since
        = some o ∧
      o.result = Except.error (ATError.UnknownCommand J) ∧
      o.reader = L ++ [CR, LF] ++ rest) ∧
    (∃ o c, ReadATCommandWithPresets (f ++ J ++ [CR, LF] ++ L ++ [CR, LF] ++ rest) timeout since
        = some o ∧
      ParseUSRVCOM f = some c ∧
      o.result = Except.ok { cmd with Skipped := [], USRVCOMCfg := some c } ∧
      o.reader = rest) := by
  have hJnone := parseATCommand_eq_none J hJ1 hJ2 hJ3 hJ4
  obtain ⟨t, hL⟩ := parseATCommand_some_AT L cmd hacc
  constructor
  · obtain ⟨conn1, u, a, h1, -, -, heq⟩ := readATCommandLoop_line timeout since
      (J ++ [CR, LF] ++ L ++ [CR, LF] ++ rest).length 0 [] J (L ++ [CR, LF] ++ rest) tJ none []
      [] (by simp) (by simp) rfl hJ hJcr hJlf hJtrim hclock0
    obtain ⟨hu, -⟩ := h1 rfl
    subst hu
    rw [hJnone] at heq
    have hin : [] ++ J ++ [CR, LF] ++ (L ++ [CR, LF] ++ rest)
        = J ++ [CR, LF] ++ L ++ [CR, LF] ++ rest := by simp
    rw [hin] at heq
    exact ⟨_, heq, rfl, rfl⟩
  · obtain ⟨c, hc, -, -, -, -, -, hvalid⟩ :=
      ParseUSRVCOM_of_first_header f 0 (IsUSRVCOM_headerAt f hlen hhdr) (fun j hj => by omega)
    obtain ⟨n, hn⟩ : ∃ n, (f ++ J ++ [CR, LF] ++ L ++ [CR, LF] ++ rest).length = n + 1 := by
      refine ⟨(f ++ J ++ [CR, LF] ++ L ++ [CR, LF] ++ rest).length - 1, ?_⟩
      simp only [List.length_append, List.length_cons, List.length_nil]
      omega
    obtain ⟨conn1, u, a, -, -, h3, heq⟩ := readATCommandLoop_line timeout since
      (n + 1) 0 f J (L ++ [CR, LF] ++ rest) tJ none []
      [] hfcr hflf (containsAT_of_not_mem _ hfa) hJ hJcr hJlf hJtrim hclock0
    obtain ⟨ha, -, hu⟩ := h3 hhdr
    have hu2 := hu c hc hvalid
    subst ha hu2
    rw [hJnone] at heq
    have hin : f ++ J ++ [CR, LF] ++ (L ++ [CR, LF] ++ rest)
        = f ++ J ++ [CR, LF] ++ L ++ [CR, LF] ++ rest := by simp
    rw [hin] at heq
    obtain ⟨conn2, u2, a2, g1, -, -, heq2⟩ := readATCommandLoop_line timeout since
      n 1 [] L rest t (some c) [] conn1 (by simp) (by simp) rfl hL hcr hlf htrim
      (by simpa using hclock1)
    obtain ⟨hu3, ha3⟩ := g1 rfl
    subst hu3 ha3
    rw [hacc] at heq2
    have hin2 : [] ++ L ++ [CR, LF] ++ rest = L ++ [CR, LF] ++ rest := by simp
    rw [hin2] at heq2
    refine ⟨{ result := Except.ok { cmd with Skipped := [], USRVCOMCfg := some c },
              reader := rest, conn := conn2 }, c, ?_, hc, rfl, rfl⟩
    unfold ReadATCommandWithPresets
    rw [hn, heq]
    simp only [Option.isSome_some, if_true]
    exact heq2

/-- The line "ATZ" before the line "ATDT", alone and after the frame 55 AA 55 00 25 80 03 A8,
with a timeout of 5 and a clock that stands at 0, satisfies the hypotheses of
`ReadATCommandWithPresets_unknown_line`. -/
theorem ReadATCommandWithPresets_unknown_line_witness :
    (∃ o, ReadATCommandWithPresets
        ([0x41, 0x54, 0x5A] ++ [CR, LF] ++ [0x41, 0x54, 0x44, 0x54] ++ [CR, LF] ++ [])
        5 (fun _ => 0) = some o ∧
      o.result = Except.error (ATError.UnknownCommand [0x41, 0x54, 0x5A]) ∧
      o.reader = [0x41, 0x54, 0x44, 0x54] ++ [CR, LF] ++ []) ∧
    (∃ o c, ReadATCommandWithPresets
        ([0x55, 0xAA, 0x55, 0x00, 0x25, 0x80, 0x03, 0xA8] ++ [0x41, 0x54, 0x5A] ++ [CR, LF] ++
          [0x41, 0x54, 0x44, 0x54] ++ [CR, LF] ++ []) 5 (fun _ => 0) = some o ∧
      ParseUSRVCOM [0x55, 0xAA, 0x55, 0x00, 0x25, 0x80, 0x03, 0xA8] = some c ∧
      o.result = Except.ok
        { Cmd := CmdDT, Param := [], Skipped := [], USRVCOMCfg := some c } ∧
      o.reader = []) :=
  ReadATCommandWithPresets_unknown_line [0x41, 0x54, 0x5A] [0x5A]
    [0x55, 0xAA, 0x55, 0x00, 0x25, 0x80, 0x03, 0xA8] [0x41, 0x54, 0x44, 0x54] []
    { Cmd := CmdDT, Param := [], Skipped := [], USRVCOMCfg := none }
    5 (fun _ => 0) (by decide) (by decide) (by decide) (by decide) (by decide) (by decide)
    (by decide) (by decide) (by decide) (by decide) (by decide) (by decide) (by decide)
    (by decide) (by decide) (by decide) (by decide) (by decide) (by decide)

/-! ### What is forwarded to the device before the bridge (C27, C28) -/

theorem writesTo_append (conn : Nat) (a b : List HandlerEvent) :
    writesTo conn (a ++ b) = writesTo conn a ++ writesTo conn b := by
  simp [writesTo, List.filterMap_append]

theorem forwardBuffered_nil (deviceConn : Nat) (st : HandleState) :
    forwardBuffered deviceConn [] st = st := by
  simp [forwardBuffered]

/-- The state in which `handleClient` reaches the bridge, when the device is registered and
idle, the OK is written and the reader holds no byte past the AT line. -/
theorem handleClient_bridge (cfg : Config) (env : HandleEnv) (conn : Nat) (reader : List Byte)
    (atCmd : ATCommand) (st : HandleState) (deviceID : List Byte) (dev : Device)
    (hp : parseToken cfg.AuthToken atCmd.Param = some deviceID)
    (hg : st.world.registry.Get deviceID = some dev) (hb : dev.InSession = false)
    (hw : env.writeFails st.replyCount = false) (hbuf : reader.take env.buffered = []) :
    ∃ st1 sess, handleClient cfg env conn reader atCmd st
        = (st1, HandleExit.Bridge sess (dev.SetSession sess.ID)) ∧
      sess.DeviceID = deviceID ∧
      st1.events = st.events ++ [HandlerEvent.Reply conn RespOK] ++
        (match clientPresets atCmd with
          | some buf =>
            if buf.RawData.length = 0 then [] else [HandlerEvent.Write dev.Conn buf.RawData]
          | none => []) := by
  obtain ⟨st1, h1, -, -, heq⟩ :=
    handleClient_accept cfg env conn reader atCmd st deviceID dev hp hg hb
  rw [hw, hbuf] at heq
  simp only [Bool.false_eq_true, if_false, forwardBuffered_nil] at heq
  refine ⟨_, _, heq, rfl, ?_⟩
  cases hc : clientPresets atCmd with
  | none => simp [h1]
  | some buf =>
    dsimp only
    by_cases hl : buf.RawData.length = 0
    · have hl2 : ¬ buf.RawData.length > 0 := by omega
      rw [if_neg hl2, if_pos hl, h1]
      simp
    · have hl2 : buf.RawData.length > 0 := by omega
      rw [if_pos hl2, if_neg hl]
      simp [ForwardRFC2217ToDevice, hl, h1]

theorem clientPresets_of_config (atCmd : ATCommand) (c : USRVCOMConfig)
    (hc : atCmd.USRVCOMCfg = some c) (hv : c.Valid = true) :
    clientPresets atCmd
      = some { Commands := c.ToRFC2217Commands, RawData := c.BuildRFC2217Packet } := by
  simp [clientPresets, hc, hv]

theorem clientPresets_of_skipped (atCmd : ATCommand) (hc : atCmd.USRVCOMCfg = none) :
    (atCmd.Skipped = [] → clientPresets atCmd = none) ∧
    (atCmd.Skipped ≠ [] → IsUSRVCOM atCmd.Skipped = false →
      clientPresets atCmd = some (ParseRFC2217Commands atCmd.Skipped)) ∧
    (IsUSRVCOM atCmd.Skipped = true → ParseUSRVCOM atCmd.Skipped = none →
      clientPresets atCmd = none) := by
  refine ⟨?_, ?_, ?_⟩
  · intro h
    simp [clientPresets, hc, h]
  · intro h hu
    have hl : atCmd.Skipped.length > 0 := List.length_pos.mpr h
    simp [clientPresets, hc, hl, hu]
  · intro hu hn
    simp [clientPresets, hc, hu, hn]

/-- Claim C28, amended: an unrecognised preamble is forwarded verbatim unless it is empty or
starts with 55 AA 55. For every preamble `p` in which ParseUSRVCOM finds no frame (whether
ParseRFC2217Commands finds an item in it or none), a successful AT+CONNECT (device registered
and idle, OK written) whose Skipped is `p` and which carries no USR-VCOM config, with no bytes
buffered after the AT line, reaches the bridge having written the OK to the client and, to the
device, nothing if `p` is empty or starts with 55 AA 55, and otherwise the bytes of `p`,
once. -/
theorem handleClient_unrecognised_preamble (cfg : Config) (env : HandleEnv) (conn : Nat)
    (reader : List Byte) (atCmd : ATCommand) (st : HandleState) (deviceID : List Byte)
    (dev : Device)
    (hp : parseToken cfg.AuthToken atCmd.Param = some deviceID)
    (hg : st.world.registry.Get deviceID = some dev) (hb : dev.InSession = false)
    (hw : env.writeFails st.replyCount = false) (hbuf : reader.take env.buffered = [])
    (hcfg : atCmd.USRVCOMCfg = none) (hframe : ParseUSRVCOM atCmd.Skipped = none) :
    ∃ st1 sess, handleClient cfg env conn reader atCmd st
        = (st1, HandleExit.Bridge sess (dev.SetSession sess.ID)) ∧
      st1.events = st.events ++ [HandlerEvent.Reply conn RespOK] ++
        (if atCmd.Skipped = [] ∨ IsUSRVCOM atCmd.Skipped = true then []
         else [HandlerEvent.Write dev.Conn atCmd.Skipped]) ∧
      writesTo dev.Conn st1.events = writesTo dev.Conn st.events ++
        (if atCmd.Skipped = [] ∨ IsUSRVCOM atCmd.Skipped = true then []
         else [atCmd.Skipped]) := by
  obtain ⟨st1, sess, h1, -, h2⟩ :=
    handleClient_bridge cfg env conn reader atCmd st deviceID dev hp hg hb hw hbuf
  obtain ⟨c1, c2, c3⟩ := clientPresets_of_skipped atCmd hcfg
  have hev : st1.events = st.events ++ [HandlerEvent.Reply conn RespOK] ++
      (if atCmd.Skipped = [] ∨ IsUSRVCOM atCmd.Skipped = true then []
       else [HandlerEvent.Write dev.Conn atCmd.Skipped]) := by
    rw [h2]
    by_cases hs : atCmd.Skipped = []
    · rw [c1 hs, if_pos (Or.inl hs)]
    · cases hu : IsUSRVCOM atCmd.Skipped with
      | true => rw [c3 hu hframe, if_pos (Or.inr rfl)]
      | false =>
        rw [c2 hs hu, if_neg (by simp [hs])]
        have hl : ¬ (ParseRFC2217Commands atCmd.Skipped).RawData.length = 0 := by
          simp [ParseRFC2217Commands, hs]
        dsimp only
        rw [if_neg hl]
        rfl
  refine ⟨st1, sess, h1, hev, ?_⟩
  rw [hev, writesTo_append, writesTo_append]
  by_cases hc : atCmd.Skipped = [] ∨ IsUSRVCOM atCmd.Skipped = true
  · rw [if_pos hc, if_pos hc]
    simp [writesTo]
  · rw [if_neg hc, if_neg hc]
    simp [writesTo]

/-- The device "dev1" is registered on connection 3 and idle; a client on connection 7 sends
AT+CONNECT=dev1 after the byte 00 (no AuthToken is configured, the OK is written, nothing is
buffered). The hypotheses of `handleClient_unrecognised_preamble` hold, and the byte 00 is
written to the device. -/
theorem handleClient_unrecognised_preamble_witness :
    ∃ st1 sess, handleClient
        { AuthToken := [], InitTimeout := 0, PostConnectTimeout := 0, IdleTimeout := 0,
          Debug := false }
        { since := fun _ _ => 0, writeFails := fun _ => false, buffered := 0, unix := 0,
          now := 0 }
        7 []
        { Cmd := CmdConnect, Param := [0x64, 0x65, 0x76, 0x31], Skipped := [0x00],
          USRVCOMCfg := none }
        { world :=
            { registry := NewRegistry.Register
                { ID := [0x64, 0x65, 0x76, 0x31], Conn := 3, RegisteredAt := 0,
                  InSession := false, SessionID := [], StopKeepalive := some false },
              sessions := NewManager false 0 },
          events := [] }
        = (st1, HandleExit.Bridge sess
            (Device.SetSession
              { ID := [0x64, 0x65, 0x76, 0x31], Conn := 3, RegisteredAt := 0,
                InSession := false, SessionID := [], StopKeepalive := some false } sess.ID)) ∧
      st1.events = [] ++ [HandlerEvent.Reply 7 RespOK] ++
        (if ([0x00] : List Byte) = [] ∨ IsUSRVCOM [0x00] = true then []
         else [HandlerEvent.Write 3 [0x00]]) ∧
      writesTo 3 st1.events = writesTo 3 [] ++
        (if ([0x00] : List Byte) = [] ∨ IsUSRVCOM [0x00] = true then [] else [[0x00]]) :=
  handleClient_unrecognised_preamble
    { AuthToken := [], InitTimeout := 0, PostConnectTimeout := 0, IdleTimeout := 0,
      Debug := false }
    { since := fun _ _ => 0, writeFails := fun _ => false, buffered := 0, unix := 0, now := 0 }
    7 []
    { Cmd := CmdConnect, Param := [0x64, 0x65, 0x76, 0x31], Skipped := [0x00],
      USRVCOMCfg := none }
    { world :=
        { registry := NewRegistry.Register
            { ID := [0x64, 0x65, 0x76, 0x31], Conn := 3, RegisteredAt := 0,
              InSession := false, SessionID := [], StopKeepalive := some false },
          sessions := NewManager false 0 },
      events := [] }
    [0x64, 0x65, 0x76, 0x31]
    { ID := [0x64, 0x65, 0x76, 0x31], Conn := 3, RegisteredAt := 0,
      InSession := false, SessionID := [], StopKeepalive := some false }
    (by decide) (by decide) (by decide) (by decide) (by decide) (by decide) (by decide)

/-- Claim C28, counterexample: the device "dev1" is registered on connection 3 and idle, and a
client on connection 7 sends the byte 00 and then "AT+CONNECT=dev1", CR LF. The byte 00 holds
no USR-VCOM frame and no RFC 2217 item, the AT+CONNECT succeeds with Skipped 00, and `Handle`
writes the byte 00 to the device before the bridge starts. -/
theorem handleClient_preamble_counterexample :
    ParseUSRVCOM [0x00] = none ∧ (ParseRFC2217Commands [0x00]).Commands = [] ∧
    (Handle
        { AuthToken := [], InitTimeout := 0, PostConnectTimeout := 0, IdleTimeout := 0,
          Debug := false }
        { since := fun _ _ => 0, writeFails := fun _ => false, buffered := 0, unix := 0,
          now := 0 }
        7 ([0x00] ++ [0x41, 0x54, 0x2B, 0x43, 0x4F, 0x4E, 0x4E, 0x45, 0x43, 0x54, 0x3D, 0x64,
            0x65, 0x76, 0x31] ++ [CR, LF])
        { registry := NewRegistry.Register
            { ID := [0x64, 0x65, 0x76, 0x31], Conn := 3, RegisteredAt := 0,
              InSession := false, SessionID := [], StopKeepalive := some false },
          sessions := NewManager false 0 }).map (fun r => r.1.events)
      = some [HandlerEvent.Reply 7 RespOK, HandlerEvent.Write 3 [0x00]] := by
  decide

theorem replyCount_append_reply (st : HandleState) (conn : Nat) (b : List Byte) :
    ({ st with events := st.events ++ [HandlerEvent.Reply conn b] } : HandleState).replyCount
      = st.replyCount + 1 := by
  rw [replyCount_eq, replyCount_eq]
  simp [replies_append, replies]

/-- One turn of the loop of `Handle` on an ATDT or ATDP whose OK is written. -/
theorem handleLoop_dial (cfg : Config) (env : HandleEnv) (conn fuel k : Nat)
    (reader : List Byte) (usrvcomCfg : Option USRVCOMConfig) (timeout : Int) (st : HandleState)
    (o : ReadOutcome) (cmd : ATCommand)
    (hread : ReadATCommandWithPresets reader timeout (env.since k) = some o)
    (hres : o.result = Except.ok cmd) (hcmd : cmd.Cmd = CmdDT ∨ cmd.Cmd = CmdDP)
    (hw : env.writeFails st.replyCount = false) :
    handleLoop cfg env conn (fuel + 1) k reader usrvcomCfg timeout st =
      handleLoop cfg env conn fuel (k + 1) o.reader
        (if cmd.USRVCOMCfg.isSome then cmd.USRVCOMCfg else usrvcomCfg) cfg.PostConnectTimeout
        { st with events := st.events ++ [HandlerEvent.Reply conn RespOK] } := by
  simp only [handleLoop]
  rw [hread]
  dsimp only
  rw [hres]
  dsimp only
  rw [if_pos hcmd]
  simp only [WriteOK, hw, Bool.false_eq_true, if_false]

/-- One turn of the loop of `Handle` on an AT+CONNECT. -/
theorem handleLoop_connect (cfg : Config) (env : HandleEnv) (conn fuel k : Nat)
    (reader : List Byte) (usrvcomCfg : Option USRVCOMConfig) (timeout : Int) (st : HandleState)
    (o : ReadOutcome) (cmd : ATCommand)
    (hread : ReadATCommandWithPresets reader timeout (env.since k) = some o)
    (hres : o.result = Except.ok cmd) (hcmd : cmd.Cmd = CmdConnect) :
    handleLoop cfg env conn (fuel + 1) k reader usrvcomCfg timeout st =
      some (handleClient cfg env conn o.reader
        (if (if cmd.USRVCOMCfg.isSome then cmd.USRVCOMCfg else usrvcomCfg).isSome
            ∧ cmd.USRVCOMCfg.isNone then
          { cmd with USRVCOMCfg := if cmd.USRVCOMCfg.isSome then cmd.USRVCOMCfg else usrvcomCfg }
         else cmd) st) := by
  have h1 : ¬ (cmd.Cmd = CmdDT ∨ cmd.Cmd = CmdDP) := by rw [hcmd]; decide
  have h2 : ¬ cmd.Cmd = CmdReg := by rw [hcmd]; decide
  simp only [handleLoop]
  rw [hread]
  dsimp only
  rw [hres]
  dsimp only
  rw [if_neg h1, if_neg h2, if_pos hcmd]

/-- The turn of the loop of `Handle` that reads the bytes `p` and an AT+CONNECT line for a
registered idle device, the last bytes of the input: the bridge is reached, the OK written,
and what `clientPresets` gives is forwarded. -/
theorem handleLoop_connect_line (cfg : Config) (env : HandleEnv) (conn fuel k : Nat)
    (p C : List Byte) (cmdC : ATCommand) (u0 : Option USRVCOMConfig) (timeout : Int)
    (st : HandleState) (deviceID : List Byte) (dev : Device)
    (hpcr : CR ∉ p) (hplf : LF ∉ p) (hpat : containsAT p = false)
    (hacc : parseATCommand C = some cmdC) (hcmd : cmdC.Cmd = CmdConnect)
    (hcr : CR ∉ C) (hlf : LF ∉ C) (htrim : TrimSpace C = C)
    (hclock : ¬ (timeout > 0 ∧ env.since k 0 > timeout))
    (hp : parseToken cfg.AuthToken cmdC.Param = some deviceID)
    (hg : st.world.registry.Get deviceID = some dev) (hb : dev.InSession = false)
    (hw : env.writeFails st.replyCount = false) :
    ∃ u a st1 sess,
      (p = [] → u = none ∧ a = []) ∧
      (p ≠ [] → IsUSRVCOM p = false → u = none ∧ a = p) ∧
      (IsUSRVCOM p = true → a = [] ∧
        (ParseUSRVCOM p = none → u = none) ∧
        (∀ c, ParseUSRVCOM p = some c → c.Valid = true → u = some c)) ∧
      handleLoop cfg env conn (fuel + 1) k (p ++ C ++ [CR, LF]) u0 timeout st
        = some (st1, HandleExit.Bridge sess (dev.SetSession sess.ID)) ∧
      sess.DeviceID = deviceID ∧
      st1.events = st.events ++ [HandlerEvent.Reply conn RespOK] ++
        (match clientPresets
            { cmdC with Skipped := a, USRVCOMCfg := if u.isSome then u else u0 } with
          | some buf =>
            if buf.RawData.length = 0 then [] else [HandlerEvent.Write dev.Conn buf.RawData]
          | none => []) := by
  obtain ⟨o, u, a, h1, h2, h3, c1, c2, c3⟩ := ReadATCommandWithPresets_line p C [] cmdC
    timeout (env.since k) hpcr hplf hpat hacc hcr hlf htrim hclock
  rw [List.append_nil] at h1
  have hstep := handleLoop_connect cfg env conn fuel k (p ++ C ++ [CR, LF]) u0 timeout st o
    { cmdC with Skipped := a, USRVCOMCfg := u } h1 h2 hcmd
  have hat : (if (if u.isSome then u else u0).isSome ∧ u.isNone then
        ({ cmdC with Skipped := a, USRVCOMCfg := if u.isSome then u else u0 } : ATCommand)
      else { cmdC with Skipped := a, USRVCOMCfg := u })
      = { cmdC with Skipped := a, USRVCOMCfg := if u.isSome then u else u0 } := by
    cases u with
    | some c => simp
    | none =>
      cases u0 with
      | some c0 => simp
      | none => simp
  dsimp only at hstep
  rw [hat, h3] at hstep
  obtain ⟨st1, sess, g1, g2, g3⟩ := handleClient_bridge cfg env conn []
    { cmdC with Skipped := a, USRVCOMCfg := if u.isSome then u else u0 } st deviceID dev hp hg hb
    hw (by simp)
  rw [g1] at hstep
  exact ⟨u, a, st1, sess, c1, c2, c3, hstep, g2, g3⟩

theorem BuildRFC2217Packet_length (c : USRVCOMConfig) (hv : c.Valid = true) :
    c.BuildRFC2217Packet.length ≠ 0 := by
  rw [BuildRFC2217Packet_of_valid c hv, ToRFC2217Commands_of_valid c hv]
  simp [RFC2217Frame]

/-- Two turns of the loop of `Handle`: the bytes `p` and a dial line, answered with OK, then
an AT+CONNECT line for a registered idle device. Of `p` only a USR-VCOM config is kept. -/
theorem handleLoop_dial_connect (cfg : Config) (env : HandleEnv) (conn fuel k : Nat)
    (p D C : List Byte) (cmdD cmdC : ATCommand) (timeout : Int)
    (st : HandleState) (deviceID : List Byte) (dev : Device)
    (hpcr : CR ∉ p) (hplf : LF ∉ p) (hpat : containsAT p = false)
    (hDacc : parseATCommand D = some cmdD) (hDcmd : cmdD.Cmd = CmdDT ∨ cmdD.Cmd = CmdDP)
    (hDcr : CR ∉ D) (hDlf : LF ∉ D) (hDtrim : TrimSpace D = D)
    (hacc : parseATCommand C = some cmdC) (hcmd : cmdC.Cmd = CmdConnect)
    (hcr : CR ∉ C) (hlf : LF ∉ C) (htrim : TrimSpace C = C)
    (hclock0 : ¬ (timeout > 0 ∧ env.since k 0 > timeout))
    (hclock1 : ¬ (cfg.PostConnectTimeout > 0 ∧ env.since (k + 1) 0 > cfg.PostConnectTimeout))
    (hp : parseToken cfg.AuthToken cmdC.Param = some deviceID)
    (hg : st.world.registry.Get deviceID = some dev) (hb : dev.InSession = false)
    (hw0 : env.writeFails st.replyCount = false)
    (hw1 : env.writeFails (st.replyCount + 1) = false) :
    ∃ u st1 sess,
      (IsUSRVCOM p = false → u = none) ∧
      (∀ c, IsUSRVCOM p = true → ParseUSRVCOM p = some c → c.Valid = true → u = some c) ∧
      handleLoop cfg env conn (fuel + 1 + 1) k (p ++ D ++ [CR, LF] ++ (C ++ [CR, LF])) none
          timeout st
        = some (st1, HandleExit.Bridge sess (dev.SetSession sess.ID)) ∧
      sess.DeviceID = deviceID ∧
      st1.events = st.events ++ [HandlerEvent.Reply conn RespOK] ++
        [HandlerEvent.Reply conn RespOK] ++
        (match clientPresets { cmdC with Skipped := [], USRVCOMCfg := u } with
          | some buf =>
            if buf.RawData.length = 0 then [] else [HandlerEvent.Write dev.Conn buf.RawData]
          | none => []) := by
  obtain ⟨o, u, a, h1, h2, h3, c1, c2, c3⟩ := ReadATCommandWithPresets_line p D (C ++ [CR, LF])
    cmdD timeout (env.since k) hpcr hplf hpat hDacc hDcr hDlf hDtrim hclock0
  have hstep := handleLoop_dial cfg env conn (fuel + 1) k (p ++ D ++ [CR, LF] ++ (C ++ [CR, LF]))
    none timeout st o { cmdD with Skipped := a, USRVCOMCfg := u } h1 h2 hDcmd hw0
  dsimp only at hstep
  have hu : (if u.isSome = true then u else none) = u := by cases u <;> rfl
  rw [hu, h3] at hstep
  obtain ⟨u2, a2, st1, sess, d1, -, -, g1, g2, g3⟩ := handleLoop_connect_line cfg env conn fuel
    (k + 1) [] C cmdC u cfg.PostConnectTimeout
    { st with events := st.events ++ [HandlerEvent.Reply conn RespOK] } deviceID dev
    (by simp) (by simp) rfl hacc hcmd hcr hlf htrim hclock1 hp hg hb
    (by rw [replyCount_append_reply]; exact hw1)
  obtain ⟨e1, e2⟩ := d1 rfl
  subst e1 e2
  rw [List.nil_append] at g1
  rw [g1] at hstep
  refine ⟨u, st1, sess, ?_, ?_, hstep, g2, ?_⟩
  · intro hf
    by_cases hpe : p = []
    · exact (c1 hpe).1
    · exact (c2 hpe hf).1
  · intro c hf hc hv
    exact (c3 hf).2.2 c hc hv
  · rw [g3]
    simp

/-- How far the loss of a preamble across a dial line reaches: `Handle` keeps across its loop
the USR-VCOM config of a command but not its skipped bytes. A client sends, on a connection
whose replies are written and whose deadlines are not passed, a preamble, then possibly an ATDT
or ATDP line `D`, then an AT+CONNECT line `C` for a registered idle device. If the preamble is
an 8-byte USR-VCOM frame `f` (free of CR, LF and 'A'), `Handle` reaches the bridge having
forwarded to the device the packet translated from `f`, with the dial line and without it. If
the preamble is a non-empty sequence `P` that does not start with 55 AA 55 (free of CR, LF and
'A'; an RFC 2217 preamble is one), `Handle` forwards `P` itself when `C` follows directly, but
the bytes of `P` are lost when the dial line stands between them. -/
theorem Handle_preamble_across_dial (cfg : Config) (env : HandleEnv) (conn : Nat)
    (P f D C : List Byte) (cmdD cmdC : ATCommand) (world : World) (deviceID : List Byte)
    (dev : Device)
    (hP : P ≠ []) (hPhdr : IsUSRVCOM P = false) (hPcr : CR ∉ P) (hPlf : LF ∉ P) (hPa : chA ∉ P)
    (hflen : f.length = 8) (hfhdr : IsUSRVCOM f = true)
    (hfcr : CR ∉ f) (hflf : LF ∉ f) (hfa : chA ∉ f)
    (hDacc : parseATCommand D = some cmdD) (hDcmd : cmdD.Cmd = CmdDT ∨ cmdD.Cmd = CmdDP)
    (hDcr : CR ∉ D) (hDlf : LF ∉ D) (hDtrim : TrimSpace D = D)
    (hacc : parseATCommand C = some cmdC) (hcmd : cmdC.Cmd = CmdConnect)
    (hcr : CR ∉ C) (hlf : LF ∉ C) (htrim : TrimSpace C = C)
    (hclock0 : ¬ (cfg.InitTimeout > 0 ∧ env.since 0 0 > cfg.InitTimeout))
    (hclock1 : ¬ (cfg.PostConnectTimeout > 0 ∧ env.since 1 0 > cfg.PostConnectTimeout))
    (hp : parseToken cfg.AuthToken cmdC.Param = some deviceID)
    (hg : world.registry.Get deviceID = some dev) (hb : dev.InSession = false)
    (hw0 : env.writeFails 0 = false) (hw1 : env.writeFails 1 = false) :
    (∃ st sess c, ParseUSRVCOM f = some c ∧
      Handle cfg env conn (f ++ D ++ [CR, LF] ++ (C ++ [CR, LF])) world
        = some (st, HandleExit.Bridge sess (dev.SetSession sess.ID)) ∧
      writesTo dev.Conn st.events = [c.BuildRFC2217Packet]) ∧
    (∃ st sess c, ParseUSRVCOM f = some c ∧
      Handle cfg env conn (f ++ C ++ [CR, LF]) world
        = some (st, HandleExit.Bridge sess (dev.SetSession sess.ID)) ∧
      writesTo dev.Conn st.events = [c.BuildRFC2217Packet]) ∧
    (∃ st sess, Handle cfg env conn (P ++ C ++ [CR, LF]) world
        = some (st, HandleExit.Bridge sess (dev.SetSession sess.ID)) ∧
      writesTo dev.Conn st.events = [P]) ∧
    (∃ st sess, Handle cfg env conn (P ++ D ++ [CR, LF] ++ (C ++ [CR, LF])) world
        = some (st, HandleExit.Bridge sess (dev.SetSession sess.ID)) ∧
      writesTo dev.Conn st.events = []) := by
  obtain ⟨c, hc, -, -, -, -, -, hvalid⟩ :=
    ParseUSRVCOM_of_first_header f 0 (IsUSRVCOM_headerAt f hflen hfhdr) (fun j hj => by omega)
  have hlenc := BuildRFC2217Packet_length c hvalid
  have hPat := containsAT_of_not_mem P hPa
  have hfat := containsAT_of_not_mem f hfa
  have hrc0 : ({ world := world, events := [] } : HandleState).replyCount = 0 := rfl
  have hfuel2 : ∀ p : List Byte, ∃ n, (p ++ D ++ [CR, LF] ++ (C ++ [CR, LF])).length + 1
      = n + 1 + 1 := by
    intro p
    refine ⟨(p ++ D ++ [CR, LF] ++ (C ++ [CR, LF])).length - 1, ?_⟩
    simp only [List.length_append, List.length_cons, List.length_nil]
    omega
  refine ⟨?_, ?_, ?_, ?_⟩
  · obtain ⟨n, hn⟩ := hfuel2 f
    obtain ⟨u, st1, sess, -, hu, hloop, -, hev⟩ := handleLoop_dial_connect cfg env conn n 0 f D C
      cmdD cmdC cfg.InitTimeout { world := world, events := [] } deviceID dev hfcr hflf hfat
      hDacc hDcmd hDcr hDlf hDtrim hacc hcmd hcr hlf htrim hclock0 hclock1 hp hg hb
      (by rw [hrc0]; exact hw0) (by rw [hrc0]; exact hw1)
    have hu2 := hu c hfhdr hc hvalid
    subst hu2
    refine ⟨st1, sess, c, hc, ?_, ?_⟩
    · unfold Handle
      rw [hn, hloop]
    · rw [hev, clientPresets_of_config _ c rfl hvalid]
      dsimp only
      rw [if_neg hlenc]
      simp [writesTo]
  · obtain ⟨u, a, st1, sess, -, -, hu, hloop, -, hev⟩ := handleLoop_connect_line cfg env conn
      (f ++ C ++ [CR, LF]).length 0 f C cmdC none cfg.InitTimeout
      { world := world, events := [] } deviceID dev hfcr hflf hfat hacc hcmd hcr hlf htrim
      hclock0 hp hg hb (by rw [hrc0]; exact hw0)
    have hu2 := (hu hfhdr).2.2 c hc hvalid
    subst hu2
    simp only [Option.isSome_some, if_true] at hev
    refine ⟨st1, sess, c, hc, ?_, ?_⟩
    · unfold Handle
      rw [hloop]
    · rw [hev, clientPresets_of_config _ c rfl hvalid]
      dsimp only
      rw [if_neg hlenc]
      simp [writesTo]
  · obtain ⟨u, a, st1, sess, -, hu, -, hloop, -, hev⟩ := handleLoop_connect_line cfg env conn
      (P ++ C ++ [CR, LF]).length 0 P C cmdC none cfg.InitTimeout
      { world := world, events := [] } deviceID dev hPcr hPlf hPat hacc hcmd hcr hlf htrim
      hclock0 hp hg hb (by rw [hrc0]; exact hw0)
    obtain ⟨hu2, ha2⟩ := hu hP hPhdr
    rw [hu2, ha2] at hev
    simp only [Option.isSome_none, Bool.false_eq_true, if_false] at hev
    refine ⟨st1, sess, ?_, ?_⟩
    · unfold Handle
      rw [hloop]
    · rw [hev, (clientPresets_of_skipped _ rfl).2.1 hP hPhdr]
      have hl : ¬ (ParseRFC2217Commands P).RawData.length = 0 := by
        simp [ParseRFC2217Commands, hP]
      dsimp only
      rw [if_neg hl]
      simp [writesTo, ParseRFC2217Commands]
  · obtain ⟨n, hn⟩ := hfuel2 P
    obtain ⟨u, st1, sess, hu, -, hloop, -, hev⟩ := handleLoop_dial_connect cfg env conn n 0 P D C
      cmdD cmdC cfg.InitTimeout { world := world, events := [] } deviceID dev hPcr hPlf hPat
      hDacc hDcmd hDcr hDlf hDtrim hacc hcmd hcr hlf htrim hclock0 hclock1 hp hg hb
      (by rw [hrc0]; exact hw0) (by rw [hrc0]; exact hw1)
    have hu2 := hu hPhdr
    subst hu2
    refine ⟨st1, sess, ?_, ?_⟩
    · unfold Handle
      rw [hn, hloop]
    · rw [hev, (clientPresets_of_skipped _ rfl).1 rfl]
      simp [writesTo]

/-- The device "dev1" is registered on connection 3 and idle; a client on connection 7 sends
the RFC 2217 item FF FA 2C 01 00 00 25 80 FF F0 (or the frame 55 AA 55 00 25 80 03 A8), then
"ATDT", then "AT+CONNECT=dev1". The hypotheses of `Handle_preamble_across_dial` hold; after the
item and the dial line the item does not reach the device. -/
theorem Handle_preamble_across_dial_witness :
    ∃ st sess, Handle
        { AuthToken := [], InitTimeout := 0, PostConnectTimeout := 0, IdleTimeout := 0,
          Debug := false }
        { since := fun _ _ => 0, writeFails := fun _ => false, buffered := 0, unix := 0,
          now := 0 }
        7 ([0xFF, 0xFA, 0x2C, 0x01, 0x00, 0x00, 0x25, 0x80, 0xFF, 0xF0] ++
            [0x41, 0x54, 0x44, 0x54] ++ [CR, LF] ++
            ([0x41, 0x54, 0x2B, 0x43, 0x4F, 0x4E, 0x4E, 0x45, 0x43, 0x54, 0x3D, 0x64, 0x65,
              0x76, 0x31] ++ [CR, LF]))
        { registry := NewRegistry.Register
            { ID := [0x64, 0x65, 0x76, 0x31], Conn := 3, RegisteredAt := 0,
              InSession := false, SessionID := [], StopKeepalive := some false },
          sessions := NewManager false 0 }
        = some (st, HandleExit.Bridge sess
            (Device.SetSession
              { ID := [0x64, 0x65, 0x76, 0x31], Conn := 3, RegisteredAt := 0,
                InSession := false, SessionID := [], StopKeepalive := some false } sess.ID)) ∧
      writesTo 3 st.events = [] :=
  (Handle_preamble_across_dial
    { AuthToken := [], InitTimeout := 0, PostConnectTimeout := 0, IdleTimeout := 0,
      Debug := false }
    { since := fun _ _ => 0, writeFails := fun _ => false, buffered := 0, unix := 0, now := 0 }
    7 [0xFF, 0xFA, 0x2C, 0x01, 0x00, 0x00, 0x25, 0x80, 0xFF, 0xF0]
    [0x55, 0xAA, 0x55, 0x00, 0x25, 0x80, 0x03, 0xA8]
    [0x41, 0x54, 0x44, 0x54]
    [0x41, 0x54, 0x2B, 0x43, 0x4F, 0x4E, 0x4E, 0x45, 0x43, 0x54, 0x3D, 0x64, 0x65, 0x76, 0x31]
    { Cmd := CmdDT, Param := [], Skipped := [], USRVCOMCfg := none }
    { Cmd := CmdConnect, Param := [0x64, 0x65, 0x76, 0x31], Skipped := [], USRVCOMCfg := none }
    { registry := NewRegistry.Register
        { ID := [0x64, 0x65, 0x76, 0x31], Conn := 3, RegisteredAt := 0,
          InSession := false, SessionID := [], StopKeepalive := some false },
      sessions := NewManager false 0 }
    [0x64, 0x65, 0x76, 0x31]
    { ID := [0x64, 0x65, 0x76, 0x31], Conn := 3, RegisteredAt := 0,
      InSession := false, SessionID := [], StopKeepalive := some false }
    (by decide) (by decide) (by decide) (by decide) (by decide) (by decide) (by decide)
    (by decide) (by decide) (by decide) (by decide) (by decide) (by decide) (by decide)
    (by decide) (by decide) (by decide) (by decide) (by decide) (by decide) (by decide)
    (by decide) (by decide) (by decide) (by decide) (by decide) (by decide)).2.2.2

/-- Claim C27, the failing input: the device "dev1" is registered on connection 3 and idle. A
client that sends the RFC 2217 item FF FA 2C 01 00 00 25 80 FF F0 directly before
"AT+CONNECT=dev1" has the ten bytes forwarded to the device. A client that sends the same item,
then "ATDT", then "AT+CONNECT=dev1" gets two OK replies and nothing is forwarded: the item is
lost. A client that sends the USR-VCOM frame 55 AA 55 00 25 80 03 A8, then "ATDT", then
"AT+CONNECT=dev1" has the packet translated from the frame forwarded: the config of the frame
is carried across the dial line. -/
theorem Handle_preamble_lost_across_dial :
    (Handle
        { AuthToken := [], InitTimeout := 0, PostConnectTimeout := 0, IdleTimeout := 0,
          Debug := false }
        { since := fun _ _ => 0, writeFails := fun _ => false, buffered := 0, unix := 0,
          now := 0 }
        7 ([0xFF, 0xFA, 0x2C, 0x01, 0x00, 0x00, 0x25, 0x80, 0xFF, 0xF0] ++
            [0x41, 0x54, 0x2B, 0x43, 0x4F, 0x4E, 0x4E, 0x45, 0x43, 0x54, 0x3D, 0x64, 0x65,
              0x76, 0x31] ++ [CR, LF])
        { registry := NewRegistry.Register
            { ID := [0x64, 0x65, 0x76, 0x31], Conn := 3, RegisteredAt := 0,
              InSession := false, SessionID := [], StopKeepalive := some false },
          sessions := NewManager false 0 }).map (fun r => r.1.events)
      = some [HandlerEvent.Reply 7 RespOK,
              HandlerEvent.Write 3 [0xFF, 0xFA, 0x2C, 0x01, 0x00, 0x00, 0x25, 0x80, 0xFF, 0xF0]] ∧
    (Handle
        { AuthToken := [], InitTimeout := 0, PostConnectTimeout := 0, IdleTimeout := 0,
          Debug := false }
        { since := fun _ _ => 0, writeFails := fun _ => false, buffered := 0, unix := 0,
          now := 0 }
        7 ([0xFF, 0xFA, 0x2C, 0x01, 0x00, 0x00, 0x25, 0x80, 0xFF, 0xF0] ++
            [0x41, 0x54, 0x44, 0x54] ++ [CR, LF] ++
            [0x41, 0x54, 0x2B, 0x43, 0x4F, 0x4E, 0x4E, 0x45, 0x43, 0x54, 0x3D, 0x64, 0x65,
              0x76, 0x31] ++ [CR, LF])
        { registry := NewRegistry.Register
            { ID := [0x64, 0x65, 0x76, 0x31], Conn := 3, RegisteredAt := 0,
              InSession := false, SessionID := [], StopKeepalive := some false },
          sessions := NewManager false 0 }).map (fun r => r.1.events)
      = some [HandlerEvent.Reply 7 RespOK, HandlerEvent.Reply 7 RespOK] ∧
    (Handle
        { AuthToken := [], InitTimeout := 0, PostConnectTimeout := 0, IdleTimeout := 0,
          Debug := false }
        { since := fun _ _ => 0, writeFails := fun _ => false, buffered := 0, unix := 0,
          now := 0 }
        7 ([0x55, 0xAA, 0x55, 0x00, 0x25, 0x80, 0x03, 0xA8] ++
            [0x41, 0x54, 0x44, 0x54] ++ [CR, LF] ++
            [0x41, 0x54, 0x2B, 0x43, 0x4F, 0x4E, 0x4E, 0x45, 0x43, 0x54, 0x3D, 0x64, 0x65,
              0x76, 0x31] ++ [CR, LF])
        { registry := NewRegistry.Register
            { ID := [0x64, 0x65, 0x76, 0x31], Conn := 3, RegisteredAt := 0,
              InSession := false, SessionID := [], StopKeepalive := some false },
          sessions := NewManager false 0 }).map (fun r => r.1.events)
      = some [HandlerEvent.Reply 7 RespOK, HandlerEvent.Reply 7 RespOK,
              HandlerEvent.Write 3
                [0xFF, 0xFA, 0x2C, 0x01, 0x00, 0x00, 0x25, 0x80, 0xFF, 0xF0,
                 0xFF, 0xFA, 0x2C, 0x02, 0x08, 0xFF, 0xF0,
                 0xFF, 0xFA, 0x2C, 0x03, 0x00, 0xFF, 0xF0,
                 0xFF, 0xFA, 0x2C, 0x04, 0x01, 0xFF, 0xF0]] := by
  decide

/-! ### The idle test of the bridge keepalive (C29) -/

theorem roundHalfEven_bounds (n d : Nat) (hd : 0 < d) :
    n / d ≤ roundHalfEven n d ∧ 2 * (d * roundHalfEven n d) ≤ 2 * n + d ∧
      2 * n ≤ 2 * (d * roundHalfEven n d) + d := by
  unfold roundHalfEven
  have h1 := Nat.div_add_mod n d
  have h2 := Nat.mod_lt n hd
  generalize n / d = q at *
  generalize n % d = r at *
  dsimp only
  split_ifs <;> refine ⟨by omega, ?_, ?_⟩ <;> (try rw [Nat.mul_add, Nat.mul_one]) <;> omega

theorem roundHalfEven_mul (m d : Nat) (hd : 0 < d) : roundHalfEven (m * d) d = m := by
  unfold roundHalfEven
  simp [Nat.mul_div_cancel _ hd, hd]

theorem float64ScaleUp_ge (fuel : Nat) :
    ∀ n d j : Nat, j ≤ fuel → n * 2 ^ j < d * 2 ^ 53 → j ≤ float64ScaleUp fuel n d := by
  induction fuel with
  | zero => intro n d j hj _; omega
  | succ f ih =>
    intro n d j hj h
    cases j with
    | zero => omega
    | succ j =>
      have h2 : 2 * n * 2 ^ j < d * 2 ^ 53 := by
        have : n * 2 ^ (j + 1) = 2 * n * 2 ^ j := by rw [pow_succ]; ring
        omega
      have h3 : 2 * n < d * 2 ^ 53 := by
        have : 2 * n * 1 ≤ 2 * n * 2 ^ j := Nat.mul_le_mul_left _ (Nat.one_le_two_pow)
        omega
      unfold float64ScaleUp
      rw [if_pos h3]
      have := ih (2 * n) d j (by omega) h2
      omega

/-- What the rounding to `float64` gives for a rational `a / d` below `2 ^ (53 - j)`: a value
within `1 / 2 ^ (j + 1)` of it that is not below any whole number that `a / d` reaches. -/
theorem roundFloat64Abs_spec (a d j : Nat) (hd : 0 < d) (hj : j ≤ 1074)
    (h : a * 2 ^ j < d * 2 ^ 53) :
    ∃ p k, roundFloat64Abs a d = (p, k) ∧
      (p : ℚ) / 2 ^ k ≤ (a : ℚ) / d + 1 / 2 ^ (j + 1) ∧
      (∀ s : Nat, s * d ≤ a → s * 2 ^ k ≤ p) := by
  have hdq : (0 : ℚ) < d := by exact_mod_cast hd
  unfold roundFloat64Abs
  by_cases h0 : a = 0
  · rw [if_pos h0]
    refine ⟨0, 0, rfl, ?_, ?_⟩
    · subst h0
      simp
    · intro s hs
      subst h0
      have : s = 0 := by
        rcases Nat.eq_zero_or_pos s with h | h
        · exact h
        · have := Nat.mul_pos h hd
          omega
      simp [this]
  · rw [if_neg h0]
    have hsmall : ¬ d * 2 ^ 53 ≤ a := by
      have : a * 1 ≤ a * 2 ^ j := Nat.mul_le_mul_left _ (Nat.one_le_two_pow)
      omega
    rw [if_neg hsmall]
    have hk := float64ScaleUp_ge 1074 a d j hj h
    generalize float64ScaleUp 1074 a d = k at hk
    obtain ⟨b1, b2, -⟩ := roundHalfEven_bounds (a * 2 ^ k) d hd
    refine ⟨_, k, rfl, ?_, ?_⟩
    · generalize roundHalfEven (a * 2 ^ k) d = p at b1 b2
      have b2q : (2 : ℚ) * (d * p) ≤ 2 * (a * 2 ^ k) + d := by exact_mod_cast b2
      have hkq : (0 : ℚ) < 2 ^ k := by positivity
      have hpow : (1 : ℚ) / 2 ^ (k + 1) ≤ 1 / 2 ^ (j + 1) := by
        apply one_div_le_one_div_of_le (by positivity)
        exact pow_le_pow_right₀ (by norm_num) (by omega)
      have e1 : (p : ℚ) / 2 ^ k ≤ (a : ℚ) / d + 1 / 2 ^ (k + 1) := by
        rw [div_add_div _ _ (ne_of_gt hdq) (by positivity), div_le_div_iff₀ hkq (by positivity)]
        rw [pow_succ]
        nlinarith
      linarith
    · intro s hs
      have : s * 2 ^ k * d ≤ a * 2 ^ k := by
        have := Nat.mul_le_mul_right (2 ^ k) hs
        calc s * 2 ^ k * d = s * d * 2 ^ k := by ring
          _ ≤ a * 2 ^ k := this
      exact le_trans ((Nat.le_div_iff_mul_le hd).mpr this) b1

theorem roundFloat64_natCast (n : Int) (a d : Nat) (h : n = (a : Int)) :
    roundFloat64 n d = { num := ((roundFloat64Abs a d).1 : Int), exp := (roundFloat64Abs a d).2 } := by
  subst h
  unfold roundFloat64
  have : ¬ ((a : Int) < 0) := by omega
  simp only [Int.natAbs_ofNat, if_neg this]

/-- The conversion of a whole number below 2^53 to `float64` is exact. -/
theorem float64OfInt_exact (a : Nat) (h : a < 2 ^ 53) :
    ∃ k, float64OfInt (a : Int) = { num := ((a * 2 ^ k : Nat) : Int), exp := k } := by
  unfold float64OfInt
  rw [roundFloat64_natCast _ a 1 rfl]
  unfold roundFloat64Abs
  by_cases h0 : a = 0
  · rw [if_pos h0]
    exact ⟨0, by simp [h0]⟩
  · rw [if_neg h0, if_neg (by omega)]
    refine ⟨float64ScaleUp 1074 a 1, ?_⟩
    dsimp only
    have := roundHalfEven_mul (a * 2 ^ float64ScaleUp 1074 a 1) 1 (by norm_num)
    rw [Nat.mul_one] at this
    rw [this]

/-- What `Seconds` computes for a duration `D` of at least 0 whose whole seconds are below `M`,
where `M * 2 ^ j = 2 ^ 53`: a `float64` that is not below the whole seconds of `D` and exceeds
them by at most `1 - 1/10^9 + 1/2^54 + 1/2^(j+1)`. -/
theorem Seconds_spec (D M j : Nat) (hM : M * 2 ^ j = 2 ^ 53) (hj : j ≤ 1074)
    (hs : D / 1000000000 < M) :
    ∃ p k : Nat, Seconds (D : Int) = { num := (p : Int), exp := k } ∧
      D / 1000000000 * 2 ^ k ≤ p ∧
      (p : ℚ) / 2 ^ k ≤ ((D / 1000000000 : Nat) : ℚ) + 1 - 1 / 1000000000 + 1 / 2 ^ 54
        + 1 / 2 ^ (j + 1) := by
  have hsec : (D : Int).tdiv 1000000000 = ((D / 1000000000 : Nat) : Int) := by
    rw [Int.tdiv_eq_ediv (by omega) (by norm_num)]
    norm_cast
  have hnsec : (D : Int).tmod 1000000000 = ((D % 1000000000 : Nat) : Int) := by
    rw [Int.tmod_eq_emod (by omega) (by norm_num)]
    norm_cast
  have hM53 : M ≤ 2 ^ 53 := by
    have : M * 1 ≤ M * 2 ^ j := Nat.mul_le_mul_left _ (Nat.one_le_two_pow)
    omega
  have hn9 : D % 1000000000 < 1000000000 := Nat.mod_lt _ (by norm_num)
  generalize D / 1000000000 = sec at hsec hs
  generalize D % 1000000000 = nsec at hnsec hn9
  unfold Seconds
  dsimp only
  rw [hsec, hnsec]
  obtain ⟨kA, hA⟩ := float64OfInt_exact sec (by omega)
  obtain ⟨kB, hB2⟩ := float64OfInt_exact nsec (by norm_num; omega)
  obtain ⟨kC, hC⟩ := float64OfInt_exact 1000000000 (by norm_num)
  have hC2 : float64OfInt 1000000000 = { num := ((1000000000 * 2 ^ kC : Nat) : Int), exp := kC } := by
    exact_mod_cast hC
  rw [hA, hB2, hC2]
  -- the quotient
  have hposC : (0 : Int) < ((1000000000 * 2 ^ kC : Nat) : Int) := by
    have : 0 < 1000000000 * 2 ^ kC := Nat.mul_pos (by norm_num) (Nat.two_pow_pos kC)
    exact_mod_cast this
  have hdiv : ({ num := ((nsec * 2 ^ kB : Nat) : Int), exp := kB } : Float64).div
      { num := ((1000000000 * 2 ^ kC : Nat) : Int), exp := kC }
      = { num := ((roundFloat64Abs (nsec * 2 ^ kB * 2 ^ kC) (1000000000 * 2 ^ kC * 2 ^ kB)).1 : Int),
          exp := (roundFloat64Abs (nsec * 2 ^ kB * 2 ^ kC) (1000000000 * 2 ^ kC * 2 ^ kB)).2 } := by
    unfold Float64.div
    dsimp only
    rw [Int.sign_eq_one_of_pos hposC, Int.natAbs_ofNat]
    exact roundFloat64_natCast _ _ _ (by push_cast; ring)
  rw [hdiv]
  have hd1 : 0 < 1000000000 * 2 ^ kC * 2 ^ kB :=
    Nat.mul_pos (Nat.mul_pos (by norm_num) (Nat.two_pow_pos kC)) (Nat.two_pow_pos kB)
  have hlt1 : nsec * 2 ^ kB * 2 ^ kC * 2 ^ 53 < 1000000000 * 2 ^ kC * 2 ^ kB * 2 ^ 53 := by
    have : nsec * 2 ^ kB * 2 ^ kC < 1000000000 * 2 ^ kC * 2 ^ kB := by
      have h1 : nsec * (2 ^ kB * 2 ^ kC) < 1000000000 * (2 ^ kB * 2 ^ kC) :=
        Nat.mul_lt_mul_of_pos_right hn9 (Nat.mul_pos (Nat.two_pow_pos kB) (Nat.two_pow_pos kC))
      calc nsec * 2 ^ kB * 2 ^ kC = nsec * (2 ^ kB * 2 ^ kC) := by ring
        _ < 1000000000 * (2 ^ kB * 2 ^ kC) := h1
        _ = 1000000000 * 2 ^ kC * 2 ^ kB := by ring
    exact Nat.mul_lt_mul_of_pos_right this (Nat.two_pow_pos 53)
  obtain ⟨p1, k1, hr1, hle1, -⟩ := roundFloat64Abs_spec _ _ 53 hd1 (by norm_num) hlt1
  rw [hr1]
  dsimp only
  -- the fraction is below 1 - 1/10^9 + 1/2^54
  have hkBq : (0 : ℚ) < 2 ^ kB := by positivity
  have hkCq : (0 : ℚ) < 2 ^ kC := by positivity
  have hk1q : (0 : ℚ) < 2 ^ k1 := by positivity
  have hkAq : (0 : ℚ) < 2 ^ kA := by positivity
  have hfrac : (p1 : ℚ) / 2 ^ k1 ≤ 1 - 1 / 1000000000 + 1 / 2 ^ 54 := by
    have e : ((nsec * 2 ^ kB * 2 ^ kC : Nat) : ℚ) / ((1000000000 * 2 ^ kC * 2 ^ kB : Nat) : ℚ)
        = (nsec : ℚ) / 1000000000 := by
      push_cast
      field_simp
      ring
    rw [e] at hle1
    have hn : (nsec : ℚ) ≤ 1000000000 - 1 := by
      have : nsec + 1 ≤ 1000000000 := hn9
      have : ((nsec + 1 : Nat) : ℚ) ≤ 1000000000 := by exact_mod_cast this
      push_cast at this
      linarith
    have : (nsec : ℚ) / 1000000000 ≤ 1 - 1 / 1000000000 := by
      rw [div_le_iff₀ (by norm_num)]
      linarith
    linarith
  -- the sum
  have hadd : ({ num := ((sec * 2 ^ kA : Nat) : Int), exp := kA } : Float64).add
      { num := (p1 : Int), exp := k1 }
      = { num := ((roundFloat64Abs (sec * 2 ^ kA * 2 ^ k1 + p1 * 2 ^ kA) (2 ^ (kA + k1))).1 : Int),
          exp := (roundFloat64Abs (sec * 2 ^ kA * 2 ^ k1 + p1 * 2 ^ kA) (2 ^ (kA + k1))).2 } := by
    unfold Float64.add
    dsimp only
    exact roundFloat64_natCast _ _ _ (by push_cast; ring)
  rw [hadd]
  have hval : ((sec * 2 ^ kA * 2 ^ k1 + p1 * 2 ^ kA : Nat) : ℚ) / ((2 ^ (kA + k1) : Nat) : ℚ)
      = (sec : ℚ) + (p1 : ℚ) / 2 ^ k1 := by
    push_cast
    rw [pow_add]
    field_simp
    ring
  have hsecq : (sec : ℚ) ≤ (M : ℚ) - 1 := by
    have : sec + 1 ≤ M := hs
    have : ((sec + 1 : Nat) : ℚ) ≤ (M : ℚ) := by exact_mod_cast this
    push_cast at this
    linarith
  have hMq : (M : ℚ) * 2 ^ j = 2 ^ 53 := by exact_mod_cast hM
  have hlt2 : (sec * 2 ^ kA * 2 ^ k1 + p1 * 2 ^ kA) * 2 ^ j < 2 ^ (kA + k1) * 2 ^ 53 := by
    have hq : ((sec * 2 ^ kA * 2 ^ k1 + p1 * 2 ^ kA : Nat) : ℚ) * 2 ^ j
        < ((2 ^ (kA + k1) : Nat) : ℚ) * 2 ^ 53 := by
      have hpos : (0 : ℚ) < ((2 ^ (kA + k1) : Nat) : ℚ) := by positivity
      have h1 : ((sec * 2 ^ kA * 2 ^ k1 + p1 * 2 ^ kA : Nat) : ℚ)
          = ((sec : ℚ) + (p1 : ℚ) / 2 ^ k1) * ((2 ^ (kA + k1) : Nat) : ℚ) := by
        rw [← hval]
        field_simp
      rw [h1]
      have h2 : (sec : ℚ) + (p1 : ℚ) / 2 ^ k1 < (M : ℚ) := by
        have : (1 : ℚ) / 2 ^ 54 < 1 / 1000000000 := by norm_num
        linarith
      have hjq : (0 : ℚ) < 2 ^ j := by positivity
      have h3 : ((sec : ℚ) + (p1 : ℚ) / 2 ^ k1) * 2 ^ j < 2 ^ 53 := by
        rw [← hMq]
        exact mul_lt_mul_of_pos_right h2 hjq
      calc ((sec : ℚ) + (p1 : ℚ) / 2 ^ k1) * ((2 ^ (kA + k1) : Nat) : ℚ) * 2 ^ j
          = ((sec : ℚ) + (p1 : ℚ) / 2 ^ k1) * 2 ^ j * ((2 ^ (kA + k1) : Nat) : ℚ) := by ring
        _ < 2 ^ 53 * ((2 ^ (kA + k1) : Nat) : ℚ) := mul_lt_mul_of_pos_right h3 hpos
        _ = ((2 ^ (kA + k1) : Nat) : ℚ) * 2 ^ 53 := by ring
    exact_mod_cast hq
  obtain ⟨p2, k2, hr2, hle2, hge2⟩ := roundFloat64Abs_spec _ _ j (Nat.two_pow_pos _)
    hj hlt2
  rw [hr2]
  rw [hval] at hle2
  refine ⟨p2, k2, rfl, ?_, ?_⟩
  · apply hge2
    have : sec * 2 ^ (kA + k1) = sec * 2 ^ kA * 2 ^ k1 := by rw [pow_add]; ring
    omega
  · linarith

theorem Float64.toInt64_natCast (p k : Nat) :
    ({ num := (p : Int), exp := k } : Float64).toInt64 = ((p / 2 ^ k : Nat) : Int) := by
  unfold Float64.toInt64
  dsimp only
  rw [Int.tdiv_eq_ediv (by omega) (by positivity)]
  norm_cast

/-- The value `int64(d.Seconds())` is the whole seconds of `d` for every duration `d` from 0 to
below 2^24 seconds: the two roundings of `Seconds` stay below the next whole second. -/
theorem durationSeconds_exact (D : Nat) (hB : D < 16777216000000000) :
    durationSeconds (D : Int) = ((D / 1000000000 : Nat) : Int) := by
  obtain ⟨p, k, hS, hlow, hle⟩ := Seconds_spec D 16777216 29 (by norm_num) (by norm_num)
    (by omega)
  unfold durationSeconds
  rw [hS, Float64.toInt64_natCast]
  have hkq : (0 : ℚ) < 2 ^ k := by positivity
  have hup : p < (D / 1000000000 + 1) * 2 ^ k := by
    have hq : (p : ℚ) < ((D / 1000000000 + 1 : Nat) : ℚ) * 2 ^ k := by
      have : (p : ℚ) / 2 ^ k < ((D / 1000000000 : Nat) : ℚ) + 1 := by
        have : (1 : ℚ) / 2 ^ 54 + 1 / 2 ^ (29 + 1) < 1 / 1000000000 := by norm_num
        linarith
      rw [div_lt_iff₀ hkq] at this
      push_cast
      exact this
    exact_mod_cast hq
  rw [Nat.div_eq_of_lt_le hlow hup]

/-- The value `int64(d.Seconds())` is the whole seconds of `d` or one more, for every duration
`d` from 0 that an `int64` holds. -/
theorem durationSeconds_bounds (D : Nat) (hB : D < 2 ^ 63) :
    ((D / 1000000000 : Nat) : Int) ≤ durationSeconds (D : Int) ∧
      durationSeconds (D : Int) ≤ ((D / 1000000000 : Nat) : Int) + 1 := by
  obtain ⟨p, k, hS, hlow, hle⟩ := Seconds_spec D 17179869184 19 (by norm_num) (by norm_num)
    (by omega)
  unfold durationSeconds
  rw [hS, Float64.toInt64_natCast]
  have hkq : (0 : ℚ) < 2 ^ k := by positivity
  have hup : p < (D / 1000000000 + 1 + 1) * 2 ^ k := by
    have hq : (p : ℚ) < ((D / 1000000000 + 1 + 1 : Nat) : ℚ) * 2 ^ k := by
      have : (p : ℚ) / 2 ^ k < ((D / 1000000000 : Nat) : ℚ) + 1 + 1 := by
        have : (1 : ℚ) / 2 ^ 54 + 1 / 2 ^ (19 + 1) < 1 := by norm_num
        linarith
      rw [div_lt_iff₀ hkq] at this
      push_cast
      exact this
    exact_mod_cast hq
  have h1 : D / 1000000000 ≤ p / 2 ^ k := (Nat.le_div_iff_mul_le (Nat.two_pow_pos k)).mpr hlow
  have h2 : p / 2 ^ k < D / 1000000000 + 1 + 1 := (Nat.div_lt_iff_lt_mul (Nat.two_pow_pos k)).mpr hup
  constructor
  · exact_mod_cast h1
  · have : p / 2 ^ k ≤ D / 1000000000 + 1 := by omega
    exact_mod_cast this

theorem floor_seconds (d : Int) : ⌊(d : ℚ) / 1000000000⌋ = d / 1000000000 := by
  rw [Int.floor_eq_iff]
  have h1 := Int.emod_add_ediv d 1000000000
  have h2 := Int.emod_nonneg d (by norm_num : (1000000000 : Int) ≠ 0)
  have h3 := Int.emod_lt_of_pos d (by norm_num : (0 : Int) < 1000000000)
  have hq : (d : ℚ) = ((d % 1000000000 : Int) : ℚ) + 1000000000 * ((d / 1000000000 : Int) : ℚ) := by
    exact_mod_cast h1.symm
  have h2q : (0 : ℚ) ≤ ((d % 1000000000 : Int) : ℚ) := by exact_mod_cast h2
  have h3q : ((d % 1000000000 : Int) : ℚ) < 1000000000 := by exact_mod_cast h3
  constructor
  · rw [le_div_iff₀ (by norm_num)]
    linarith
  · rw [div_lt_iff₀ (by norm_num)]
    linarith

/-- The value `int64(d.Seconds())` against the whole seconds `⌊d / 10^9⌋` of a positive
duration `d` that an `int64` holds: equal below 2^24 seconds, and never less, and at most one
more. -/
theorem durationSeconds_floor (d : Int) (hd : 0 < d) (hI : d < 9223372036854775808) :
    ⌊(d : ℚ) / 1000000000⌋ ≤ durationSeconds d ∧
      durationSeconds d ≤ ⌊(d : ℚ) / 1000000000⌋ + 1 ∧
      (d < 16777216000000000 → durationSeconds d = ⌊(d : ℚ) / 1000000000⌋) := by
  rw [floor_seconds]
  obtain ⟨D, rfl⟩ := Int.eq_ofNat_of_zero_le (le_of_lt hd)
  have hI2 : D < 2 ^ 63 := by
    have : D < 9223372036854775808 := by exact_mod_cast hI
    norm_num
    exact this
  obtain ⟨b1, b2⟩ := durationSeconds_bounds D hI2
  have e : ((D : Int) / 1000000000) = ((D / 1000000000 : Nat) : Int) := by omega
  rw [e]
  refine ⟨b1, b2, ?_⟩
  intro hB
  exact durationSeconds_exact D (by exact_mod_cast hB)

theorem keepaliveTick_writes (sess : Session) (now lastClientActive lastDeviceActive : Int)
    (clientWriteFails deviceWriteFails : Bool) (hne : sess.ClientConn ≠ sess.DeviceConn) :
    (KeepaliveEvent.Write sess.ClientConn telnetNOP ∈
        (keepaliveTick sess now lastClientActive lastDeviceActive clientWriteFails
          deviceWriteFails).1 ↔
      now - lastClientActive ≥ durationSeconds sess.IdleTimeout) ∧
    (KeepaliveEvent.Write sess.DeviceConn telnetNOP ∈
        (keepaliveTick sess now lastClientActive lastDeviceActive clientWriteFails
          deviceWriteFails).1 ↔
      now - lastDeviceActive ≥ durationSeconds sess.IdleTimeout ∧
      ¬ (now - lastClientActive ≥ durationSeconds sess.IdleTimeout ∧
          clientWriteFails = true)) := by
  have hne2 : sess.DeviceConn ≠ sess.ClientConn := fun h => hne h.symm
  unfold keepaliveTick
  by_cases hc : now - lastClientActive ≥ durationSeconds sess.IdleTimeout
  · by_cases hd : now - lastDeviceActive ≥ durationSeconds sess.IdleTimeout
    · cases clientWriteFails <;> cases deviceWriteFails <;> simp [hc, hd, hne, hne2]
    · cases clientWriteFails <;> cases deviceWriteFails <;> simp [hc, hd, hne, hne2]
  · by_cases hd : now - lastDeviceActive ≥ durationSeconds sess.IdleTimeout
    · cases clientWriteFails <;> cases deviceWriteFails <;> simp [hc, hd, hne, hne2]
    · cases clientWriteFails <;> cases deviceWriteFails <;> simp [hc, hd, hne, hne2]

/-- Claim C29, amended: the idle test of the bridge keepalive compares whole seconds. Let
IdleTimeout be positive (a number of nanoseconds that an `int64` holds, so below 2^63), let `now`,
`lastClient`, `lastDevice` be instants (exact rational times in seconds, of which the code sees
the whole-second Unix timestamps), and let `S` be the code's `int64(IdleTimeout.Seconds())`.
Then `S` is the whole seconds `⌊IdleTimeout⌋` or one more, and it is `⌊IdleTimeout⌋` when
IdleTimeout is below 2^24 seconds. On a tick at time `now` the bridge writes the Telnet NOP to
the client iff `⌊now⌋ - ⌊lastClient⌋ ≥ S`, and to the device iff the same holds of `lastDevice`
and the tick has not ended on a failed write to the client. When the NOP is written, `now - last`
is more than `⌊IdleTimeout⌋ - 1` seconds; and for IdleTimeout below 2^24 seconds the NOP is
written whenever `now - last ≥ IdleTimeout`. -/
theorem keepaliveTick_idle_test (sess : Session) (now lastClient lastDevice : ℚ)
    (clientWriteFails deviceWriteFails : Bool)
    (hT : 0 < sess.IdleTimeout) (hI : sess.IdleTimeout < 9223372036854775808)
    (hne : sess.ClientConn ≠ sess.DeviceConn) :
    (⌊(sess.IdleTimeout : ℚ) / 1000000000⌋ ≤ durationSeconds sess.IdleTimeout ∧
      durationSeconds sess.IdleTimeout ≤ ⌊(sess.IdleTimeout : ℚ) / 1000000000⌋ + 1) ∧
    (sess.IdleTimeout < 16777216000000000 →
      durationSeconds sess.IdleTimeout = ⌊(sess.IdleTimeout : ℚ) / 1000000000⌋) ∧
    (KeepaliveEvent.Write sess.ClientConn telnetNOP ∈
        (keepaliveTick sess ⌊now⌋ ⌊lastClient⌋ ⌊lastDevice⌋ clientWriteFails
          deviceWriteFails).1 ↔
      ⌊now⌋ - ⌊lastClient⌋ ≥ durationSeconds sess.IdleTimeout) ∧
    (KeepaliveEvent.Write sess.DeviceConn telnetNOP ∈
        (keepaliveTick sess ⌊now⌋ ⌊lastClient⌋ ⌊lastDevice⌋ clientWriteFails
          deviceWriteFails).1 ↔
      ⌊now⌋ - ⌊lastDevice⌋ ≥ durationSeconds sess.IdleTimeout ∧
      ¬ (⌊now⌋ - ⌊lastClient⌋ ≥ durationSeconds sess.IdleTimeout ∧
          clientWriteFails = true)) ∧
    (∀ last : ℚ, ⌊now⌋ - ⌊last⌋ ≥ durationSeconds sess.IdleTimeout →
      now - last > (⌊(sess.IdleTimeout : ℚ) / 1000000000⌋ : ℚ) - 1) ∧
    (sess.IdleTimeout < 16777216000000000 →
      ∀ last : ℚ, now - last ≥ (sess.IdleTimeout : ℚ) / 1000000000 →
        ⌊now⌋ - ⌊last⌋ ≥ durationSeconds sess.IdleTimeout) := by
  obtain ⟨f1, f2, f3⟩ := durationSeconds_floor sess.IdleTimeout hT hI
  obtain ⟨h1, h2⟩ := keepaliveTick_writes sess ⌊now⌋ ⌊lastClient⌋ ⌊lastDevice⌋
    clientWriteFails deviceWriteFails hne
  refine ⟨⟨f1, f2⟩, f3, h1, h2, ?_, ?_⟩
  · intro last h
    have h3 := Int.floor_le now
    have h4 := Int.lt_floor_add_one last
    have h5 : ((⌊last⌋ + ⌊(sess.IdleTimeout : ℚ) / 1000000000⌋ : Int) : ℚ) ≤ (⌊now⌋ : ℚ) := by
      exact_mod_cast (by omega : ⌊last⌋ + ⌊(sess.IdleTimeout : ℚ) / 1000000000⌋ ≤ ⌊now⌋)
    push_cast at h5
    linarith
  · intro hB last h
    rw [f3 hB]
    have h3 : last + (sess.IdleTimeout : ℚ) / 1000000000 ≤ now := by linarith
    have h4 := Int.floor_mono h3
    have h5 := Int.le_floor_add last ((sess.IdleTimeout : ℚ) / 1000000000)
    omega

/-- A session with an IdleTimeout of 30 seconds between the connections 7 and 3 satisfies the
hypotheses of `keepaliveTick_idle_test`; the code's whole seconds of it are 30. -/
theorem keepaliveTick_idle_test_witness :
    durationSeconds 30000000000 = ⌊((30000000000 : Int) : ℚ) / 1000000000⌋ :=
  (keepaliveTick_idle_test
    { ID := [], DeviceID := [], ClientConn := 7, DeviceConn := 3, StartedAt := 0, BytesIn := 0,
      BytesOut := 0, Debug := false, IdleTimeout := 30000000000 }
    30 (9 / 10) 0 false false (by decide) (by decide) (by decide)).2.1 (by decide)

/-- Claim C29, counterexample: IdleTimeout is 30 seconds, the client was last active at the
instant 0.9 and the tick comes at the instant 30. Then `now - last` is 29.1 seconds, less than
IdleTimeout, but the Unix timestamps are 30 and 0 and the bridge writes the NOP to the client.
When both sides have been idle for 40 seconds and the write to the client fails, no NOP is
written to the device. And with an IdleTimeout of 16777216.999999999 seconds (above 2^24
seconds), a client last active at the instant 0 and a tick at the instant 16777216.999999999,
`now - last` is IdleTimeout but no NOP is written: `int64(IdleTimeout.Seconds())` is 16777217,
the sum in `float64` having rounded up. -/
theorem keepaliveTick_idle_counterexample :
    ((30 : ℚ) - 9 / 10 < ((30000000000 : Int) : ℚ) / 1000000000 ∧
      keepaliveTick
          { ID := [], DeviceID := [], ClientConn := 7, DeviceConn := 3, StartedAt := 0,
            BytesIn := 0, BytesOut := 0, Debug := false, IdleTimeout := 30000000000 }
          ⌊(30 : ℚ)⌋ ⌊(9 / 10 : ℚ)⌋ ⌊(30 : ℚ)⌋ false false
        = ([KeepaliveEvent.Write 7 telnetNOP], true)) ∧
    ((40 : ℚ) - 0 ≥ ((30000000000 : Int) : ℚ) / 1000000000 ∧
      keepaliveTick
          { ID := [], DeviceID := [], ClientConn := 7, DeviceConn := 3, StartedAt := 0,
            BytesIn := 0, BytesOut := 0, Debug := false, IdleTimeout := 30000000000 }
          ⌊(40 : ℚ)⌋ ⌊(0 : ℚ)⌋ ⌊(0 : ℚ)⌋ true false
        = ([KeepaliveEvent.Write 7 telnetNOP, KeepaliveEvent.CloseConn 7], false)) ∧
    ((16777216999999999 / 1000000000 : ℚ) - 0
        ≥ ((16777216999999999 : Int) : ℚ) / 1000000000 ∧
      durationSeconds 16777216999999999 = 16777217 ∧
      keepaliveTick
          { ID := [], DeviceID := [], ClientConn := 7, DeviceConn := 3, StartedAt := 0,
            BytesIn := 0, BytesOut := 0, Debug := false, IdleTimeout := 16777216999999999 }
          ⌊(16777216999999999 / 1000000000 : ℚ)⌋ ⌊(0 : ℚ)⌋ ⌊(0 : ℚ)⌋ false false
        = ([], true)) := by
  have h1 : ⌊(30 : ℚ)⌋ = 30 := by norm_num
  have h2 : ⌊(9 / 10 : ℚ)⌋ = 0 := by norm_num [Int.floor_eq_iff]
  have h3 : ⌊(40 : ℚ)⌋ = 40 := by norm_num
  have h4 : ⌊(0 : ℚ)⌋ = 0 := by norm_num
  have h5 : ⌊(16777216999999999 / 1000000000 : ℚ)⌋ = 16777216 := by
    norm_num [Int.floor_eq_iff]
  rw [h1, h2, h3, h4, h5]
  refine ⟨⟨by norm_num, by decide⟩, ⟨by norm_num, by decide⟩, ⟨by norm_num, by decide, by decide⟩⟩

/-! ### Sessions per device (C22) -/

/-- Claim C22, the failing run: with nothing registered, a device registers as "dev1" on
connection 3, a client on connection 7 connects to it, a second device registers as "dev1" on
connection 4 (a takeover) before the bridge of the first session has returned, and a client on
connection 8 connects. After the takeover the new entry of "dev1" is not busy although the
session of the first client is live; after the second client the session manager holds two
live sessions with the DeviceID "dev1". -/
theorem dispatcher_two_sessions_one_device :
    (runDispatcher
        { AuthToken := [], InitTimeout := 0, PostConnectTimeout := 0, IdleTimeout := 0,
          Debug := false }
        { registry := NewRegistry, sessions := NewManager false 0 }
        [DispatcherOp.Accept
            { since := fun _ _ => 0, writeFails := fun _ => false, buffered := 0, unix := 0,
              now := 0 }
            3 ([0x41, 0x54, 0x2B, 0x52, 0x45, 0x47, 0x3D, 0x64, 0x65, 0x76, 0x31] ++ [CR, LF]),
         DispatcherOp.Accept
            { since := fun _ _ => 0, writeFails := fun _ => false, buffered := 0, unix := 0,
              now := 0 }
            7 ([0x41, 0x54, 0x2B, 0x43, 0x4F, 0x4E, 0x4E, 0x45, 0x43, 0x54, 0x3D, 0x64, 0x65,
                0x76, 0x31] ++ [CR, LF])]).OneSessionPerDevice ∧
    (runDispatcher
        { AuthToken := [], InitTimeout := 0, PostConnectTimeout := 0, IdleTimeout := 0,
          Debug := false }
        { registry := NewRegistry, sessions := NewManager false 0 }
        [DispatcherOp.Accept
            { since := fun _ _ => 0, writeFails := fun _ => false, buffered := 0, unix := 0,
              now := 0 }
            3 ([0x41, 0x54, 0x2B, 0x52, 0x45, 0x47, 0x3D, 0x64, 0x65, 0x76, 0x31] ++ [CR, LF]),
         DispatcherOp.Accept
            { since := fun _ _ => 0, writeFails := fun _ => false, buffered := 0, unix := 0,
              now := 0 }
            7 ([0x41, 0x54, 0x2B, 0x43, 0x4F, 0x4E, 0x4E, 0x45, 0x43, 0x54, 0x3D, 0x64, 0x65,
                0x76, 0x31] ++ [CR, LF])]).BusyIffSession ∧
    ¬ (runDispatcher
        { AuthToken := [], InitTimeout := 0, PostConnectTimeout := 0, IdleTimeout := 0,
          Debug := false }
        { registry := NewRegistry, sessions := NewManager false 0 }
        [DispatcherOp.Accept
            { since := fun _ _ => 0, writeFails := fun _ => false, buffered := 0, unix := 0,
              now := 0 }
            3 ([0x41, 0x54, 0x2B, 0x52, 0x45, 0x47, 0x3D, 0x64, 0x65, 0x76, 0x31] ++ [CR, LF]),
         DispatcherOp.Accept
            { since := fun _ _ => 0, writeFails := fun _ => false, buffered := 0, unix := 0,
              now := 0 }
            7 ([0x41, 0x54, 0x2B, 0x43, 0x4F, 0x4E, 0x4E, 0x45, 0x43, 0x54, 0x3D, 0x64, 0x65,
                0x76, 0x31] ++ [CR, LF]),
         DispatcherOp.Accept
            { since := fun _ _ => 0, writeFails := fun _ => false, buffered := 0, unix := 0,
              now := 0 }
            4 ([0x41, 0x54, 0x2B, 0x52, 0x45, 0x47, 0x3D, 0x64, 0x65, 0x76, 0x31] ++
                [CR, LF])]).BusyIffSession ∧
    ¬ (runDispatcher
        { AuthToken := [], InitTimeout := 0, PostConnectTimeout := 0, IdleTimeout := 0,
          Debug := false }
        { registry := NewRegistry, sessions := NewManager false 0 }
        [DispatcherOp.Accept
            { since := fun _ _ => 0, writeFails := fun _ => false, buffered := 0, unix := 0,
              now := 0 }
            3 ([0x41, 0x54, 0x2B, 0x52, 0x45, 0x47, 0x3D, 0x64, 0x65, 0x76, 0x31] ++ [CR, LF]),
         DispatcherOp.Accept
            { since := fun _ _ => 0, writeFails := fun _ => false, buffered := 0, unix := 0,
              now := 0 }
            7 ([0x41, 0x54, 0x2B, 0x43, 0x4F, 0x4E, 0x4E, 0x45, 0x43, 0x54, 0x3D, 0x64, 0x65,
                0x76, 0x31] ++ [CR, LF]),
         DispatcherOp.Accept
            { since := fun _ _ => 0, writeFails := fun _ => false, buffered := 0, unix := 0,
              now := 0 }
            4 ([0x41, 0x54, 0x2B, 0x52, 0x45, 0x47, 0x3D, 0x64, 0x65, 0x76, 0x31] ++ [CR, LF]),
         DispatcherOp.Accept
            { since := fun _ _ => 0, writeFails := fun _ => false, buffered := 0, unix := 0,
              now := 0 }
            8 ([0x41, 0x54, 0x2B, 0x43, 0x4F, 0x4E, 0x4E, 0x45, 0x43, 0x54, 0x3D, 0x64, 0x65,
                0x76, 0x31] ++ [CR, LF])]).OneSessionPerDevice ∧
    (runDispatcher
        { AuthToken := [], InitTimeout := 0, PostConnectTimeout := 0, IdleTimeout := 0,
          Debug := false }
        { registry := NewRegistry, sessions := NewManager false 0 }
        [DispatcherOp.Accept
            { since := fun _ _ => 0, writeFails := fun _ => false, buffered := 0, unix := 0,
              now := 0 }
            3 ([0x41, 0x54, 0x2B, 0x52, 0x45, 0x47, 0x3D, 0x64, 0x65, 0x76, 0x31] ++ [CR, LF]),
         DispatcherOp.Accept
            { since := fun _ _ => 0, writeFails := fun _ => false, buffered := 0, unix := 0,
              now := 0 }
            7 ([0x41, 0x54, 0x2B, 0x43, 0x4F, 0x4E, 0x4E, 0x45, 0x43, 0x54, 0x3D, 0x64, 0x65,
                0x76, 0x31] ++ [CR, LF]),
         DispatcherOp.Accept
            { since := fun _ _ => 0, writeFails := fun _ => false, buffered := 0, unix := 0,
              now := 0 }
            4 ([0x41, 0x54, 0x2B, 0x52, 0x45, 0x47, 0x3D, 0x64, 0x65, 0x76, 0x31] ++ [CR, LF]),
         DispatcherOp.Accept
            { since := fun _ _ => 0, writeFails := fun _ => false, buffered := 0, unix := 0,
              now := 0 }
            8 ([0x41, 0x54, 0x2B, 0x43, 0x4F, 0x4E, 0x4E, 0x45, 0x43, 0x54, 0x3D, 0x64, 0x65,
                0x76, 0x31] ++ [CR, LF])]).sessions.List.map
        (fun s => (s.ID, s.DeviceID, s.ClientConn, s.DeviceConn))
      = [([0x73, 0x65, 0x73, 0x73, 0x5F, 0x30, 0x5F, 0x31], [0x64, 0x65, 0x76, 0x31], 7, 3),
         ([0x73, 0x65, 0x73, 0x73, 0x5F, 0x30, 0x5F, 0x32], [0x64, 0x65, 0x76, 0x31], 8, 4)] := by
  decide

end ProxyRFC2217
